import Mathlib

/-!
Masternode payment votes and budget governance.

A shallow embedding of the payment-vote bookkeeping of
`src/masternode/masternode-payments.{h,cpp}`, of the budget governance of
`src/masternode/masternode-budget.{h,cpp}` and of the masternode lifecycle, the
admission of pings and broadcasts and the scores of `src/masternode/masternode.{h,cpp}`.

Conventions of the embedding:

* `uint256` values are natural numbers (`Nat`); `arith_uint256` addition is taken
  modulo `2^256`.
* `int`, `int64_t` and `CAmount` values are integers (`Int`).  Signed overflow is
  undefined behaviour in the source, so signed arithmetic is carried out in
  the integers; `/` and `%` are the truncating `Int.tdiv` and `Int.tmod`.
* a `CScript` is its list of bytes.
* a `std::map` with `uint256` keys is an association list (`StdMap`), one with `int`
  keys a `StdIntMap`; where the source only iterates over the values, the map is the
  list of its values in iteration order.
* a function that accesses memory through a null pointer returns `Except.error` there,
  and so does every function that calls it at that point.
* member functions that mutate their object return the new object next to
  their result; log output and the `strError` out-parameter are left out.
* functions of the node that are declared outside these files (chain
  parameters, block subsidy, masternode registry, clock, transaction lookup,
  the hash writer) are the fields of `Env` and `CollateralEnv`.
-/

namespace Myce

/-- A script, as its bytes. -/
abbrev CScript := List Nat

/-- An association list standing for a `std::map` with `uint256` keys. -/
abbrev StdMap (V : Type) := List (Nat × V)

namespace StdMap

/-- The test `m.count(k) != 0`. -/
def contains {V : Type} (m : StdMap V) (k : Nat) : Bool :=
  m.any (fun e => e.1 == k)

/-- The value stored under `k`, if any. -/
def find {V : Type} (m : StdMap V) (k : Nat) : Option V :=
  List.lookup k m

/-- The assignment `m[k] = v`: overwrite the entry of `k`, or add it in key order. -/
def assign {V : Type} : StdMap V → Nat → V → StdMap V
  | [], k, v => [(k, v)]
  | (k1, v1) :: rest, k, v =>
      if k < k1 then (k, v) :: (k1, v1) :: rest
      else if k = k1 then (k, v) :: rest
      else (k1, v1) :: assign rest k v

/-- The call `m.insert(std::make_pair(k, v))`: no effect when `k` is present. -/
def insert {V : Type} (m : StdMap V) (k : Nat) (v : V) : StdMap V :=
  if contains m k then m else assign m k v

end StdMap

/-- The outpoint of a transaction output: transaction hash and output index. -/
structure COutPoint where
  hash : Nat
  n : Nat
deriving DecidableEq, Repr

/-- A transaction output. -/
structure CTxOut where
  nValue : Int
  scriptPubKey : CScript
deriving DecidableEq, Repr

/-- The part of a block index entry the code reads: its height. -/
structure CBlockIndex where
  nHeight : Int
deriving DecidableEq, Repr

/-! ## Payment votes (`masternode-payments.h`, `masternode-payments.cpp`) -/

/-- The constant `MNPAYMENTS_SIGNATURES_REQUIRED`. -/
def MNPAYMENTS_SIGNATURES_REQUIRED : Int := 6

/-- A payee of a block height with its number of votes. -/
structure CMasternodePayee where
  scriptPubKey : CScript
  nVotes : Int
deriving DecidableEq, Repr

/-- The tally of payees of one block height. -/
structure CMasternodeBlockPayees where
  nBlockHeight : Int
  vecPayments : List CMasternodePayee
deriving DecidableEq, Repr

/-- The state of `CMasternodePayments` that `CanVote` reads and writes. -/
structure CMasternodePayments where
  mapMasternodesLastVote : StdMap Int
deriving DecidableEq, Repr

namespace CMasternodePayments

/-- The key `UintToArith256(outMasternode.hash) + outMasternode.n` of `CanVote`. -/
def voteHash (outMasternode : COutPoint) : Nat :=
  (outMasternode.hash + outMasternode.n) % 2 ^ 256

/-- The method `CMasternodePayments::CanVote`: refuse when the last recorded vote of
the key is for `nBlockHeight`, else record `nBlockHeight` and accept. -/
def CanVote (self : CMasternodePayments) (outMasternode : COutPoint) (nBlockHeight : Int) :
    Bool × CMasternodePayments :=
  match self.mapMasternodesLastVote.find (voteHash outMasternode) with
  | some nLast =>
      if nLast = nBlockHeight then (false, self)
      else (true, { self with mapMasternodesLastVote :=
              self.mapMasternodesLastVote.assign (voteHash outMasternode) nBlockHeight })
  | none =>
      (true, { self with mapMasternodesLastVote :=
              self.mapMasternodesLastVote.assign (voteHash outMasternode) nBlockHeight })

/-- A sequence of `CanVote` calls, run one after the other: the results in call order
and the final state. -/
def CanVoteCalls (self : CMasternodePayments) :
    List (COutPoint × Int) → List Bool × CMasternodePayments
  | [] => ([], self)
  | (outMasternode, nBlockHeight) :: rest =>
      let r := self.CanVote outMasternode nBlockHeight
      let rs := CanVoteCalls r.2 rest
      (r.1 :: rs.1, rs.2)

end CMasternodePayments

namespace CMasternodeBlockPayees

/-- The first loop of `IsTransactionValid`: the highest vote count that reaches
`MNPAYMENTS_SIGNATURES_REQUIRED`, or 0. -/
def nMaxSignatures (vecPayments : List CMasternodePayee) : Int :=
  vecPayments.foldl
    (fun nMax payee =>
      if payee.nVotes ≥ nMax ∧ payee.nVotes ≥ MNPAYMENTS_SIGNATURES_REQUIRED then payee.nVotes
      else nMax)
    0

/-- The inner loop of `IsTransactionValid` over the outputs of the transaction: the
flag `found` for one payee. -/
def found (payee : CMasternodePayee) (vout : List CTxOut) (requiredMasternodePayment : Int) :
    Bool :=
  vout.foldl
    (fun fnd out =>
      if payee.scriptPubKey = out.scriptPubKey then
        (if out.nValue ≥ requiredMasternodePayment then true else fnd)
      else fnd)
    false

/-- The second loop of `IsTransactionValid` over the payees. -/
def payeeLoop (vout : List CTxOut) (requiredMasternodePayment : Int) :
    List CMasternodePayee → Bool
  | [] => false
  | payee :: rest =>
      if payee.nVotes ≥ MNPAYMENTS_SIGNATURES_REQUIRED then
        (if found payee vout requiredMasternodePayment then true
         else payeeLoop vout requiredMasternodePayment rest)
      else payeeLoop vout requiredMasternodePayment rest

/-- The method `CMasternodeBlockPayees::IsTransactionValid`.  `vout` are the outputs of
`txNew`; `requiredMasternodePayment` is the value the source computes with
`GetMasternodePayment` from the block subsidy at the chain tip. -/
def IsTransactionValid (self : CMasternodeBlockPayees) (vout : List CTxOut)
    (requiredMasternodePayment : Int) : Bool :=
  if nMaxSignatures self.vecPayments < MNPAYMENTS_SIGNATURES_REQUIRED then true
  else payeeLoop vout requiredMasternodePayment self.vecPayments

end CMasternodeBlockPayees

/-! ## Budget governance (`masternode-budget.h`, `masternode-budget.cpp`) -/

/-- The items a `CHashWriter` is fed by the `GetHash` methods, in order. -/
inductive SerItem where
  | str (s : String)
  | int32 (v : Int)
  | int64 (v : Int)
  | script (s : CScript)
  | u256 (v : Nat)
  | vecSize (n : Nat)
deriving DecidableEq, Repr

/-! ## The collateral of a proposal or finalized budget (`masternode-budget.cpp`) -/

/-- A transaction, as far as `IsBudgetCollateralValid` reads it. -/
structure CTransaction where
  vout : List CTxOut
  nLockTime : Int
deriving DecidableEq, Repr

/-- An entry of the block index, as far as `IsBudgetCollateralValid` reads it;
`fInActiveChain` is `ActiveChain().Contains(pindex)`. -/
structure CollateralBlock where
  nHeight : Int
  nTime : Int
  fInActiveChain : Bool
deriving DecidableEq, Repr

/-- The collaborators of `IsBudgetCollateralValid`.
* `GetTransaction hash`: the transaction `node::GetTransaction` returns and the block
  hash it writes, `none` for a null `CTransactionRef`;
* `IsNormalPaymentScript`, `IsUnspendable`: the script tests;
* `findScript nExpectedHash`: the script `OP_RETURN << ToByteVector(nExpectedHash)`;
* `GetIXConfirmations`: the function of that name;
* `m_block_index`: the lookup of a block hash in the block index;
* `Height`: `ActiveChain().Height()`;
* `nBudgetFeeConfirmations`: the consensus parameter;
* `COIN`: the number of base units of one coin. -/
structure CollateralEnv where
  GetTransaction : Nat → Option (CTransaction × Nat)
  IsNormalPaymentScript : CScript → Bool
  IsUnspendable : CScript → Bool
  findScript : Nat → CScript
  GetIXConfirmations : Nat → Int
  m_block_index : Nat → Option CollateralBlock
  Height : Int
  nBudgetFeeConfirmations : Int
  COIN : Int

/-- A fault of the process: an access through a null pointer. -/
inductive Fault where
  | nullDereference
deriving DecidableEq, Repr

deriving instance DecidableEq for Except

/-- The loop of `IsBudgetCollateralValid` over the outputs of the collateral
transaction, from the flag `foundOpReturn` onwards: `none` when an output has an
invalid script, else the flag. -/
def IsBudgetCollateralValidLoop (env : CollateralEnv) (findScript : CScript)
    (fBudgetFinalization : Bool) : List CTxOut → Bool → Option Bool
  | [], foundOpReturn => some foundOpReturn
  | o :: rest, foundOpReturn =>
      if !env.IsNormalPaymentScript o.scriptPubKey && !env.IsUnspendable o.scriptPubKey then none
      else if fBudgetFinalization then
        if o.scriptPubKey = findScript ∧ o.nValue ≥ 5 * env.COIN then
          IsBudgetCollateralValidLoop env findScript fBudgetFinalization rest true
        else IsBudgetCollateralValidLoop env findScript fBudgetFinalization rest foundOpReturn
      else
        if o.scriptPubKey = findScript ∧ o.nValue ≥ 20 * env.COIN then
          IsBudgetCollateralValidLoop env findScript fBudgetFinalization rest true
        else IsBudgetCollateralValidLoop env findScript fBudgetFinalization rest foundOpReturn

/-- The function `IsBudgetCollateralValid`: a fault, or the result with `nTime` and
`nConf` as the call leaves them.  Where no collateral transaction is found, the source
builds its error message from `txCollateral->ToString()`, an access through the null
pointer. -/
def IsBudgetCollateralValid (env : CollateralEnv) (nTxCollateralHash nExpectedHash : Nat)
    (nTime : Int) (nConf : Int) (fBudgetFinalization : Bool) :
    Except Fault (Bool × Int × Int) :=
  match env.GetTransaction nTxCollateralHash with
  | none => Except.error Fault.nullDereference
  | some (txCollateral, nBlockHash) =>
      if txCollateral.vout.length < 1 then Except.ok (false, nTime, nConf)
      else if txCollateral.nLockTime ≠ 0 then Except.ok (false, nTime, nConf)
      else
        match IsBudgetCollateralValidLoop env (env.findScript nExpectedHash) fBudgetFinalization
            txCollateral.vout false with
        | none => Except.ok (false, nTime, nConf)
        | some foundOpReturn =>
            if !foundOpReturn then Except.ok (false, nTime, nConf)
            else
              let conf0 := env.GetIXConfirmations nTxCollateralHash
              let found : Int × Int :=
                if nBlockHash ≠ 0 then
                  match env.m_block_index nBlockHash with
                  | some pindex =>
                      if pindex.fInActiveChain then
                        (conf0 + (env.Height - pindex.nHeight + 1), pindex.nTime)
                      else (conf0, nTime)
                  | none => (conf0, nTime)
                else (conf0, nTime)
              if found.1 ≥ env.nBudgetFeeConfirmations then Except.ok (true, found.2, found.1)
              else Except.ok (false, found.2, found.1)

/-! ## Proposals and finalized budgets -/

/-- The collaborators of the budget code that are declared outside the source files at
hand.
* `fMainNet`: `Params().NetworkIDString() == CBaseChainParams::MAIN`;
* `nPowTargetSpacing`, `nPoWBlock`: consensus parameters;
* `COIN`: the number of base units of one coin;
* `GetBlockSubsidy height fProofOfStake`: the block subsidy;
* `CountEnabled`: `mnodeman.CountEnabled(PROTOCOL_VERSION - 1)`;
* `Find prevout`: whether `mnodeman.Find(vin)` finds a masternode;
* `VerifyMessage prevout vchSig`: the signature check of `legacySigner`;
* `GetTime`: the clock;
* `collateral`: the chain state that `IsBudgetCollateralValid` reads;
* `IsPayToScriptHash`: the script test;
* `HashWriter`: the hash a `CHashWriter` returns for the items written to it. -/
structure Env where
  fMainNet : Bool
  nPowTargetSpacing : Int
  nPoWBlock : Int
  COIN : Int
  GetBlockSubsidy : Int → Bool → Int
  CountEnabled : Int
  Find : COutPoint → Bool
  VerifyMessage : COutPoint → List Nat → Bool
  GetTime : Int
  collateral : CollateralEnv
  IsPayToScriptHash : CScript → Bool
  HashWriter : List SerItem → Nat

/-- The vote value `VOTE_ABSTAIN`. -/
def VOTE_ABSTAIN : Int := 0

/-- The vote value `VOTE_YES`. -/
def VOTE_YES : Int := 1

/-- The vote value `VOTE_NO`. -/
def VOTE_NO : Int := 2

/-- The constant `BUDGET_VOTE_UPDATE_MIN`. -/
def BUDGET_VOTE_UPDATE_MIN : Int := 60 * 60

/-- The result of checking a block transaction against the budget. -/
inductive TrxValidationStatus where
  | InValid
  | Valid
  | DoublePayment
  | VoteThreshold
deriving DecidableEq, Repr

/-- The function `GetBudgetPaymentCycleBlocks`. -/
def GetBudgetPaymentCycleBlocks (env : Env) : Int :=
  if env.fMainNet then (14 * 24 * 60 * 60 : Int).tdiv env.nPowTargetSpacing
  else (24 * 6 * 60 : Int).tdiv env.nPowTargetSpacing

/-- A vote of a masternode on a budget proposal; `vin` is held as its `prevout`. -/
structure CBudgetVote where
  fValid : Bool
  fSynced : Bool
  vin : COutPoint
  nProposalHash : Nat
  nVote : Int
  nTime : Int
  vchSig : List Nat
deriving DecidableEq, Repr

/-- The method `CBudgetVote::SignatureValid`. -/
def CBudgetVote.SignatureValid (env : Env) (self : CBudgetVote) (fSignatureCheck : Bool) : Bool :=
  if !env.Find self.vin then false
  else if !fSignatureCheck then true
  else if !env.VerifyMessage self.vin self.vchSig then false
  else true

/-- A vote of a masternode on a finalized budget. -/
structure CFinalizedBudgetVote where
  fValid : Bool
  fSynced : Bool
  vin : COutPoint
  nBudgetHash : Nat
  nTime : Int
  vchSig : List Nat
deriving DecidableEq, Repr

/-- One payment of a finalized budget. -/
structure CTxBudgetPayment where
  nProposalHash : Nat
  payee : CScript
  nAmount : Int
deriving DecidableEq, Repr

/-- A budget proposal. -/
structure CBudgetProposal where
  nAlloted : Int
  fValid : Bool
  strProposalName : String
  strURL : String
  nBlockStart : Int
  nBlockEnd : Int
  nAmount : Int
  address : CScript
  nTime : Int
  nFeeTXHash : Nat
  mapVotes : StdMap CBudgetVote
deriving DecidableEq, Repr

/-- The method `CBudgetManager::GetTotalBudget`: a tenth of the block subsidies of the
heights `nHeight`, ..., `nHeight + GetBudgetPaymentCycleBlocks() - 1`. -/
def GetTotalBudget (env : Env) (nHeight : Int) : Int :=
  let nSubsidy :=
    (List.range (GetBudgetPaymentCycleBlocks env).toNat).foldl
      (fun (acc : Int) (i : Nat) =>
        acc + env.GetBlockSubsidy (nHeight + (i : Int)) (decide (nHeight + (i : Int) > env.nPoWBlock)))
      0
  nSubsidy.tdiv 10

namespace CBudgetProposal

/-- The method `GetAmount`. -/
def GetAmount (self : CBudgetProposal) : Int := self.nAmount

/-- The method `SetAllotted`. -/
def SetAllotted (self : CBudgetProposal) (nAllotedIn : Int) : CBudgetProposal :=
  { self with nAlloted := nAllotedIn }

/-- The method `GetAllotted`. -/
def GetAllotted (self : CBudgetProposal) : Int := self.nAlloted

/-- The method `GetBlockStart`. -/
def GetBlockStart (self : CBudgetProposal) : Int := self.nBlockStart

/-- The method `CBudgetProposal::GetHash`. -/
def GetHash (env : Env) (self : CBudgetProposal) : Nat :=
  env.HashWriter
    [SerItem.str self.strProposalName, SerItem.str self.strURL, SerItem.int32 self.nBlockStart,
     SerItem.int32 self.nBlockEnd, SerItem.int64 self.nAmount, SerItem.script self.address]

/-- The method `CBudgetProposal::GetYeas`. -/
def GetYeas (self : CBudgetProposal) : Int :=
  self.mapVotes.foldl
    (fun ret e => if e.2.nVote = VOTE_YES ∧ e.2.fValid = true then ret + 1 else ret) 0

/-- The method `CBudgetProposal::GetNays`. -/
def GetNays (self : CBudgetProposal) : Int :=
  self.mapVotes.foldl
    (fun ret e => if e.2.nVote = VOTE_NO ∧ e.2.fValid = true then ret + 1 else ret) 0

/-- The method `CBudgetProposal::CleanAndRemove`. -/
def CleanAndRemove (env : Env) (self : CBudgetProposal) (fSignatureCheck : Bool) :
    CBudgetProposal :=
  { self with mapVotes :=
      self.mapVotes.map (fun e => (e.1, { e.2 with fValid := e.2.SignatureValid env fSignatureCheck })) }

/-- The method `CBudgetProposal::IsEstablished`. -/
def IsEstablished (env : Env) (self : CBudgetProposal) : Bool :=
  if env.fMainNet then decide (self.nTime < env.GetTime - 60 * 60 * 24)
  else decide (self.nTime < env.GetTime - 60 * 5)

/-- The method `CBudgetProposal::IsPassing`. -/
def IsPassing (env : Env) (self : CBudgetProposal) (pindexPrev : Option CBlockIndex)
    (nBlockStartBudget nBlockEndBudget mnCount : Int) : Bool :=
  if !self.fValid then false
  else if pindexPrev.isNone then false
  else if self.nBlockStart > nBlockStartBudget then false
  else if self.nBlockEnd < nBlockEndBudget then false
  else if self.GetYeas - self.GetNays ≤ mnCount.tdiv 10 then false
  else if !self.IsEstablished env then false
  else true

/-- The method `CBudgetProposal::GetBlockStartCycle`. -/
def GetBlockStartCycle (env : Env) (self : CBudgetProposal) : Int :=
  self.nBlockStart - self.nBlockStart.tmod (GetBudgetPaymentCycleBlocks env)

/-- The method `CBudgetProposal::GetBlockEndCycle`. -/
def GetBlockEndCycle (self : CBudgetProposal) : Int := self.nBlockEnd

/-- The method `CBudgetProposal::GetTotalPaymentCount`. -/
def GetTotalPaymentCount (env : Env) (self : CBudgetProposal) : Int :=
  (self.GetBlockEndCycle - self.GetBlockStartCycle env).tdiv (GetBudgetPaymentCycleBlocks env)

/-- The part of `CBudgetProposal::IsValid` after the collateral check, for a proposal
whose collateral is valid or was not checked. -/
def IsValidTail (env : Env) (self1 : CBudgetProposal) (pindex : Option CBlockIndex) :
    Bool × CBudgetProposal :=
  if env.IsPayToScriptHash self1.address then (false, self1)
  else if self1.nAmount > GetTotalBudget env self1.nBlockStart then (false, self1)
  else
    match pindex with
    | none => (true, self1)
    | some tip =>
        let nProposalEnd :=
          self1.GetBlockStart + GetBudgetPaymentCycleBlocks env * self1.GetTotalPaymentCount env
        if nProposalEnd < tip.nHeight then (false, self1) else (true, self1)

/-- The method `CBudgetProposal::IsValid`: a fault of the collateral check, or the
result with the proposal as the call leaves it (the collateral check writes `nTime`). -/
def IsValid (env : Env) (self : CBudgetProposal) (pindex : Option CBlockIndex)
    (fCheckCollateral : Bool) : Except Fault (Bool × CBudgetProposal) :=
  if self.GetNays - self.GetYeas > env.CountEnabled.tdiv 10 then Except.ok (false, self)
  else if self.nBlockStart < 0 then Except.ok (false, self)
  else if self.nBlockEnd < self.nBlockStart then Except.ok (false, self)
  else if self.nAmount < 10 * env.COIN then Except.ok (false, self)
  else if self.address = [] then Except.ok (false, self)
  else if fCheckCollateral then
    match IsBudgetCollateralValid env.collateral self.nFeeTXHash (self.GetHash env) self.nTime 0
        false with
    | Except.error fault => Except.error fault
    | Except.ok collateral =>
        if !collateral.1 then Except.ok (false, { self with nTime := collateral.2.1 })
        else Except.ok (IsValidTail env { self with nTime := collateral.2.1 } pindex)
  else Except.ok (IsValidTail env self pindex)

/-- The method `CBudgetProposal::AddOrUpdateVote`. -/
def AddOrUpdateVote (env : Env) (self : CBudgetProposal) (vote : CBudgetVote) :
    Bool × CBudgetProposal :=
  let hash := vote.vin.hash
  let accept : Bool × CBudgetProposal :=
    if vote.nTime > env.GetTime + 60 * 60 then (false, self)
    else (true, { self with mapVotes := self.mapVotes.assign hash vote })
  match self.mapVotes.find hash with
  | some old =>
      if old.nTime > vote.nTime then (false, self)
      else if vote.nTime - old.nTime < BUDGET_VOTE_UPDATE_MIN then (false, self)
      else accept
  | none => accept

end CBudgetProposal

/-- The comparison `sortProposalsByVotes`: more net votes first, then the greater
collateral hash first. -/
def sortProposalsByVotes (left right : CBudgetProposal × Int) : Bool :=
  if left.2 ≠ right.2 then decide (left.2 > right.2)
  else decide (left.1.nFeeTXHash > right.1.nFeeTXHash)

/-- The call `std::sort(first, last, comp)`, as a stable insertion sort: `a` is put
before `b` unless `comp b a`.  (The standard leaves the order of elements that `comp`
does not tell apart open; this model keeps their order.) -/
def stdSort {α : Type} (comp : α → α → Bool) (l : List α) : List α :=
  l.insertionSort (fun a b => comp b a = false)

namespace CBudgetManager

/-- The first part of `CBudgetManager::GetBudget`: every stored proposal, after
`CleanAndRemove(false)`, paired with `GetYeas() - GetNays()`, sorted with
`sortProposalsByVotes`. -/
def vBudgetPorposalsSort (env : Env) (mapProposals : List CBudgetProposal) :
    List (CBudgetProposal × Int) :=
  stdSort sortProposalsByVotes
    (mapProposals.map (fun p =>
      let p1 := p.CleanAndRemove env false
      (p1, p1.GetYeas - p1.GetNays)))

/-- The loop of `CBudgetManager::GetBudget` over the sorted proposals, from the amount
`nBudgetAllocated` onwards: the proposals pushed to `vBudgetProposalsRet`, and all the
visited proposals as the loop leaves them, both in visiting order. -/
def GetBudgetLoop (env : Env) (pindex : Option CBlockIndex)
    (nBlockStart nBlockEnd mnCount : Int) (nTotalBudget : Int) :
    Int → List (CBudgetProposal × Int) → List CBudgetProposal × List CBudgetProposal
  | _, [] => ([], [])
  | nBudgetAllocated, (pbudgetProposal, _) :: rest =>
      if pbudgetProposal.IsPassing env pindex nBlockStart nBlockEnd mnCount then
        if pbudgetProposal.GetAmount + nBudgetAllocated ≤ nTotalBudget then
          let p1 := pbudgetProposal.SetAllotted pbudgetProposal.GetAmount
          let r := GetBudgetLoop env pindex nBlockStart nBlockEnd mnCount nTotalBudget
            (nBudgetAllocated + pbudgetProposal.GetAmount) rest
          (p1 :: r.1, p1 :: r.2)
        else
          let r := GetBudgetLoop env pindex nBlockStart nBlockEnd mnCount nTotalBudget
            nBudgetAllocated rest
          (r.1, pbudgetProposal.SetAllotted 0 :: r.2)
      else
        let r := GetBudgetLoop env pindex nBlockStart nBlockEnd mnCount nTotalBudget
          nBudgetAllocated rest
        (r.1, pbudgetProposal :: r.2)

/-- The start of the payment cycle after the one of height `nHeight`:
`nHeight - nHeight % GetBudgetPaymentCycleBlocks() + GetBudgetPaymentCycleBlocks()`. -/
def nextCycleStart (env : Env) (nHeight : Int) : Int :=
  nHeight - nHeight.tmod (GetBudgetPaymentCycleBlocks env) + GetBudgetPaymentCycleBlocks env

/-- The method `CBudgetManager::GetBudget`.  `mapProposals` are the stored proposals in
the iteration order of the map.  The result is the returned vector (the proposals
pointed to, as the call leaves them) and the stored proposals as the call leaves them,
in the order of the sorted vector. -/
def GetBudget (env : Env) (mapProposals : List CBudgetProposal) (pindex : Option CBlockIndex) :
    List CBudgetProposal × List CBudgetProposal :=
  let sorted := vBudgetPorposalsSort env mapProposals
  match pindex with
  | none => ([], sorted.map Prod.fst)
  | some tip =>
      let nBlockStart := nextCycleStart env tip.nHeight
      let nBlockEnd := nBlockStart + GetBudgetPaymentCycleBlocks env - 1
      let mnCount := env.CountEnabled
      let nTotalBudget := GetTotalBudget env nBlockStart
      GetBudgetLoop env pindex nBlockStart nBlockEnd mnCount nTotalBudget 0 sorted

/-- The loop of `CBudgetManager::CheckAndRemove` over `mapProposals`: each proposal is
revalidated and the valid ones are copied to the new map; a fault of a revalidation is
the fault of the loop.  (The copy constructor sets `fValid` and does not set `nAlloted`;
the model keeps the old `nAlloted`.  The stored proposals are keyed by their hashes, so
every insertion into the new map takes effect.) -/
def CheckAndRemove_mapProposals (env : Env) :
    List CBudgetProposal → Option CBlockIndex → Except Fault (List CBudgetProposal)
  | [], _ => Except.ok []
  | p :: rest, pindex =>
      match p.IsValid env pindex true with
      | Except.error fault => Except.error fault
      | Except.ok r =>
          match CheckAndRemove_mapProposals env rest pindex with
          | Except.error fault => Except.error fault
          | Except.ok kept =>
              Except.ok (if r.1 then { r.2 with fValid := true } :: kept else kept)

/-- The selection of the budget as the specification words it, over the passing
proposals in sorted order: `returned` are the proposals returned so far; a proposal is
returned, with its amount allotted, exactly when its amount plus the total amount of
the proposals returned before it is at most the cap. -/
def selectWithinCap (cap : Int) :
    List CBudgetProposal → List CBudgetProposal → List CBudgetProposal
  | returned, [] => returned
  | returned, p :: rest =>
      if p.nAmount + (returned.map (fun q => q.nAmount)).sum ≤ cap then
        selectWithinCap cap (returned ++ [{ p with nAlloted := p.nAmount }]) rest
      else selectWithinCap cap returned rest

/-- The budget of the next cycle as the specification words it: the stored proposals
that are passing for the next cycle, in sorted order, selected within the cap of that
cycle. -/
def GetBudgetSpec (env : Env) (mapProposals : List CBudgetProposal) (tip : CBlockIndex) :
    List CBudgetProposal :=
  let nBlockStart := nextCycleStart env tip.nHeight
  let passing :=
    ((vBudgetPorposalsSort env mapProposals).map Prod.fst).filter (fun p =>
      p.IsPassing env (some tip) nBlockStart (nBlockStart + GetBudgetPaymentCycleBlocks env - 1)
        env.CountEnabled)
  selectWithinCap (GetTotalBudget env nBlockStart) [] passing

end CBudgetManager

/-- A finalized budget.  `fAutoChecked` is the private flag of the automatic vote. -/
structure CFinalizedBudget where
  fAutoChecked : Bool
  fValid : Bool
  strBudgetName : String
  nBlockStart : Int
  vecBudgetPayments : List CTxBudgetPayment
  mapVotes : StdMap CFinalizedBudgetVote
  nFeeTXHash : Nat
  nTime : Int
deriving DecidableEq, Repr

namespace CFinalizedBudget

/-- The method `GetBlockStart`. -/
def GetBlockStart (self : CFinalizedBudget) : Int := self.nBlockStart

/-- The method `GetBlockEnd`: `nBlockStart + (int)(vecBudgetPayments.size() - 1)`. -/
def GetBlockEnd (self : CFinalizedBudget) : Int :=
  self.nBlockStart + ((self.vecBudgetPayments.length : Int) - 1)

/-- The method `CFinalizedBudget::GetHash`. -/
def GetHash (env : Env) (self : CFinalizedBudget) : Nat :=
  env.HashWriter
    ([SerItem.str self.strBudgetName, SerItem.int32 self.nBlockStart,
      SerItem.vecSize self.vecBudgetPayments.length] ++
     self.vecBudgetPayments.flatMap (fun payment =>
       [SerItem.script payment.payee, SerItem.int64 payment.nAmount,
        SerItem.u256 payment.nProposalHash]))

/-- The method `CFinalizedBudget::AddOrUpdateVote`. -/
def AddOrUpdateVote (env : Env) (self : CFinalizedBudget) (vote : CFinalizedBudgetVote) :
    Bool × CFinalizedBudget :=
  let hash := vote.vin.hash
  let accept : Bool × CFinalizedBudget :=
    if vote.nTime > env.GetTime + 60 * 60 then (false, self)
    else (true, { self with mapVotes := self.mapVotes.assign hash vote })
  match self.mapVotes.find hash with
  | some old =>
      if old.nTime > vote.nTime then (false, self)
      else if vote.nTime - old.nTime < BUDGET_VOTE_UPDATE_MIN then (false, self)
      else accept
  | none => accept

/-- The method `CFinalizedBudget::GetTotalPayout`. -/
def GetTotalPayout (self : CFinalizedBudget) : Int :=
  self.vecBudgetPayments.foldl (fun ret payment => ret + payment.nAmount) 0

/-- The part of `CFinalizedBudget::IsValid` after the collateral check, for a budget
whose collateral is valid or was not checked. -/
def IsValidTail (env : Env) (self1 : CFinalizedBudget) (pindex : Option CBlockIndex) :
    Bool × CFinalizedBudget :=
  match pindex with
  | none => (true, self1)
  | some tip =>
      let nCurrentHeight := tip.nHeight
      let nBlockStart := nCurrentHeight - nCurrentHeight.tmod (GetBudgetPaymentCycleBlocks env)
        + GetBudgetPaymentCycleBlocks env
      let nMaxAge := nBlockStart - 2 * GetBudgetPaymentCycleBlocks env
      if self1.GetBlockEnd < nMaxAge then (false, self1) else (true, self1)

/-- The method `CFinalizedBudget::IsValid`: a fault of the collateral check, or the
result with the budget as the call leaves it (the collateral check writes `nTime`). -/
def IsValid (env : Env) (self : CFinalizedBudget) (pindex : Option CBlockIndex)
    (fCheckCollateral : Bool) : Except Fault (Bool × CFinalizedBudget) :=
  if self.nBlockStart.tmod (GetBudgetPaymentCycleBlocks env) ≠ 0 then Except.ok (false, self)
  else if self.GetBlockEnd - self.nBlockStart > 100 then Except.ok (false, self)
  else if (self.vecBudgetPayments.length : Int) > 100 then Except.ok (false, self)
  else if self.strBudgetName = "" then Except.ok (false, self)
  else if self.nBlockStart = 0 then Except.ok (false, self)
  else if self.nFeeTXHash = 0 then Except.ok (false, self)
  else if self.GetTotalPayout > GetTotalBudget env self.nBlockStart then Except.ok (false, self)
  else if fCheckCollateral then
    match IsBudgetCollateralValid env.collateral self.nFeeTXHash (self.GetHash env) self.nTime 0
        true with
    | Except.error fault => Except.error fault
    | Except.ok collateral =>
        if !collateral.1 then Except.ok (false, { self with nTime := collateral.2.1 })
        else Except.ok (IsValidTail env { self with nTime := collateral.2.1 } pindex)
  else Except.ok (IsValidTail env self pindex)

/-- The method `CFinalizedBudget::IsPaidAlready` on the file-wide map
`mapPayment_History`: entries paid outside the cycle of this budget are erased; an
unknown proposal is recorded with `nBlockHeight` and reported as not paid. -/
def IsPaidAlready (self : CFinalizedBudget) (mapPayment_History : StdMap Int)
    (nProposalHash : Nat) (nBlockHeight : Int) : Bool × StdMap Int :=
  let kept : StdMap Int :=
    mapPayment_History.filter (fun e =>
      !(decide (e.2 < self.GetBlockStart) || decide (e.2 > self.GetBlockEnd)))
  if !StdMap.contains kept nProposalHash then
    (false, StdMap.insert kept nProposalHash nBlockHeight)
  else (true, kept)

/-- The loop of `CFinalizedBudget::IsTransactionValid` over the outputs of the
transaction, from the status `transactionStatus` onwards. -/
def IsTransactionValidLoop (self : CFinalizedBudget) (payment : CTxBudgetPayment)
    (nBlockHeight : Int) :
    List CTxOut → TrxValidationStatus → StdMap Int → TrxValidationStatus × StdMap Int
  | [], transactionStatus, mapPayment_History => (transactionStatus, mapPayment_History)
  | out :: rest, transactionStatus, mapPayment_History =>
      if payment.payee = out.scriptPubKey ∧ payment.nAmount = out.nValue then
        let paid := self.IsPaidAlready mapPayment_History payment.nProposalHash nBlockHeight
        if paid.1 then (TrxValidationStatus.DoublePayment, paid.2)
        else IsTransactionValidLoop self payment nBlockHeight rest TrxValidationStatus.Valid paid.2
      else IsTransactionValidLoop self payment nBlockHeight rest transactionStatus
        mapPayment_History

/-- The method `CFinalizedBudget::IsTransactionValid`, with `mapPayment_History` as the
call leaves it.  `vout` are the outputs of `txNew`. -/
def IsTransactionValid (self : CFinalizedBudget) (mapPayment_History : StdMap Int)
    (vout : List CTxOut) (nBlockHeight : Int) : TrxValidationStatus × StdMap Int :=
  let nCurrentBudgetPayment := nBlockHeight - self.GetBlockStart
  if nCurrentBudgetPayment < 0 then (TrxValidationStatus.InValid, mapPayment_History)
  else if nCurrentBudgetPayment > (self.vecBudgetPayments.length : Int) - 1 then
    (TrxValidationStatus.InValid, mapPayment_History)
  else
    match self.vecBudgetPayments[nCurrentBudgetPayment.toNat]? with
    | none => (TrxValidationStatus.InValid, mapPayment_History)
    | some payment =>
        IsTransactionValidLoop self payment nBlockHeight vout TrxValidationStatus.InValid
          mapPayment_History

end CFinalizedBudget

/-! ## The end-to-end example of the specification -/

/-- A chain state in which every collateral is valid: every collateral transaction is
found outside a block, with six confirmations and one output of 20 coins that carries
the expected commitment, whatever hash is expected. -/
def exampleCollateralEnv : CollateralEnv where
  GetTransaction := fun _ =>
    some ({ vout := [{ nValue := 20 * 100000000, scriptPubKey := [106] }], nLockTime := 0 }, 0)
  IsNormalPaymentScript := fun _ => false
  IsUnspendable := fun _ => true
  findScript := fun _ => [106]
  GetIXConfirmations := fun _ => 6
  m_block_index := fun _ => none
  Height := 100
  nBudgetFeeConfirmations := 6
  COIN := 100000000

/-- The chain of the example: main network with a target spacing that gives a payment
cycle of 1000 blocks, a block subsidy of 30 coins at every height (a cap of 3000 coins
per cycle), 90 enabled masternodes, every voter known to the registry. -/
def exampleEnv : Env where
  fMainNet := true
  nPowTargetSpacing := 1209
  nPoWBlock := 0
  COIN := 100000000
  GetBlockSubsidy := fun _ _ => 30 * 100000000
  CountEnabled := 90
  Find := fun _ => true
  VerifyMessage := fun _ _ => true
  GetTime := 1000000
  collateral := exampleCollateralEnv
  IsPayToScriptHash := fun _ => false
  HashWriter := fun items => items.length

/-- The votes of the example: `n` votes `nVote` of the masternodes 1, ..., `n`. -/
def exampleVotes (nProposalHash : Nat) (n : Nat) (nVote : Int) : StdMap CBudgetVote :=
  (List.range n).map (fun i =>
    (i + 1,
     { fValid := true, fSynced := false, vin := { hash := i + 1, n := 0 },
       nProposalHash := nProposalHash, nVote := nVote, nTime := 0, vchSig := [] }))

/-- A proposal of the example: payable in the cycle that starts at height 21000. -/
def exampleProposal (strProposalName : String) (nFeeTXHash : Nat) (nYes : Nat)
    (nCoins : Int) : CBudgetProposal where
  nAlloted := 0
  fValid := true
  strProposalName := strProposalName
  strURL := ""
  nBlockStart := 21000
  nBlockEnd := 22001
  nAmount := nCoins * 100000000
  address := [nFeeTXHash]
  nTime := 0
  nFeeTXHash := nFeeTXHash
  mapVotes := exampleVotes nFeeTXHash nYes VOTE_YES

/-- The three proposals of the example: 50, 30 and 10 yes votes, 1000, 2000 and 500
coins. -/
def exampleProposals : List CBudgetProposal :=
  [exampleProposal "#1" 11 50 1000, exampleProposal "#2" 12 30 2000,
   exampleProposal "#3" 13 10 500]

/-- A small test chain: test network with a payment cycle of 10 blocks, a block subsidy
of 30 coins at every height (a cap of 30 coins per cycle), 90 enabled masternodes. -/
def smallEnv : Env where
  fMainNet := false
  nPowTargetSpacing := 864
  nPoWBlock := 0
  COIN := 100000000
  GetBlockSubsidy := fun _ _ => 30 * 100000000
  CountEnabled := 90
  Find := fun _ => true
  VerifyMessage := fun _ _ => true
  GetTime := 1000000
  collateral := exampleCollateralEnv
  IsPayToScriptHash := fun _ => false
  HashWriter := fun items => items.length

/-- A proposal on the small test chain: blocks 100 to 120, `nCoins` coins, with `nVotes`
votes `nVote`. -/
def smallProposal (nCoins : Int) (nVotes : Nat) (nVote : Int) : CBudgetProposal where
  nAlloted := 0
  fValid := true
  strProposalName := "small"
  strURL := ""
  nBlockStart := 100
  nBlockEnd := 120
  nAmount := nCoins * 100000000
  address := [1]
  nTime := 0
  nFeeTXHash := 7
  mapVotes := exampleVotes 7 nVotes nVote

/-- A finalized budget on the small test chain: one payment of 20 coins at height 100. -/
def smallBudget : CFinalizedBudget where
  fAutoChecked := false
  fValid := true
  strBudgetName := "main"
  nBlockStart := 100
  vecBudgetPayments := [{ nProposalHash := 5, payee := [1], nAmount := 20 * 100000000 }]
  mapVotes := []
  nFeeTXHash := 9
  nTime := 0

/-! ## Automatic vote on a finalized budget, and the payee check of a block -/

/-- The collaborators of the node beyond `Env`.
* `fMasterNode`, `strBudgetMode`: the global settings of the node;
* `rand`: the value the call `rand()` returns;
* `ScriptToString`: the method `CScript::ToString`;
* `IsSynced`: `masternodeSync.IsSynced()`;
* `SPORK_8`, `SPORK_9`, `SPORK_13`: `IsSporkActive` of
  `SPORK_8_MASTERNODE_PAYMENT_ENFORCEMENT`, `SPORK_9_MASTERNODE_BUDGET_ENFORCEMENT` and
  `SPORK_13_ENABLE_SUPERBLOCKS`;
* `requiredMasternodePayment`: the value of `GetMasternodePayment` at the chain tip. -/
structure NodeEnv extends Env where
  fMasterNode : Bool
  strBudgetMode : String
  rand : Int
  ScriptToString : CScript → String
  IsSynced : Bool
  SPORK_8 : Bool
  SPORK_9 : Bool
  SPORK_13 : Bool
  requiredMasternodePayment : Int

/-- The comparison `sortProposalsByHash`.  (The order of two `uint256` is taken as the
order of the numbers; only its being a strict total order is used.) -/
def sortProposalsByHash (env : Env) (left right : CBudgetProposal) : Bool :=
  decide (left.GetHash env < right.GetHash env)

/-- The comparison `sortPaymentsByHash`. -/
def sortPaymentsByHash (left right : CTxBudgetPayment) : Bool :=
  decide (left.nProposalHash < right.nProposalHash)

namespace CBudgetProposal

/-- The method `GetPayee`. -/
def GetPayee (self : CBudgetProposal) : CScript := self.address

end CBudgetProposal

namespace CFinalizedBudget

/-- The method `GetVoteCount`. -/
def GetVoteCount (self : CFinalizedBudget) : Int := (self.mapVotes.length : Int)

/-- The last loop of `CFinalizedBudget::CheckAndVote`, over the payments and the
proposals sorted by hash: false at the first index where the proposal hash, the printed
payee or the amount differ (or where the proposals run out). -/
def CheckAndVoteLoop (env : NodeEnv) :
    List CTxBudgetPayment → List CBudgetProposal → Bool
  | [], _ => true
  | _ :: _, [] => false
  | payment :: payments, proposal :: proposals =>
      if payment.nProposalHash ≠ proposal.GetHash env.toEnv then false
      else if env.ScriptToString payment.payee ≠ env.ScriptToString proposal.GetPayee then false
      else if payment.nAmount ≠ proposal.GetAmount then false
      else CheckAndVoteLoop env payments proposals

/-- The part of `CFinalizedBudget::CheckAndVote` under `strBudgetMode == "auto"`, for the
budget `vBudgetProposals` that `GetBudget` returned: whether `SubmitVote` is called. -/
def CheckAndVoteCompare (env : NodeEnv) (self : CFinalizedBudget)
    (vBudgetProposals : List CBudgetProposal) : Bool :=
  let vBudgetProposalsSortedByHash := stdSort (sortProposalsByHash env.toEnv) vBudgetProposals
  let vecBudgetPaymentsSortedByHash := stdSort sortPaymentsByHash self.vecBudgetPayments
  if vBudgetProposalsSortedByHash.length = 0 then false
  else if vBudgetProposalsSortedByHash.length ≠ vecBudgetPaymentsSortedByHash.length then false
  else CheckAndVoteLoop env vecBudgetPaymentsSortedByHash vBudgetProposalsSortedByHash

/-- The method `CFinalizedBudget::CheckAndVote`: whether `SubmitVote` is called, the
budget as the call leaves it (`fAutoChecked`), and the stored proposals as the call
leaves them (`GetBudget` writes the allotted amounts). -/
def CheckAndVote (env : NodeEnv) (self : CFinalizedBudget) (mapProposals : List CBudgetProposal)
    (pindex : Option CBlockIndex) : Bool × CFinalizedBudget × List CBudgetProposal :=
  match pindex with
  | none => (false, self, mapProposals)
  | some tip =>
      if !env.fMasterNode || self.fAutoChecked then (false, self, mapProposals)
      else if env.rand.tmod 4 ≠ 0 then (false, self, mapProposals)
      else
        let self1 := { self with fAutoChecked := true }
        if env.strBudgetMode = "auto" then
          let budget := CBudgetManager.GetBudget env.toEnv mapProposals (some tip)
          (CheckAndVoteCompare env self1 budget.1, self1, budget.2)
        else (false, self1, mapProposals)

end CFinalizedBudget

namespace CBudgetManager

/-- The loop of `IsBudgetPaymentBlock` and of `IsTransactionValid` that takes the
highest vote count of the finalized budgets whose payments cover `nBlockHeight`, from
the count `nHighestCount` onwards. -/
def highestCount (nBlockHeight : Int) (mapFinalizedBudgets : List CFinalizedBudget)
    (nHighestCount : Int) : Int :=
  mapFinalizedBudgets.foldl
    (fun nHighest pfinalizedBudget =>
      if pfinalizedBudget.GetVoteCount > nHighest ∧
          nBlockHeight ≥ pfinalizedBudget.GetBlockStart ∧
          nBlockHeight ≤ pfinalizedBudget.GetBlockEnd then pfinalizedBudget.GetVoteCount
      else nHighest)
    nHighestCount

/-- The method `CBudgetManager::IsBudgetPaymentBlock`. -/
def IsBudgetPaymentBlock (env : Env) (mapFinalizedBudgets : List CFinalizedBudget)
    (nBlockHeight : Int) : Bool :=
  let nHighestCount := highestCount nBlockHeight mapFinalizedBudgets (-1)
  let nFivePercent := env.CountEnabled.tdiv 20
  if nHighestCount > nFivePercent then true else false

/-- The second loop of `CBudgetManager::IsTransactionValid` over the finalized budgets,
from the status `transactionStatus` and the flag `fThreshold` onwards; the loop ends at
the first budget whose check gives `Valid`. -/
def IsTransactionValidBudgets (nCountThreshold : Int) (vout : List CTxOut) (nBlockHeight : Int) :
    List CFinalizedBudget → TrxValidationStatus → Bool → StdMap Int →
      TrxValidationStatus × Bool × StdMap Int
  | [], transactionStatus, fThreshold, mapPayment_History =>
      (transactionStatus, fThreshold, mapPayment_History)
  | pfinalizedBudget :: rest, transactionStatus, fThreshold, mapPayment_History =>
      if pfinalizedBudget.GetVoteCount > nCountThreshold then
        if nBlockHeight ≥ pfinalizedBudget.GetBlockStart ∧
            nBlockHeight ≤ pfinalizedBudget.GetBlockEnd then
          let r := pfinalizedBudget.IsTransactionValid mapPayment_History vout nBlockHeight
          if r.1 = TrxValidationStatus.Valid then (TrxValidationStatus.Valid, true, r.2)
          else IsTransactionValidBudgets nCountThreshold vout nBlockHeight rest r.1 true r.2
        else
          IsTransactionValidBudgets nCountThreshold vout nBlockHeight rest transactionStatus true
            mapPayment_History
      else
        IsTransactionValidBudgets nCountThreshold vout nBlockHeight rest transactionStatus
          fThreshold mapPayment_History

/-- The method `CBudgetManager::IsTransactionValid`, with `mapPayment_History` as the
call leaves it. -/
def IsTransactionValid (env : Env) (mapFinalizedBudgets : List CFinalizedBudget)
    (mapPayment_History : StdMap Int) (vout : List CTxOut) (nBlockHeight : Int) :
    TrxValidationStatus × StdMap Int :=
  let nHighestCount := highestCount nBlockHeight mapFinalizedBudgets 0
  let nFivePercent := env.CountEnabled.tdiv 20
  if nHighestCount < nFivePercent then (TrxValidationStatus.InValid, mapPayment_History)
  else
    let nCountThreshold := nHighestCount - env.CountEnabled.tdiv 10
    let r := IsTransactionValidBudgets nCountThreshold vout nBlockHeight mapFinalizedBudgets
      TrxValidationStatus.InValid false mapPayment_History
    if r.1 = TrxValidationStatus.Valid then (TrxValidationStatus.Valid, r.2.2)
    else if !r.2.1 then (TrxValidationStatus.VoteThreshold, r.2.2)
    else (r.1, r.2.2)

end CBudgetManager

/-- The method `CMasternodePayments::IsTransactionValid` on the map
`mapMasternodeBlocks` of the tallies by height. -/
def CMasternodePayments.IsTransactionValid
    (mapMasternodeBlocks : List (Int × CMasternodeBlockPayees)) (vout : List CTxOut)
    (nBlockHeight : Int) (requiredMasternodePayment : Int) : Bool :=
  match List.lookup nBlockHeight mapMasternodeBlocks with
  | some blockPayees => blockPayees.IsTransactionValid vout requiredMasternodePayment
  | none => true

/-- A block: whether it is a proof-of-stake block, and the outputs of its
transactions. -/
structure CBlock where
  fProofOfStake : Bool
  vtx : List (List CTxOut)
deriving DecidableEq, Repr

/-- The transaction `txNew` of `IsBlockPayeeValid`: `vtx[1]` of a proof-of-stake block,
`vtx[0]` otherwise (no outputs when the block does not hold it, where the source reads
out of bounds). -/
def CBlock.txNew (block : CBlock) : List CTxOut :=
  if block.fProofOfStake then block.vtx.getD 1 [] else block.vtx.getD 0 []

/-- The function `IsBlockPayeeValid`, with `mapPayment_History` as the call leaves it. -/
def IsBlockPayeeValid (env : NodeEnv) (mapFinalizedBudgets : List CFinalizedBudget)
    (mapPayment_History : StdMap Int) (mapMasternodeBlocks : List (Int × CMasternodeBlockPayees))
    (block : CBlock) (nBlockHeight : Int) : Bool × StdMap Int :=
  if !env.IsSynced then (true, mapPayment_History)
  else
    let masternodeRule (history : StdMap Int) : Bool × StdMap Int :=
      if CMasternodePayments.IsTransactionValid mapMasternodeBlocks block.txNew nBlockHeight
          env.requiredMasternodePayment then (true, history)
      else if env.SPORK_8 then (false, history)
      else (true, history)
    if env.SPORK_13 then
      if CBudgetManager.IsBudgetPaymentBlock env.toEnv mapFinalizedBudgets nBlockHeight then
        let r := CBudgetManager.IsTransactionValid env.toEnv mapFinalizedBudgets
          mapPayment_History block.txNew nBlockHeight
        if r.1 = TrxValidationStatus.Valid then (true, r.2)
        else if r.1 = TrxValidationStatus.InValid ∧ env.SPORK_9 = true then (false, r.2)
        else masternodeRule r.2
      else masternodeRule mapPayment_History
    else masternodeRule mapPayment_History

/-! ## The masternode registry (`masternode.h`, `masternode.cpp`) -/

/-- The constant `MASTERNODE_MIN_MNP_SECONDS`. -/
def MASTERNODE_MIN_MNP_SECONDS : Int := 10 * 60

/-- The constant `MASTERNODE_MIN_MNB_SECONDS`. -/
def MASTERNODE_MIN_MNB_SECONDS : Int := 5 * 60

/-- The constant `MASTERNODE_EXPIRATION_SECONDS`. -/
def MASTERNODE_EXPIRATION_SECONDS : Int := 120 * 60

/-- The constant `MASTERNODE_REMOVAL_SECONDS`. -/
def MASTERNODE_REMOVAL_SECONDS : Int := 130 * 60

/-- The constant `MASTERNODE_CHECK_SECONDS`. -/
def MASTERNODE_CHECK_SECONDS : Int := 5

/-- The value `MASTERNODE_PRE_ENABLED` of `CMasternode::state`. -/
def MASTERNODE_PRE_ENABLED : Int := 0

/-- The value `MASTERNODE_ENABLED` of `CMasternode::state`. -/
def MASTERNODE_ENABLED : Int := 1

/-- The value `MASTERNODE_EXPIRED` of `CMasternode::state`. -/
def MASTERNODE_EXPIRED : Int := 2

/-- The value `MASTERNODE_OUTPOINT_SPENT` of `CMasternode::state`. -/
def MASTERNODE_OUTPOINT_SPENT : Int := 3

/-- The value `MASTERNODE_REMOVE` of `CMasternode::state`. -/
def MASTERNODE_REMOVE : Int := 4

/-- The value `MASTERNODE_WATCHDOG_EXPIRED` of `CMasternode::state`. -/
def MASTERNODE_WATCHDOG_EXPIRED : Int := 5

/-- The value `MASTERNODE_POSE_BAN` of `CMasternode::state`. -/
def MASTERNODE_POSE_BAN : Int := 6

/-- The value `MASTERNODE_VIN_SPENT` of `CMasternode::state`. -/
def MASTERNODE_VIN_SPENT : Int := 7

/-- The value `MASTERNODE_POS_ERROR` of `CMasternode::state`. -/
def MASTERNODE_POS_ERROR : Int := 8

/-- The enumeration `CMasternode::CollateralStatus`. -/
inductive CollateralStatus where
  | COLLATERAL_OK
  | COLLATERAL_UTXO_NOT_FOUND
  | COLLATERAL_INVALID_AMOUNT
deriving DecidableEq, Repr

/-- A transaction input. -/
structure CTxIn where
  prevout : COutPoint
  scriptSig : CScript
  nSequence : Nat
deriving DecidableEq, Repr

/-- The input `CTxIn()`: the null outpoint, no script, the final sequence number. -/
def CTxIn.null : CTxIn :=
  { prevout := { hash := 0, n := 4294967295 }, scriptSig := [], nSequence := 4294967295 }

/-- A network address with its port. -/
structure CService where
  ip : List Nat
  port : Int
deriving DecidableEq, Repr

/-- An entry of the unspent-output set. -/
structure Coin where
  nValue : Int
  nHeight : Int
  fSpent : Bool
deriving DecidableEq, Repr

/-- A liveness ping. -/
structure CMasternodePing where
  vin : CTxIn
  blockHash : Nat
  sigTime : Int
  vchSig : List Nat
deriving DecidableEq, Repr

/-- A masternode of the registry; a `CMasternodeBroadcast` has the same members. -/
structure CMasternode where
  lastTimeChecked : Int
  vin : CTxIn
  addr : CService
  pubKeyCollateralAddress : List Nat
  pubKeyMasternode : List Nat
  pubKeyCollateralAddress1 : List Nat
  pubKeyMasternode1 : List Nat
  sig : List Nat
  activeState : Int
  sigTime : Int
  cacheInputAge : Int
  cacheInputAgeBlock : Int
  unitTest : Bool
  allowFreeTx : Bool
  protocolVersion : Int
  nActiveState : Int
  nLastDsq : Int
  nScanningErrorCount : Int
  nLastScanningErrorBlockHeight : Int
  lastPing : CMasternodePing
deriving DecidableEq, Repr

/-- The class `CMasternodeBroadcast`, which adds no member to `CMasternode`. -/
abbrev CMasternodeBroadcast := CMasternode

/-- The collaborators of the registry code that are declared outside the source files
at hand, beyond `Env`.
* `ShutdownRequested`: the function of that name;
* `GetAdjustedTime`: the network-adjusted clock, in seconds;
* `GetCoin`: the look-up `CoinsTip().GetCoin` in the unspent-output set;
* `VerifyPing pubKey ping`: `legacySigner.VerifyMessage` on the message of a ping;
* `VerifyBroadcastNew`, `VerifyBroadcastOld`: `legacySigner.VerifyMessage` with the key
  `pubKeyCollateralAddress` on `GetNewStrMessage()` and on `GetOldStrMessage()`;
* `PROTOCOL_VERSION`, `MIN_PEER_MNANNOUNCE`: protocol constants;
* `PubkeyScriptSize pubKey`: the size of `GetScriptForDestination(PKHash(pubKey))`;
* `BlockHeight hash`: the height of the block index entry of a block hash, if known;
* `ActiveHeight`: the height of the active chain. -/
structure RegistryEnv extends Env where
  ShutdownRequested : Bool
  GetAdjustedTime : Int
  GetCoin : COutPoint → Option Coin
  VerifyPing : List Nat → CMasternodePing → Bool
  VerifyBroadcastNew : CMasternode → Bool
  VerifyBroadcastOld : CMasternode → Bool
  PROTOCOL_VERSION : Int
  MIN_PEER_MNANNOUNCE : Int
  PubkeyScriptSize : List Nat → Nat
  BlockHeight : Nat → Option Int
  ActiveHeight : Int

/-- The function `GetUTXOCoin`. -/
def GetUTXOCoin (env : RegistryEnv) (outpoint : COutPoint) : Option Coin :=
  match env.GetCoin outpoint with
  | none => none
  | some coin => if coin.fSpent then none else some coin

/-- The method `CMasternodePayments::GetMinMasternodePaymentsProto`. -/
def GetMinMasternodePaymentsProto (env : RegistryEnv) : Int := env.PROTOCOL_VERSION - 1

namespace CMasternodePing

/-- The ping `CMasternodePing()`. -/
def null : CMasternodePing :=
  { vin := CTxIn.null, blockHash := 0, sigTime := 0, vchSig := [] }

/-- The comparison `operator==` of two pings: input and block hash. -/
def eq (a b : CMasternodePing) : Bool :=
  decide (a.vin = b.vin ∧ a.blockHash = b.blockHash)

/-- The method `CMasternodePing::GetHash`. -/
def GetHash (env : Env) (self : CMasternodePing) : Nat :=
  env.HashWriter
    [SerItem.u256 self.vin.prevout.hash, SerItem.int32 self.vin.prevout.n,
     SerItem.script self.vin.scriptSig, SerItem.int32 self.vin.nSequence,
     SerItem.int64 self.sigTime]

/-- The method `CMasternodePing::VerifySignature`, with `nDos` as the call leaves it. -/
def VerifySignature (env : RegistryEnv) (self : CMasternodePing) (pubKeyMasternode : List Nat)
    (nDos : Int) : Bool × Int :=
  if !env.VerifyPing pubKeyMasternode self then (false, 33) else (true, nDos)

end CMasternodePing

namespace CMasternode

/-- The method `CheckCollateral(outpoint)`. -/
def CheckCollateral (env : RegistryEnv) (outpoint : COutPoint) : CollateralStatus :=
  match GetUTXOCoin env outpoint with
  | none => CollateralStatus.COLLATERAL_UTXO_NOT_FOUND
  | some coin =>
      if coin.nValue ≠ 100000 * env.COIN then CollateralStatus.COLLATERAL_INVALID_AMOUNT
      else CollateralStatus.COLLATERAL_OK

/-- The method `IsBroadcastedWithin`. -/
def IsBroadcastedWithin (env : RegistryEnv) (self : CMasternode) (seconds : Int) : Bool :=
  decide (env.GetAdjustedTime - self.sigTime < seconds)

/-- The method `IsPingedWithin`; the argument `now = -1` stands for the adjusted
time. -/
def IsPingedWithin (env : RegistryEnv) (self : CMasternode) (seconds : Int) (now : Int) : Bool :=
  let now1 := if now = -1 then env.GetAdjustedTime else now
  if CMasternodePing.eq self.lastPing CMasternodePing.null then false
  else decide (now1 - self.lastPing.sigTime < seconds)

/-- The method `IsEnabled`. -/
def IsEnabled (self : CMasternode) : Bool := decide (self.activeState = MASTERNODE_ENABLED)

/-- The method `CMasternode::GetStatus`. -/
def GetStatus (self : CMasternode) : String :=
  if self.nActiveState = MASTERNODE_PRE_ENABLED then "PRE_ENABLED"
  else if self.nActiveState = MASTERNODE_ENABLED then "ENABLED"
  else if self.nActiveState = MASTERNODE_EXPIRED then "EXPIRED"
  else if self.nActiveState = MASTERNODE_OUTPOINT_SPENT then "OUTPOINT_SPENT"
  else if self.nActiveState = MASTERNODE_REMOVE then "REMOVE"
  else if self.nActiveState = MASTERNODE_WATCHDOG_EXPIRED then "WATCHDOG_EXPIRED"
  else if self.nActiveState = MASTERNODE_POSE_BAN then "POSE_BAN"
  else "UNKNOWN"

/-- The method `CMasternode::Check`. -/
def Check (env : RegistryEnv) (self : CMasternode) (forceCheck : Bool) : CMasternode :=
  if env.ShutdownRequested then self
  else if !forceCheck && decide (env.GetTime - self.lastTimeChecked < MASTERNODE_CHECK_SECONDS)
  then self
  else
    let self1 := { self with lastTimeChecked := env.GetTime }
    if self1.activeState = MASTERNODE_VIN_SPENT then self1
    else if !self1.IsPingedWithin env MASTERNODE_REMOVAL_SECONDS (-1) then
      { self1 with activeState := MASTERNODE_REMOVE }
    else if !self1.IsPingedWithin env MASTERNODE_EXPIRATION_SECONDS (-1) then
      { self1 with activeState := MASTERNODE_EXPIRED }
    else if self1.lastPing.sigTime - self1.sigTime < MASTERNODE_MIN_MNP_SECONDS then
      { self1 with activeState := MASTERNODE_PRE_ENABLED }
    else if !self1.unitTest &&
        decide (CheckCollateral env self1.vin.prevout
          = CollateralStatus.COLLATERAL_UTXO_NOT_FOUND) then
      { self1 with nActiveState := MASTERNODE_OUTPOINT_SPENT }
    else { self1 with activeState := MASTERNODE_ENABLED }

end CMasternode

/-- The method `CMasternodeBroadcast::GetHash`. -/
def CMasternodeBroadcast.GetHash (env : Env) (self : CMasternodeBroadcast) : Nat :=
  env.HashWriter [SerItem.int64 self.sigTime, SerItem.script self.pubKeyCollateralAddress]

/-- The state of `CMasternodeMan` that the admission of pings and broadcasts reads and
writes. -/
structure CMasternodeMan where
  vMasternodes : List CMasternode
  mapSeenMasternodeBroadcast : StdMap CMasternodeBroadcast
  mapSeenMasternodePing : StdMap CMasternodePing
deriving DecidableEq, Repr

namespace CMasternodeMan

/-- The search of `Find` through the masternodes from position `i` onwards. -/
def FindFrom (prevout : COutPoint) : Nat → List CMasternode → Option (Nat × CMasternode)
  | _, [] => none
  | i, mn :: rest =>
      if mn.vin.prevout = prevout then some (i, mn) else FindFrom prevout (i + 1) rest

/-- Modelled from the spec: the method `CMasternodeMan::Find(const CTxIn& vin)`, whose
body is not in the source files at hand.  The registry is keyed by the collateral
reference: the look-up gives the position and the value of the first identity whose
collateral reference is the one of `vin`. -/
def Find (self : CMasternodeMan) (vin : CTxIn) : Option (Nat × CMasternode) :=
  FindFrom vin.prevout 0 self.vMasternodes

/-- The write through the pointer that `Find` returned: the masternode at position `i`
becomes `mn`. -/
def store (self : CMasternodeMan) (i : Nat) (mn : CMasternode) : CMasternodeMan :=
  { self with vMasternodes := self.vMasternodes.set i mn }

end CMasternodeMan

namespace CMasternodePing

/-- The method `CMasternodePing::CheckAndUpdate`: the result, `nDos` and the registry as
the call leaves them.  (The relay of an accepted ping is left out.) -/
def CheckAndUpdate (env : RegistryEnv) (man : CMasternodeMan) (self : CMasternodePing)
    (nDos : Int) (fRequireEnabled fCheckSigTimeOnly : Bool) : Bool × Int × CMasternodeMan :=
  if self.sigTime > env.GetAdjustedTime + 60 * 60 then (false, 1, man)
  else if self.sigTime ≤ env.GetAdjustedTime - 60 * 60 then (false, 1, man)
  else if fCheckSigTimeOnly then
    match man.Find self.vin with
    | some (_, pmn) =>
        let r := self.VerifySignature env pmn.pubKeyMasternode nDos
        (r.1, r.2, man)
    | none => (true, nDos, man)
  else
    match man.Find self.vin with
    | none => (false, nDos, man)
    | some (i, pmn) =>
        if pmn.protocolVersion ≥ GetMinMasternodePaymentsProto env then
          if fRequireEnabled && !pmn.IsEnabled then (false, nDos, man)
          else if !pmn.IsPingedWithin env (MASTERNODE_MIN_MNP_SECONDS - 60) self.sigTime then
            let r := self.VerifySignature env pmn.pubKeyMasternode nDos
            if !r.1 then (false, r.2, man)
            else
              let fresh : Bool :=
                match env.BlockHeight self.blockHash with
                | some nHeight => !decide (nHeight < env.ActiveHeight - 24)
                | none => false
              if !fresh then (false, r.2, man)
              else
                let pmn1 := { pmn with lastPing := self }
                let hash := CMasternodeBroadcast.GetHash env.toEnv pmn1
                let seen :=
                  match man.mapSeenMasternodeBroadcast.find hash with
                  | some mnb =>
                      man.mapSeenMasternodeBroadcast.assign hash { mnb with lastPing := self }
                  | none => man.mapSeenMasternodeBroadcast
                let pmn2 := pmn1.Check env true
                let man1 := { man.store i pmn2 with mapSeenMasternodeBroadcast := seen }
                if !pmn2.IsEnabled then (false, r.2, man1) else (true, r.2, man1)
          else (false, nDos, man)
        else (false, nDos, man)

end CMasternodePing

namespace CMasternode

/-- The method `CMasternode::UpdateFromNewBroadcast` on the masternode at position `i` of
the registry. -/
def UpdateFromNewBroadcast (env : RegistryEnv) (man : CMasternodeMan) (i : Nat)
    (self : CMasternode) (mnb : CMasternodeBroadcast) : Bool × CMasternodeMan :=
  if mnb.sigTime > self.sigTime then
    let self1 :=
      { self with
        pubKeyMasternode := mnb.pubKeyMasternode
        pubKeyCollateralAddress := mnb.pubKeyCollateralAddress
        sigTime := mnb.sigTime
        sig := mnb.sig
        protocolVersion := mnb.protocolVersion
        addr := mnb.addr
        lastTimeChecked := 0 }
    let man1 := man.store i self1
    let takePing (m : CMasternodeMan) : CMasternodeMan :=
      let m1 :=
        match m.vMasternodes[i]? with
        | some cur => m.store i { cur with lastPing := mnb.lastPing }
        | none => m
      { m1 with mapSeenMasternodePing :=
          m1.mapSeenMasternodePing.insert (mnb.lastPing.GetHash env.toEnv) mnb.lastPing }
    if CMasternodePing.eq mnb.lastPing CMasternodePing.null then (true, takePing man1)
    else
      let r := mnb.lastPing.CheckAndUpdate env man1 0 false false
      if r.1 then (true, takePing r.2.2) else (true, r.2.2)
  else (false, man)

end CMasternode

namespace CMasternodeBroadcast

/-- The method `CMasternodeBroadcast::CheckAndUpdate`: the result, `nDos` and the
registry as the call leaves them.  (The relay and the sync bookkeeping of an accepted
update are left out.) -/
def CheckAndUpdate (env : RegistryEnv) (man : CMasternodeMan) (self : CMasternodeBroadcast)
    (nDos : Int) : Bool × Int × CMasternodeMan :=
  if self.sigTime > env.GetAdjustedTime + 60 * 60 then (false, 1, man)
  else if CMasternodePing.eq self.lastPing CMasternodePing.null then (false, nDos, man)
  else
    let ping := self.lastPing.CheckAndUpdate env man nDos false true
    if !ping.1 then (false, ping.2.1, ping.2.2)
    else
      let nDos1 := ping.2.1
      let man1 := ping.2.2
      if self.protocolVersion < GetMinMasternodePaymentsProto env then (false, nDos1, man1)
      else if env.PubkeyScriptSize self.pubKeyCollateralAddress ≠ 25 then (false, 100, man1)
      else if env.PubkeyScriptSize self.pubKeyMasternode ≠ 25 then (false, 100, man1)
      else if self.vin.scriptSig ≠ [] then (false, nDos1, man1)
      else if !env.VerifyBroadcastNew self && !env.VerifyBroadcastOld self then
        (false, if self.protocolVersion < env.MIN_PEER_MNANNOUNCE then 0 else 100, man1)
      else if env.fMainNet && decide (self.addr.port ≠ 23511) then (false, nDos1, man1)
      else if !env.fMainNet && decide (self.addr.port = 23511) then (false, nDos1, man1)
      else
        match man1.Find self.vin with
        | none => (true, nDos1, man1)
        | some (i, pmn) =>
            if pmn.sigTime ≥ self.sigTime then (false, nDos1, man1)
            else if !pmn.IsEnabled then (true, nDos1, man1)
            else if decide (pmn.pubKeyCollateralAddress = self.pubKeyCollateralAddress) &&
                !pmn.IsBroadcastedWithin env MASTERNODE_MIN_MNB_SECONDS then
              let upd := pmn.UpdateFromNewBroadcast env man1 i self
              if upd.1 then
                match upd.2.vMasternodes[i]? with
                | some cur => (true, nDos1, upd.2.store i (cur.Check env false))
                | none => (true, nDos1, upd.2)
              else (true, nDos1, upd.2)
            else (true, nDos1, man1)

end CMasternodeBroadcast

/-! ## Block hashes and scores (`masternode.cpp`) -/

/-- A block index entry as `GetBlockHash` reads it: height and block hash. -/
structure CBlockIndexEntry where
  nHeight : Int
  hashBlock : Nat
deriving DecidableEq, Repr

/-- A pointer to a block index entry: the entry followed by its ancestors along `pprev`,
nearest first; the empty list is the null pointer. -/
abbrev CBlockIndexPtr := List CBlockIndexEntry

/-- The map `mapCacheBlockHashes`, from heights to block hashes. -/
abbrev BlockHashCache := List (Int × Nat)

/-- The assignment `mapCacheBlockHashes[k] = v`. -/
def BlockHashCache.assign : BlockHashCache → Int → Nat → BlockHashCache
  | [], k, v => [(k, v)]
  | (k1, v1) :: rest, k, v =>
      if k < k1 then (k, v) :: (k1, v1) :: rest
      else if k = k1 then (k, v) :: rest
      else (k1, v1) :: BlockHashCache.assign rest k v

/-- The loop of `GetBlockHash` that walks `nBlocksAgo` entries back from `BlockReading`,
having walked `n` of them: the hash of the entry it stops at, if it reaches one. -/
def GetBlockHashLoop (nBlocksAgo : Int) : Int → CBlockIndexPtr → Option Nat
  | _, [] => none
  | n, BlockReading :: pprev =>
      if BlockReading.nHeight > 0 then
        if n ≥ nBlocksAgo then some BlockReading.hashBlock
        else
          match pprev with
          | [] => none
          | _ :: _ => GetBlockHashLoop nBlocksAgo (n + 1) pprev
      else none

/-- The function `GetBlockHash`: the result, the value of `hash` and
`mapCacheBlockHashes` as the call leaves them. -/
def GetBlockHash (mapCacheBlockHashes : BlockHashCache) (hash : Nat) (nBlockHeight : Int)
    (pindex : CBlockIndexPtr) : Bool × Nat × BlockHashCache :=
  match pindex with
  | [] => (false, hash, mapCacheBlockHashes)
  | tip :: _ =>
      let nBlockHeight1 := if nBlockHeight = 0 then tip.nHeight else nBlockHeight
      match List.lookup nBlockHeight1 mapCacheBlockHashes with
      | some cached => (true, cached, mapCacheBlockHashes)
      | none =>
          if tip.nHeight = 0 ∨ tip.nHeight + 1 < nBlockHeight1 then
            (false, hash, mapCacheBlockHashes)
          else
            let nBlocksAgo := if nBlockHeight1 > 0 then (tip.nHeight + 1) - nBlockHeight1 else 0
            match GetBlockHashLoop nBlocksAgo 0 pindex with
            | some found =>
                (true, found, BlockHashCache.assign mapCacheBlockHashes nBlockHeight1 found)
            | none => (false, hash, mapCacheBlockHashes)

/-- The subtraction of two `arith_uint256`, modulo `2^256`. -/
def arith_uint256_sub (a b : Nat) : Nat :=
  (((a : Int) - (b : Int)) % (2 ^ 256 : Int)).toNat

/-- The method `CMasternode::CalculateScore`, with `mapCacheBlockHashes` as the call
leaves it.  (The parameter `mod`, which the body does not read, is left out.) -/
def CMasternode.CalculateScore (env : Env) (mapCacheBlockHashes : BlockHashCache)
    (self : CMasternode) (nBlockHeight : Int) (pindex : CBlockIndexPtr) :
    Nat × BlockHashCache :=
  match pindex with
  | [] => (0, mapCacheBlockHashes)
  | _ :: _ =>
      let aux := (self.vin.prevout.hash + self.vin.prevout.n) % 2 ^ 256
      let r := GetBlockHash mapCacheBlockHashes 0 nBlockHeight pindex
      if !r.1 then (0, r.2.2)
      else
        let hash := r.2.1
        let hash2 := env.HashWriter [SerItem.u256 hash]
        let hash3 := env.HashWriter [SerItem.u256 hash, SerItem.u256 aux]
        let score :=
          if hash3 > hash2 then arith_uint256_sub hash3 hash2 else arith_uint256_sub hash2 hash3
        (score, r.2.2)

/-! ## Test data for the automatic vote and the payee check -/

/-- A printing function for scripts that, like `CScript::ToString`, prints `[error]` for
a script whose first byte announces a push of more bytes than follow, and otherwise the
bytes as characters. -/
def exampleScriptToString (s : CScript) : String :=
  match s with
  | [] => ""
  | op :: rest =>
      if 1 ≤ op ∧ op ≤ 75 ∧ rest.length < op then "[error]"
      else String.mk ((op :: rest).map Char.ofNat)

/-- A hash writer for test data that tells the test proposals apart: a polynomial in
the written items, modulo `2^256`. -/
def exampleHashWriter (items : List SerItem) : Nat :=
  items.foldl
    (fun acc item =>
      (acc * 1000003 +
        (match item with
          | SerItem.str s => s.length
          | SerItem.int32 v => v.toNat
          | SerItem.int64 v => v.toNat
          | SerItem.script sc => sc.sum
          | SerItem.u256 v => v
          | SerItem.vecSize n => n)) % 2 ^ 256)
    7

/-- The small test chain with the settings of a synced masternode in budget mode
`auto`, all sporks active, a required masternode payment of 100, and the hash writer
`exampleHashWriter`. -/
def smallNodeEnv : NodeEnv where
  toEnv := { smallEnv with HashWriter := exampleHashWriter }
  fMasterNode := true
  strBudgetMode := "auto"
  rand := 0
  ScriptToString := exampleScriptToString
  IsSynced := true
  SPORK_8 := true
  SPORK_9 := true
  SPORK_13 := true
  requiredMasternodePayment := 100

/-- The votes of `n` masternodes 1, ..., `n` on a finalized budget. -/
def exampleBudgetVotes (nBudgetHash : Nat) (n : Nat) : StdMap CFinalizedBudgetVote :=
  (List.range n).map (fun i =>
    (i + 1,
     { fValid := true, fSynced := false, vin := { hash := i + 1, n := 0 },
       nBudgetHash := nBudgetHash, nTime := 0, vchSig := [] }))

/-- A finalized budget on the small test chain with one payment at height 100, for the
proposal hash 6 (the hash of every proposal on that chain), to the script `payee`. -/
def votedBudget (payee : CScript) (nCoins : Int) (nVotes : Nat) : CFinalizedBudget where
  fAutoChecked := false
  fValid := true
  strBudgetName := "main"
  nBlockStart := 100
  vecBudgetPayments := [{ nProposalHash := 6, payee := payee, nAmount := nCoins * 100000000 }]
  mapVotes := exampleBudgetVotes 3 nVotes
  nFeeTXHash := 9
  nTime := 0

/-- The finalized budget that pays the one proposal `proposal` at height 100 of the small
test chain, to the script `payee`. -/
def budgetFor (env : Env) (proposal : CBudgetProposal) (payee : CScript) : CFinalizedBudget where
  fAutoChecked := false
  fValid := true
  strBudgetName := "main"
  nBlockStart := 100
  vecBudgetPayments :=
    [{ nProposalHash := proposal.GetHash env, payee := payee, nAmount := proposal.nAmount }]
  mapVotes := []
  nFeeTXHash := 9
  nTime := 0

/-- The finalized budget that pays the two proposals of 20 and of 10 coins of the small
test chain at the heights 100 and 101, each to the payee of the proposal. -/
def twoPaymentBudget : CFinalizedBudget where
  fAutoChecked := false
  fValid := true
  strBudgetName := "main"
  nBlockStart := 100
  vecBudgetPayments :=
    [{ nProposalHash := (smallProposal 20 10 VOTE_YES).GetHash smallNodeEnv.toEnv,
       payee := [1], nAmount := 20 * 100000000 },
     { nProposalHash := (smallProposal 10 10 VOTE_YES).GetHash smallNodeEnv.toEnv,
       payee := [1], nAmount := 10 * 100000000 }]
  mapVotes := []
  nFeeTXHash := 9
  nTime := 0

/-- The key of a payment in the comparison of `CheckAndVote`: proposal hash, printed
payee and amount. -/
def paymentKey (env : NodeEnv) (payment : CTxBudgetPayment) : Nat × String × Int :=
  (payment.nProposalHash, env.ScriptToString payment.payee, payment.nAmount)

/-- The key of a proposal in the comparison of `CheckAndVote`: hash, printed payee and
amount. -/
def proposalKey (env : NodeEnv) (proposal : CBudgetProposal) : Nat × String × Int :=
  (proposal.GetHash env.toEnv, env.ScriptToString proposal.GetPayee, proposal.GetAmount)

/-! ## Test data for the registry -/

/-- A registry environment on the small test chain: adjusted time 10000, no shutdown
requested, an empty unspent-output set, every signature valid. -/
def exampleRegistryEnv : RegistryEnv where
  toEnv := { smallEnv with HashWriter := exampleHashWriter }
  ShutdownRequested := false
  GetAdjustedTime := 10000
  GetCoin := fun _ => none
  VerifyPing := fun _ _ => true
  VerifyBroadcastNew := fun _ => true
  VerifyBroadcastOld := fun _ => true
  PROTOCOL_VERSION := 70920
  MIN_PEER_MNANNOUNCE := 70913
  PubkeyScriptSize := fun _ => 25
  BlockHeight := fun _ => some 100
  ActiveHeight := 100

/-- A ping of the collateral `(77, 0)` with the timestamp `sigTime`. -/
def examplePing (sigTime : Int) : CMasternodePing where
  vin := { prevout := { hash := 77, n := 0 }, scriptSig := [], nSequence := 4294967295 }
  blockHash := 5
  sigTime := sigTime
  vchSig := []

/-- A masternode with the collateral `(77, 0)`, in the state `activeState`, enrolled at
`sigTime`, with a last ping at `pingTime`. -/
def exampleMasternode (activeState sigTime pingTime : Int) : CMasternode where
  lastTimeChecked := 0
  vin := { prevout := { hash := 77, n := 0 }, scriptSig := [], nSequence := 4294967295 }
  addr := { ip := [10, 0, 0, 1], port := 23511 }
  pubKeyCollateralAddress := [2]
  pubKeyMasternode := [3]
  pubKeyCollateralAddress1 := []
  pubKeyMasternode1 := []
  sig := []
  activeState := activeState
  sigTime := sigTime
  cacheInputAge := 0
  cacheInputAgeBlock := 0
  unitTest := false
  allowFreeTx := true
  protocolVersion := 70920
  nActiveState := MASTERNODE_ENABLED
  nLastDsq := 0
  nScanningErrorCount := 0
  nLastScanningErrorBlockHeight := 0
  lastPing := examplePing pingTime

/-- A broadcast for the collateral `(77, 0)` signed at `sigTime`, with a ping at
`pingTime`, from an address with the port 23512, which the test network admits. -/
def exampleBroadcast (sigTime pingTime : Int) : CMasternodeBroadcast :=
  { exampleMasternode MASTERNODE_ENABLED sigTime pingTime with
    addr := { ip := [10, 0, 0, 1], port := 23512 } }

/-- Two chains of three blocks that share the block of height 1 and fork after it. -/
def exampleChainA : CBlockIndexPtr :=
  [{ nHeight := 3, hashBlock := 103 }, { nHeight := 2, hashBlock := 102 },
   { nHeight := 1, hashBlock := 101 }]

/-- The other branch of the fork of `exampleChainA`. -/
def exampleChainB : CBlockIndexPtr :=
  [{ nHeight := 3, hashBlock := 203 }, { nHeight := 2, hashBlock := 202 },
   { nHeight := 1, hashBlock := 101 }]

/-! ## Storing proposals -/

/-- The method `CBudgetManager::AddProposal` on the map `mapProposals`, which is keyed
by the hash of the proposal: a fault of the validity check, or the result and the map as
the call leaves it. -/
def CBudgetManager.AddProposal (env : Env) (mapProposals : StdMap CBudgetProposal)
    (budgetProposal : CBudgetProposal) (pindex : Option CBlockIndex) :
    Except Fault (Bool × StdMap CBudgetProposal) :=
  match budgetProposal.IsValid env pindex true with
  | Except.error fault => Except.error fault
  | Except.ok valid =>
      if !valid.1 then Except.ok (false, mapProposals)
      else if StdMap.contains mapProposals (valid.2.GetHash env) then
        Except.ok (false, mapProposals)
      else Except.ok (true, StdMap.insert mapProposals (valid.2.GetHash env) valid.2)

/-- The map `mapProposals` after a call of `AddProposal` for each proposal of a list,
in the order of the list, or the fault of the first call that faults. -/
def CBudgetManager.AddProposals (env : Env) (pindex : Option CBlockIndex) :
    StdMap CBudgetProposal → List CBudgetProposal → Except Fault (StdMap CBudgetProposal)
  | mapProposals, [] => Except.ok mapProposals
  | mapProposals, budgetProposal :: rest =>
      match CBudgetManager.AddProposal env mapProposals budgetProposal pindex with
      | Except.error fault => Except.error fault
      | Except.ok r => CBudgetManager.AddProposals env pindex r.2 rest

/-- The entries that the calls of `AddProposal` for the proposals of a list store when
none of them is refused as a duplicate: the valid ones, under their hashes. -/
def CBudgetManager.accepted (env : Env) (pindex : Option CBlockIndex)
    (l : List CBudgetProposal) : List (Nat × CBudgetProposal) :=
  l.filterMap (fun p =>
    match p.IsValid env pindex true with
    | Except.ok valid => if valid.1 then some (valid.2.GetHash env, valid.2) else none
    | Except.error _ => none)

/-! ## Orphan votes and the maintenance cycle (`masternode-budget.cpp`) -/

/-- The state of `CBudgetManager` that the vote updates read and write, with the
file-wide map `askedForSourceProposalOrBudget`. -/
structure CBudgetManager where
  mapProposals : StdMap CBudgetProposal
  mapFinalizedBudgets : StdMap CFinalizedBudget
  mapOrphanMasternodeBudgetVotes : StdMap CBudgetVote
  mapOrphanFinalizedBudgetVotes : StdMap CFinalizedBudgetVote
  askedForSourceProposalOrBudget : StdMap Int
deriving DecidableEq, Repr

/-- The manager `CBudgetManager()` with empty maps. -/
def CBudgetManager.empty : CBudgetManager :=
  { mapProposals := [], mapFinalizedBudgets := [], mapOrphanMasternodeBudgetVotes := [],
    mapOrphanFinalizedBudgetVotes := [], askedForSourceProposalOrBudget := [] }

/-- The method `CBudgetManager::UpdateProposal`; `pfrom` is the peer, `none` for
`NULL`. -/
def CBudgetManager.UpdateProposal (env : NodeEnv) (self : CBudgetManager) (vote : CBudgetVote)
    (pfrom : Option Nat) : Bool × CBudgetManager :=
  match self.mapProposals.find vote.nProposalHash with
  | none =>
      match pfrom with
      | some _ =>
          if !env.IsSynced then (false, self)
          else
            (false,
             { self with
               mapOrphanMasternodeBudgetVotes :=
                 self.mapOrphanMasternodeBudgetVotes.assign vote.nProposalHash vote,
               askedForSourceProposalOrBudget :=
                 if !self.askedForSourceProposalOrBudget.contains vote.nProposalHash then
                   self.askedForSourceProposalOrBudget.assign vote.nProposalHash env.GetTime
                 else self.askedForSourceProposalOrBudget })
      | none => (false, self)
  | some proposal =>
      let r := proposal.AddOrUpdateVote env.toEnv vote
      (r.1, { self with mapProposals := self.mapProposals.assign vote.nProposalHash r.2 })

/-- The method `CBudgetManager::UpdateFinalizedBudget`. -/
def CBudgetManager.UpdateFinalizedBudget (env : NodeEnv) (self : CBudgetManager)
    (vote : CFinalizedBudgetVote) (pfrom : Option Nat) : Bool × CBudgetManager :=
  match self.mapFinalizedBudgets.find vote.nBudgetHash with
  | none =>
      match pfrom with
      | some _ =>
          if !env.IsSynced then (false, self)
          else
            (false,
             { self with
               mapOrphanFinalizedBudgetVotes :=
                 self.mapOrphanFinalizedBudgetVotes.assign vote.nBudgetHash vote,
               askedForSourceProposalOrBudget :=
                 if !self.askedForSourceProposalOrBudget.contains vote.nBudgetHash then
                   self.askedForSourceProposalOrBudget.assign vote.nBudgetHash env.GetTime
                 else self.askedForSourceProposalOrBudget })
      | none => (false, self)
  | some finalizedBudget =>
      let r := finalizedBudget.AddOrUpdateVote env.toEnv vote
      (r.1, { self with mapFinalizedBudgets := self.mapFinalizedBudgets.assign vote.nBudgetHash r.2 })

/-- The first loop of `CBudgetManager::CheckOrphanVotes`, over the entries of
`mapOrphanMasternodeBudgetVotes`: the entries that stay, and the manager. -/
def CBudgetManager.CheckOrphanVotesLoop1 (env : NodeEnv) :
    StdMap CBudgetVote → CBudgetManager → StdMap CBudgetVote × CBudgetManager
  | [], self => ([], self)
  | (k, vote) :: rest, self =>
      let r := self.UpdateProposal env vote none
      let tail := CBudgetManager.CheckOrphanVotesLoop1 env rest r.2
      if r.1 then tail else ((k, vote) :: tail.1, tail.2)

/-- The second loop of `CBudgetManager::CheckOrphanVotes`, over the entries of
`mapOrphanFinalizedBudgetVotes`. -/
def CBudgetManager.CheckOrphanVotesLoop2 (env : NodeEnv) :
    StdMap CFinalizedBudgetVote → CBudgetManager → StdMap CFinalizedBudgetVote × CBudgetManager
  | [], self => ([], self)
  | (k, vote) :: rest, self =>
      let r := self.UpdateFinalizedBudget env vote none
      let tail := CBudgetManager.CheckOrphanVotesLoop2 env rest r.2
      if r.1 then tail else ((k, vote) :: tail.1, tail.2)

/-- The method `CBudgetManager::CheckOrphanVotes`. -/
def CBudgetManager.CheckOrphanVotes (env : NodeEnv) (self : CBudgetManager) : CBudgetManager :=
  let r1 := CBudgetManager.CheckOrphanVotesLoop1 env self.mapOrphanMasternodeBudgetVotes self
  let self1 := { r1.2 with mapOrphanMasternodeBudgetVotes := r1.1 }
  let r2 := CBudgetManager.CheckOrphanVotesLoop2 env self1.mapOrphanFinalizedBudgetVotes self1
  { r2.2 with mapOrphanFinalizedBudgetVotes := r2.1 }

/-- The copy constructor `CFinalizedBudget(const CFinalizedBudget& other)`. -/
def CFinalizedBudget.copy (other : CFinalizedBudget) : CFinalizedBudget :=
  { other with fValid := true, fAutoChecked := false }

/-- The loop of `CBudgetManager::CheckAndRemove` over `mapFinalizedBudgets`: a fault of
a validity check, or for each valid budget whether `CheckAndVote` called `SubmitVote`,
the map `tmpMapFinalizedBudgets`, and the stored proposals as the calls leave them. -/
def CBudgetManager.CheckAndRemoveLoop (env : NodeEnv) (pindex : Option CBlockIndex) :
    StdMap CFinalizedBudget → StdMap CFinalizedBudget → List CBudgetProposal →
      Except Fault (List Bool × StdMap CFinalizedBudget × List CBudgetProposal)
  | [], tmpMapFinalizedBudgets, mapProposals =>
      Except.ok ([], tmpMapFinalizedBudgets, mapProposals)
  | (_, finalizedBudget) :: rest, tmpMapFinalizedBudgets, mapProposals =>
      match finalizedBudget.IsValid env.toEnv pindex true with
      | Except.error fault => Except.error fault
      | Except.ok valid =>
          let pfinalizedBudget := { valid.2 with fValid := valid.1 }
          if pfinalizedBudget.fValid then
            let r := pfinalizedBudget.CheckAndVote env mapProposals pindex
            match CBudgetManager.CheckAndRemoveLoop env pindex rest
                (StdMap.insert tmpMapFinalizedBudgets (r.2.1.GetHash env.toEnv)
                  (CFinalizedBudget.copy r.2.1))
                r.2.2 with
            | Except.error fault => Except.error fault
            | Except.ok tail => Except.ok (r.1 :: tail.1, tail.2.1, tail.2.2)
          else
            CBudgetManager.CheckAndRemoveLoop env pindex rest tmpMapFinalizedBudgets mapProposals

/-- The part of `CBudgetManager::CheckAndRemove` on `mapFinalizedBudgets`: a fault, or
for each valid budget whether `SubmitVote` was called, the map after the swap with
`tmpMapFinalizedBudgets`, and the stored proposals. -/
def CBudgetManager.CheckAndRemove_mapFinalizedBudgets (env : NodeEnv)
    (mapFinalizedBudgets : StdMap CFinalizedBudget) (mapProposals : List CBudgetProposal)
    (pindex : Option CBlockIndex) :
    Except Fault (List Bool × StdMap CFinalizedBudget × List CBudgetProposal) :=
  CBudgetManager.CheckAndRemoveLoop env pindex mapFinalizedBudgets [] mapProposals

/-! ## The payment votes by height (`masternode-payments.h`, `masternode-payments.cpp`) -/

/-- An association list standing for a `std::map` with `int` keys. -/
abbrev StdIntMap (V : Type) := List (Int × V)

/-- The assignment `m[k] = v` on a map with `int` keys. -/
def StdIntMap.assign {V : Type} : StdIntMap V → Int → V → StdIntMap V
  | [], k, v => [(k, v)]
  | (k1, v1) :: rest, k, v =>
      if k < k1 then (k, v) :: (k1, v1) :: rest
      else if k = k1 then (k, v) :: rest
      else (k1, v1) :: StdIntMap.assign rest k v

/-- The call `m.erase(k)` on a map with `int` keys. -/
def StdIntMap.erase {V : Type} (m : StdIntMap V) (k : Int) : StdIntMap V :=
  m.filter (fun e => !decide (e.1 = k))

/-- A payment vote `CMasternodePaymentWinner`. -/
structure CMasternodePaymentWinner where
  vinMasternode : CTxIn
  nBlockHeight : Int
  payee : CScript
  vchSig : List Nat
deriving DecidableEq, Repr

/-- The method `CMasternodePaymentWinner::GetHash`. -/
def CMasternodePaymentWinner.GetHash (env : Env) (self : CMasternodePaymentWinner) : Nat :=
  env.HashWriter
    [SerItem.script self.payee, SerItem.int32 self.nBlockHeight,
     SerItem.u256 self.vinMasternode.prevout.hash, SerItem.int32 self.vinMasternode.prevout.n]

namespace CMasternodeBlockPayees

/-- The loop of `AddPayee` over `vecPayments`, with the `push_back` that follows it when
no entry has the script `payeeIn`. -/
def AddPayeeLoop (payeeIn : CScript) (nIncrement : Int) :
    List CMasternodePayee → List CMasternodePayee
  | [] => [{ scriptPubKey := payeeIn, nVotes := nIncrement }]
  | payee :: rest =>
      if payee.scriptPubKey = payeeIn then
        { payee with nVotes := payee.nVotes + nIncrement } :: rest
      else payee :: AddPayeeLoop payeeIn nIncrement rest

/-- The method `CMasternodeBlockPayees::AddPayee`. -/
def AddPayee (self : CMasternodeBlockPayees) (payeeIn : CScript) (nIncrement : Int) :
    CMasternodeBlockPayees :=
  { self with vecPayments := AddPayeeLoop payeeIn nIncrement self.vecPayments }

/-- The method `CMasternodeBlockPayees::GetPayee`: the result and `payee` as the call
leaves it. -/
def GetPayee (self : CMasternodeBlockPayees) (payee : CScript) : Bool × CScript :=
  let r := self.vecPayments.foldl
    (fun (acc : CScript × Int) p => if p.nVotes > acc.2 then (p.scriptPubKey, p.nVotes) else acc)
    (payee, -1)
  (decide (r.2 > -1), r.1)

/-- The vote count of the script `payee` in a tally: the votes of the entries with that
script. -/
def votesOf (payee : CScript) (vecPayments : List CMasternodePayee) : Int :=
  ((vecPayments.filter (fun p => decide (p.scriptPubKey = payee))).map (fun p => p.nVotes)).sum

/-- The sum of the vote counts of a tally. -/
def sumVotes (vecPayments : List CMasternodePayee) : Int :=
  (vecPayments.map (fun p => p.nVotes)).sum

end CMasternodeBlockPayees

namespace CMasternodePayments

/-- The method `CMasternodePayments::AddWinningMasternode` on the maps
`mapMasternodePayeeVotes` and `mapMasternodeBlocks`, with the chain tip `tip` and the
cache of `GetBlockHash`: the result, and the cache and the two maps as the call leaves
them. -/
def AddWinningMasternode (env : Env) (tip : CBlockIndexPtr)
    (state : BlockHashCache × StdMap CMasternodePaymentWinner × StdIntMap CMasternodeBlockPayees)
    (winnerIn : CMasternodePaymentWinner) :
    Bool × BlockHashCache × StdMap CMasternodePaymentWinner × StdIntMap CMasternodeBlockPayees :=
  let mapMasternodePayeeVotes := state.2.1
  let mapMasternodeBlocks := state.2.2
  let r := GetBlockHash state.1 0 (winnerIn.nBlockHeight - 100) tip
  if !r.1 then (false, r.2.2, mapMasternodePayeeVotes, mapMasternodeBlocks)
  else if mapMasternodePayeeVotes.contains (winnerIn.GetHash env) then
    (false, r.2.2, mapMasternodePayeeVotes, mapMasternodeBlocks)
  else
    let blockPayees : CMasternodeBlockPayees :=
      match List.lookup winnerIn.nBlockHeight mapMasternodeBlocks with
      | some tally => tally
      | none => { nBlockHeight := winnerIn.nBlockHeight, vecPayments := [] }
    (true, r.2.2, mapMasternodePayeeVotes.assign (winnerIn.GetHash env) winnerIn,
      StdIntMap.assign mapMasternodeBlocks winnerIn.nBlockHeight
        (blockPayees.AddPayee winnerIn.payee 1))

/-- A sequence of `AddWinningMasternode` calls, run one after the other: the results in
call order and the final state. -/
def AddWinningMasternodeCalls (env : Env) (tip : CBlockIndexPtr) :
    BlockHashCache × StdMap CMasternodePaymentWinner × StdIntMap CMasternodeBlockPayees →
      List CMasternodePaymentWinner →
      List Bool ×
        BlockHashCache × StdMap CMasternodePaymentWinner × StdIntMap CMasternodeBlockPayees
  | state, [] => ([], state)
  | state, winnerIn :: rest =>
      let r := AddWinningMasternode env tip state winnerIn
      let rs := AddWinningMasternodeCalls env tip r.2 rest
      (r.1 :: rs.1, rs.2)

/-- The sum of the vote counts of the tally of the height `nBlockHeight`, 0 when
`mapMasternodeBlocks` has no tally for it. -/
def sumVotesAt (mapMasternodeBlocks : StdIntMap CMasternodeBlockPayees) (nBlockHeight : Int) :
    Int :=
  match List.lookup nBlockHeight mapMasternodeBlocks with
  | some tally => CMasternodeBlockPayees.sumVotes tally.vecPayments
  | none => 0

/-- The number of calls of a sequence that were accepted and were for the height
`nBlockHeight`. -/
def acceptedFor (nBlockHeight : Int) :
    List Bool → List CMasternodePaymentWinner → Int
  | accepted :: results, winnerIn :: rest =>
      (if accepted = true ∧ winnerIn.nBlockHeight = nBlockHeight then 1 else 0)
        + acceptedFor nBlockHeight results rest
  | _, _ => 0

/-- The loop of `CMasternodePayments::CleanPaymentList` over `mapMasternodePayeeVotes`:
the votes that stay, and `mapMasternodeBlocks` as the loop leaves it. -/
def CleanPaymentListLoop (nHeight nLimit : Int) :
    StdMap CMasternodePaymentWinner → StdIntMap CMasternodeBlockPayees →
      StdMap CMasternodePaymentWinner × StdIntMap CMasternodeBlockPayees
  | [], mapMasternodeBlocks => ([], mapMasternodeBlocks)
  | (k, winner) :: rest, mapMasternodeBlocks =>
      if nHeight - winner.nBlockHeight > nLimit then
        CleanPaymentListLoop nHeight nLimit rest
          (StdIntMap.erase mapMasternodeBlocks winner.nBlockHeight)
      else
        let r := CleanPaymentListLoop nHeight nLimit rest mapMasternodeBlocks
        ((k, winner) :: r.1, r.2)

/-- The limit `std::max(int(mnodeman.size() * 1.25), 1000)` of `CleanPaymentList`; the
conversion to `int` truncates. -/
def nLimit (mnodemanSize : Int) : Int :=
  max ((mnodemanSize * 5).tdiv 4) 1000

/-- The method `CMasternodePayments::CleanPaymentList`; `locked` is whether
`TRY_LOCK(cs_main, locked)` got the lock, `tip` the tip of the active chain and
`mnodemanSize` the value of `mnodeman.size()`. -/
def CleanPaymentList (locked : Bool) (tip : Option CBlockIndex) (mnodemanSize : Int)
    (mapMasternodePayeeVotes : StdMap CMasternodePaymentWinner)
    (mapMasternodeBlocks : StdIntMap CMasternodeBlockPayees) :
    StdMap CMasternodePaymentWinner × StdIntMap CMasternodeBlockPayees :=
  if !locked then (mapMasternodePayeeVotes, mapMasternodeBlocks)
  else
    match tip with
    | none => (mapMasternodePayeeVotes, mapMasternodeBlocks)
    | some pindex =>
        CleanPaymentListLoop pindex.nHeight (nLimit mnodemanSize) mapMasternodePayeeVotes
          mapMasternodeBlocks

/-- The method `CMasternodePayments::GetBlockPayee`. -/
def GetBlockPayee (mapMasternodeBlocks : StdIntMap CMasternodeBlockPayees) (nBlockHeight : Int)
    (payee : CScript) : Bool × CScript :=
  match List.lookup nBlockHeight mapMasternodeBlocks with
  | some tally => tally.GetPayee payee
  | none => (false, payee)

end CMasternodePayments

/-- The collaborators of `FillBlockPayee` beyond `Env`.
* `GetMasternodePayment nHeight blockValue`: the function of that name;
* `GetCurrentMasterNode`: the script `GetScriptForDestination` gives for the collateral
  address of `mnodeman.GetCurrentMasterNode(1)`, if that finds a masternode. -/
structure PaymentEnv extends Env where
  GetMasternodePayment : Int → Int → Int
  GetCurrentMasterNode : Option CScript

/-- The statement `vout[j].nValue -= nAmount`; no effect when `j` is out of range. -/
def subValueAt : List CTxOut → Nat → Int → List CTxOut
  | [], _, _ => []
  | out :: rest, 0, nAmount => { out with nValue := out.nValue - nAmount } :: rest
  | out :: rest, j + 1, nAmount => out :: subValueAt rest j nAmount

/-- The loop `for (j = ...; j <= outputs; j++) vout[j].nValue -= mnPaymentSplit` of
`FillBlockPayee`, with `count` iterations left from the index `j` onwards. -/
def splitLoop (mnPaymentSplit : Int) : Nat → Nat → List CTxOut → List CTxOut
  | 0, _, vout => vout
  | count + 1, j, vout => splitLoop mnPaymentSplit count (j + 1) (subValueAt vout j mnPaymentSplit)

/-- The method `CMasternodePayments::FillBlockPayee`: the outputs of `txNew` as the call
leaves them.  `tip` is the tip of the active chain, `vout` are the outputs of `txNew`
before the call.  (Where the source writes to `vout[0]` of a vector without outputs, the
outputs stay as they are.) -/
def CMasternodePayments.FillBlockPayee (env : PaymentEnv)
    (mapMasternodeBlocks : StdIntMap CMasternodeBlockPayees) (tip : Option CBlockIndex)
    (vout : List CTxOut) (fProofOfStake : Bool) : List CTxOut :=
  match tip with
  | none => vout
  | some pindexPrev =>
      let found := CMasternodePayments.GetBlockPayee mapMasternodeBlocks (pindexPrev.nHeight + 1) []
      let winner : Bool × CScript :=
        if !found.1 then
          match env.GetCurrentMasterNode with
          | some script => (true, script)
          | none => (false, found.2)
        else (true, found.2)
      let hasPayment := winner.1
      let payee := winner.2
      let blockValue := env.GetBlockSubsidy (pindexPrev.nHeight + 1) fProofOfStake
      let masternodePayment := env.GetMasternodePayment (pindexPrev.nHeight + 1) blockValue
      if hasPayment then
        if fProofOfStake then
          let i := vout.length
          let vout1 := vout ++ [{ nValue := masternodePayment, scriptPubKey := payee }]
          if i = 2 then subValueAt vout1 (i - 1) masternodePayment
          else if i > 2 then
            let outputs := i - 1
            let mnPaymentSplit := masternodePayment.tdiv (outputs : Int)
            let mnPaymentRemainder := masternodePayment - mnPaymentSplit * (outputs : Int)
            subValueAt (splitLoop mnPaymentSplit outputs 1 vout1) outputs mnPaymentRemainder
          else vout1
        else
          [{ nValue := blockValue - masternodePayment,
             scriptPubKey := (vout.getD 0 { nValue := 0, scriptPubKey := [] }).scriptPubKey },
           { nValue := masternodePayment, scriptPubKey := payee }]
      else if !fProofOfStake then
        match vout with
        | [] => []
        | out :: rest => { out with nValue := blockValue } :: rest
      else vout

/-! ## Chains of block index entries -/

/-- Whether a pointer to a block index entry is the tip of a chain of the heights
`nHeight`, `nHeight - 1`, ..., 0: every entry has the entry of the height below as its
`pprev`, and the entry of height 0 has none. -/
def isChainFrom : Int → CBlockIndexPtr → Bool
  | _, [] => false
  | nHeight, [genesis] => decide (genesis.nHeight = nHeight) && decide (nHeight = 0)
  | nHeight, entry :: pprev :: rest =>
      decide (entry.nHeight = nHeight) && isChainFrom (nHeight - 1) (pprev :: rest)

/-- The hash of the ancestor of height `nHeight` of a tip, if there is one:
`pindex->GetAncestor(nHeight)->GetBlockHash()`. -/
def blockHashAt (nHeight : Int) (pindex : CBlockIndexPtr) : Option Nat :=
  (pindex.find? (fun entry => decide (entry.nHeight = nHeight))).map (fun entry => entry.hashBlock)

/-! ## Test data for the collateral lookup -/

/-- A chain state without transactions: every lookup of a collateral transaction
fails. -/
def emptyCollateralEnv : CollateralEnv where
  GetTransaction := fun _ => none
  IsNormalPaymentScript := fun _ => true
  IsUnspendable := fun _ => false
  findScript := fun nExpectedHash => [106, 32, nExpectedHash]
  GetIXConfirmations := fun _ => 0
  m_block_index := fun _ => none
  Height := 100
  nBudgetFeeConfirmations := 6
  COIN := 100000000

/-- The small test chain on a node that knows no collateral transaction. -/
def smallEnvNoCollateral : Env := { smallEnv with collateral := emptyCollateralEnv }

/-! ## Test data for the votes and the maintenance cycle -/

/-- A valid yes vote of the masternode with the collateral `vin` on the proposal
`nProposalHash`, cast at `nTime`. -/
def exampleVote (vin : COutPoint) (nProposalHash : Nat) (nTime : Int) : CBudgetVote :=
  { fValid := true, fSynced := false, vin := vin, nProposalHash := nProposalHash,
    nVote := VOTE_YES, nTime := nTime, vchSig := [] }

/-- A valid vote of the masternode with the collateral `vin` on the finalized budget
`nBudgetHash`, cast at `nTime`. -/
def exampleFinalizedVote (vin : COutPoint) (nBudgetHash : Nat) (nTime : Int) :
    CFinalizedBudgetVote :=
  { fValid := true, fSynced := false, vin := vin, nBudgetHash := nBudgetHash,
    nTime := nTime, vchSig := [] }

/-- A payment vote of the masternode with the collateral `(77, 0)` for the payee `[1]`
at the height `nBlockHeight`. -/
def exampleWinner (nBlockHeight : Int) : CMasternodePaymentWinner :=
  { vinMasternode := { prevout := { hash := 77, n := 0 }, scriptSig := [], nSequence := 4294967295 },
    nBlockHeight := nBlockHeight, payee := [1], vchSig := [] }

/-- A payment environment on the small test chain: a masternode payment of 10 base
units, and a current masternode with the script `[9]`. -/
def examplePaymentEnv : PaymentEnv where
  toEnv := smallEnv
  GetMasternodePayment := fun _ _ => 10
  GetCurrentMasterNode := some [9]

/-- A chain of four blocks, from the tip of height 3 down to the block of height 0. -/
def exampleChainFromGenesis : CBlockIndexPtr :=
  [{ nHeight := 3, hashBlock := 103 }, { nHeight := 2, hashBlock := 102 },
   { nHeight := 1, hashBlock := 101 }, { nHeight := 0, hashBlock := 100 }]

/-- The proposal of the orphan-vote example: the proposal of 20 coins of the small test
chain, without votes. -/
def orphanProposal : CBudgetProposal := smallProposal 20 0 VOTE_YES

/-- The finalized budget of the orphan-vote example: it pays `orphanProposal`. -/
def orphanBudget : CFinalizedBudget := budgetFor smallNodeEnv.toEnv orphanProposal [1]

/-- The vote of the masternode with the collateral `(n, 0)` on `orphanProposal`. -/
def orphanVote (n : Nat) : CBudgetVote :=
  exampleVote { hash := n, n := 0 } (orphanProposal.GetHash smallNodeEnv.toEnv) 1000

/-- The vote of the masternode with the collateral `(n, 0)` on `orphanBudget`. -/
def orphanFinalizedVote (n : Nat) : CFinalizedBudgetVote :=
  exampleFinalizedVote { hash := n, n := 0 } (orphanBudget.GetHash smallNodeEnv.toEnv) 1000

/-- The manager after a peer has sent the votes of the masternodes 1 and 2 on
`orphanProposal` and on `orphanBudget`, none of which the manager knows. -/
def exampleOrphans : CBudgetManager :=
  ((((CBudgetManager.empty.UpdateProposal smallNodeEnv (orphanVote 1) (some 0)).2.UpdateProposal
      smallNodeEnv (orphanVote 2) (some 0)).2.UpdateFinalizedBudget
      smallNodeEnv (orphanFinalizedVote 1) (some 0)).2.UpdateFinalizedBudget
      smallNodeEnv (orphanFinalizedVote 2) (some 0)).2

/-- The manager `exampleOrphans` after `AddProposal` has stored `orphanProposal` and
`orphanBudget` has been inserted into `mapFinalizedBudgets`. -/
def exampleOrphansKnown : CBudgetManager :=
  { exampleOrphans with
    mapProposals :=
      match CBudgetManager.AddProposal smallNodeEnv.toEnv exampleOrphans.mapProposals
          orphanProposal (some ⟨95⟩) with
      | Except.ok r => r.2
      | Except.error _ => exampleOrphans.mapProposals,
    mapFinalizedBudgets :=
      StdMap.insert exampleOrphans.mapFinalizedBudgets (orphanBudget.GetHash smallNodeEnv.toEnv)
        orphanBudget }

/-- The finalized budget of the maintenance example: it pays the one passing proposal
of the small test chain. -/
def matchingBudget : CFinalizedBudget :=
  budgetFor smallNodeEnv.toEnv (smallProposal 20 10 VOTE_YES) [1]

/-! ## Lemmas on `StdMap` -/

namespace StdMap

theorem find_assign_self {V : Type} (m : StdMap V) (k : Nat) (v : V) :
    find (assign m k v) k = some v := by
  induction m with
  | nil => simp [assign, find, List.lookup]
  | cons e rest ih =>
      obtain ⟨k1, v1⟩ := e
      unfold assign
      by_cases h1 : k < k1
      · simp [h1, find, List.lookup]
      · by_cases h2 : k = k1
        · simp [h2, find, List.lookup]
        · have h3 : (k == k1) = false := by simpa using h2
          simp only [h1, h2, if_false, find, List.lookup, h3]
          exact ih

theorem find_assign_other {V : Type} (m : StdMap V) (k k2 : Nat) (v : V) (hne : k2 ≠ k) :
    find (assign m k v) k2 = find m k2 := by
  have hb : (k2 == k) = false := by simpa using hne
  induction m with
  | nil => simp [assign, find, List.lookup, hb]
  | cons e rest ih =>
      obtain ⟨k1, v1⟩ := e
      unfold assign
      by_cases h1 : k < k1
      · simp [h1, find, List.lookup, hb]
      · by_cases h2 : k = k1
        · subst h2
          simp [find, List.lookup, hb]
        · simp only [h1, h2, if_false, find, List.lookup]
          cases hk : (k2 == k1)
          · simpa [find] using ih
          · rfl

end StdMap

/-! ## Payment votes -/

namespace CMasternodePayments

theorem find_after_CanVote (s : CMasternodePayments) (c : COutPoint) (H : Int) :
    (s.CanVote c H).2.mapMasternodesLastVote.find (voteHash c) = some H := by
  unfold CanVote
  cases hf : s.mapMasternodesLastVote.find (voteHash c) with
  | none => simp [StdMap.find_assign_self]
  | some nLast =>
      by_cases h : nLast = H
      · simp [h, hf]
      · simp [h, StdMap.find_assign_self]

theorem find_CanVote_other (s : CMasternodePayments) (c c2 : COutPoint) (H : Int)
    (hne : voteHash c ≠ voteHash c2) :
    (s.CanVote c2 H).2.mapMasternodesLastVote.find (voteHash c)
      = s.mapMasternodesLastVote.find (voteHash c) := by
  unfold CanVote
  cases hf : s.mapMasternodesLastVote.find (voteHash c2) with
  | none => simp [StdMap.find_assign_other _ _ _ _ hne]
  | some nLast =>
      by_cases h : nLast = H
      · simp [h]
      · simp [h, StdMap.find_assign_other _ _ _ _ hne]

theorem CanVote_of_find (s : CMasternodePayments) (c : COutPoint) (H : Int)
    (hf : s.mapMasternodesLastVote.find (voteHash c) = some H) :
    s.CanVote c H = (false, s) := by
  simp [CanVote, hf]

theorem find_after_calls (s : CMasternodePayments) (c : COutPoint) (H : Int)
    (between : List (COutPoint × Int))
    (hbetween : ∀ call ∈ between, voteHash call.1 = voteHash c → call.2 = H)
    (hf : s.mapMasternodesLastVote.find (voteHash c) = some H) :
    (CanVoteCalls s between).2.mapMasternodesLastVote.find (voteHash c) = some H := by
  induction between generalizing s with
  | nil => simpa [CanVoteCalls] using hf
  | cons call rest ih =>
      obtain ⟨c2, H2⟩ := call
      simp only [CanVoteCalls]
      apply ih
      · intro call hcall
        exact hbetween call (List.mem_cons_of_mem _ hcall)
      · by_cases hk : voteHash c2 = voteHash c
        · have hH : H2 = H := hbetween (c2, H2) (List.mem_cons_self _ _) hk
          subst hH
          rw [← hk]
          exact find_after_CanVote s c2 H2
        · rw [find_CanVote_other s c c2 H2 (fun h => hk h.symm)]
          exact hf

theorem CanVoteCalls_append (s : CMasternodePayments) (l1 l2 : List (COutPoint × Int)) :
    CanVoteCalls s (l1 ++ l2)
      = ((CanVoteCalls s l1).1 ++ (CanVoteCalls (CanVoteCalls s l1).2 l2).1,
         (CanVoteCalls (CanVoteCalls s l1).2 l2).2) := by
  induction l1 generalizing s with
  | nil => simp [CanVoteCalls]
  | cons call rest ih =>
      obtain ⟨c, H⟩ := call
      simp [CanVoteCalls, ih]

/-- C1, as the code has it: in a sequence of `CanVote` calls that starts from an empty
`mapMasternodesLastVote`, a call `CanVote(c, H)` that comes after an earlier call
`CanVote(c, H)` returns false, provided every call in between whose outpoint has the
key of `c` (hash + n modulo 2^256) was for the height `H` too.  Calls for outpoints
with another key do not matter, whatever their height. -/
theorem CanVote_second_vote_rejected (pre between : List (COutPoint × Int)) (c : COutPoint)
    (H : Int)
    (hbetween : ∀ call ∈ between, voteHash call.1 = voteHash c → call.2 = H) :
    (CanVoteCalls { mapMasternodesLastVote := [] }
        (pre ++ (c, H) :: (between ++ [(c, H)]))).1.getLast? = some false := by
  rw [CanVoteCalls_append]
  simp only [CanVoteCalls]
  rw [CanVoteCalls_append]
  simp only [CanVoteCalls]
  have h1 := find_after_calls _ c H between hbetween
    (find_after_CanVote (CanVoteCalls { mapMasternodesLastVote := [] } pre).2 c H)
  rw [CanVote_of_find _ c H h1]
  show (_ ++ ((_ :: _) ++ [false])).getLast? = some false
  rw [← List.append_assoc]
  exact List.getLast?_concat _

/-- Witness for C1: a vote for height 5, a vote of another
outpoint for height 6, then the first vote again. -/
theorem CanVote_second_vote_rejected_witness :
    (∀ call ∈ [((⟨9, 0⟩ : COutPoint), (6 : Int))],
        voteHash call.1 = voteHash ⟨7, 1⟩ → call.2 = 5) ∧
    (CanVoteCalls { mapMasternodesLastVote := [] }
        ([] ++ (⟨7, 1⟩, 5) :: ([(⟨9, 0⟩, 6)] ++ [(⟨7, 1⟩, 5)]))).1.getLast? = some false :=
  ⟨by decide, CanVote_second_vote_rejected [] [(⟨9, 0⟩, 6)] ⟨7, 1⟩ 5 (by decide)⟩

/-- C1 as stated fails: after `CanVote(c, 1)` returned true, a call `CanVote(c, 2)` for
the same outpoint overwrites the recorded height, and a later `CanVote(c, 1)` returns
true again. -/
theorem CanVote_revote_after_other_height :
    (CanVoteCalls { mapMasternodesLastVote := [] }
        [(⟨7, 0⟩, 1), (⟨7, 0⟩, 2), (⟨7, 0⟩, 1)]).1 = [true, true, true] := by
  decide

end CMasternodePayments

namespace CMasternodeBlockPayees

theorem foldl_maxSignatures_lt (l : List CMasternodePayee) (a : Int) :
    l.foldl
        (fun nMax payee =>
          if payee.nVotes ≥ nMax ∧ payee.nVotes ≥ MNPAYMENTS_SIGNATURES_REQUIRED then payee.nVotes
          else nMax) a < MNPAYMENTS_SIGNATURES_REQUIRED
      ↔ a < MNPAYMENTS_SIGNATURES_REQUIRED ∧
        ∀ p ∈ l, p.nVotes < MNPAYMENTS_SIGNATURES_REQUIRED := by
  induction l generalizing a with
  | nil => simp
  | cons p rest ih =>
      simp only [List.foldl_cons, List.mem_cons, forall_eq_or_imp]
      rw [ih]
      by_cases h : p.nVotes ≥ a ∧ p.nVotes ≥ MNPAYMENTS_SIGNATURES_REQUIRED
      · rw [if_pos h]
        constructor
        · intro h2; omega
        · intro h2; omega
      · rw [if_neg h]
        constructor
        · intro h2
          refine ⟨h2.1, ?_, h2.2⟩
          by_contra h3
          exact h ⟨by omega, by omega⟩
        · intro h2
          exact ⟨h2.1, h2.2.2⟩

theorem nMaxSignatures_lt (l : List CMasternodePayee) :
    nMaxSignatures l < MNPAYMENTS_SIGNATURES_REQUIRED
      ↔ ∀ p ∈ l, p.nVotes < MNPAYMENTS_SIGNATURES_REQUIRED := by
  unfold nMaxSignatures
  rw [foldl_maxSignatures_lt]
  simp [MNPAYMENTS_SIGNATURES_REQUIRED]

theorem foldl_found (payee : CMasternodePayee) (R : Int) (vout : List CTxOut) (b : Bool) :
    vout.foldl
        (fun fnd out =>
          if payee.scriptPubKey = out.scriptPubKey then
            (if out.nValue ≥ R then true else fnd)
          else fnd) b = true
      ↔ b = true ∨ ∃ out ∈ vout, out.scriptPubKey = payee.scriptPubKey ∧ out.nValue ≥ R := by
  induction vout generalizing b with
  | nil => simp
  | cons out rest ih =>
      simp only [List.foldl_cons, List.mem_cons, exists_eq_or_imp]
      rw [ih]
      by_cases h1 : payee.scriptPubKey = out.scriptPubKey
      · by_cases h2 : out.nValue ≥ R
        · simp [h1, h2]
        · simp [h1, h2]
      · have h3 : ¬ out.scriptPubKey = payee.scriptPubKey := fun h => h1 h.symm
        simp [h1, h3]

theorem found_iff (payee : CMasternodePayee) (vout : List CTxOut) (R : Int) :
    found payee vout R = true
      ↔ ∃ out ∈ vout, out.scriptPubKey = payee.scriptPubKey ∧ out.nValue ≥ R := by
  unfold found
  rw [foldl_found]
  simp

theorem payeeLoop_iff (vout : List CTxOut) (R : Int) (l : List CMasternodePayee) :
    payeeLoop vout R l = true
      ↔ ∃ p ∈ l, p.nVotes ≥ MNPAYMENTS_SIGNATURES_REQUIRED ∧ found p vout R = true := by
  induction l with
  | nil => simp [payeeLoop]
  | cons p rest ih =>
      simp only [payeeLoop, List.mem_cons, exists_eq_or_imp]
      by_cases h1 : p.nVotes ≥ MNPAYMENTS_SIGNATURES_REQUIRED
      · by_cases h2 : found p vout R = true
        · simp [h1, h2]
        · simp [h1, h2, ih]
      · simp [h1, ih]

/-- C2, as the code has it: `CMasternodeBlockPayees::IsTransactionValid(tx)` returns
true if and only if either no payee of the tally has at least 6 votes
(`MNPAYMENTS_SIGNATURES_REQUIRED`), or `tx` has an output whose script equals that of a
payee with at least 6 votes and whose value is at least the required masternode
payment `R`. -/
theorem IsTransactionValid_iff (self : CMasternodeBlockPayees) (vout : List CTxOut)
    (R : Int) :
    self.IsTransactionValid vout R = true
      ↔ (∀ p ∈ self.vecPayments, p.nVotes < 6) ∨
        ∃ p ∈ self.vecPayments, p.nVotes ≥ 6 ∧
          ∃ out ∈ vout, out.scriptPubKey = p.scriptPubKey ∧ out.nValue ≥ R := by
  unfold IsTransactionValid
  by_cases h : nMaxSignatures self.vecPayments < MNPAYMENTS_SIGNATURES_REQUIRED
  · simp only [h, if_true, true_iff]
    exact Or.inl ((nMaxSignatures_lt _).1 h)
  · simp only [h, if_false]
    rw [payeeLoop_iff]
    constructor
    · rintro ⟨p, hp, hv, hf⟩
      exact Or.inr ⟨p, hp, hv, (found_iff p vout R).1 hf⟩
    · rintro (hall | ⟨p, hp, hv, hf⟩)
      · exact absurd ((nMaxSignatures_lt _).2 hall) h
      · exact ⟨p, hp, hv, (found_iff p vout R).2 hf⟩

/-- C2 as stated fails: with a payee of 6 votes and a required payment of 100, a
transaction that pays this payee 101 is accepted, although no output has the value 100
exactly. -/
theorem IsTransactionValid_accepts_overpayment :
    IsTransactionValid { nBlockHeight := 10, vecPayments := [{ scriptPubKey := [1], nVotes := 6 }] }
        [{ nValue := 101, scriptPubKey := [1] }] 100 = true ∧
    ¬ ((∀ p ∈ [({ scriptPubKey := [1], nVotes := 6 } : CMasternodePayee)], p.nVotes < 6) ∨
        ∃ p ∈ [({ scriptPubKey := [1], nVotes := 6 } : CMasternodePayee)], p.nVotes ≥ 6 ∧
          ∃ out ∈ [({ nValue := 101, scriptPubKey := [1] } : CTxOut)],
            out.scriptPubKey = p.scriptPubKey ∧ out.nValue = 100) := by
  decide

end CMasternodeBlockPayees

/-! ## Payments of a finalized budget -/

namespace StdMap

theorem contains_eq_true_iff {V : Type} (m : StdMap V) (k : Nat) :
    contains m k = true ↔ ∃ e ∈ m, e.1 = k := by
  simp [contains, List.any_eq_true]

theorem mem_assign {V : Type} (m : StdMap V) (k : Nat) (v : V) : (k, v) ∈ assign m k v := by
  induction m with
  | nil => simp [assign]
  | cons e rest ih =>
      obtain ⟨k1, v1⟩ := e
      unfold assign
      by_cases h1 : k < k1
      · simp [h1]
      · by_cases h2 : k = k1
        · simp [h2]
        · simp only [h1, h2, if_false]
          exact List.mem_cons_of_mem _ ih

end StdMap

namespace CFinalizedBudget

theorem IsPaidAlready_unknown (B : CFinalizedBudget) (hist : StdMap Int) (k : Nat) (h : Int)
    (hstart : B.GetBlockStart ≤ h) (hend : h ≤ B.GetBlockEnd)
    (hfresh : StdMap.contains hist k = false) :
    (B.IsPaidAlready hist k h).1 = false ∧
      ∃ e ∈ (B.IsPaidAlready hist k h).2,
        e.1 = k ∧ B.GetBlockStart ≤ e.2 ∧ e.2 ≤ B.GetBlockEnd := by
  have hkept : StdMap.contains
      (hist.filter (fun e =>
        !(decide (e.2 < B.GetBlockStart) || decide (e.2 > B.GetBlockEnd)))) k = false := by
    cases hc : StdMap.contains
      (hist.filter (fun e =>
        !(decide (e.2 < B.GetBlockStart) || decide (e.2 > B.GetBlockEnd)))) k with
    | false => rfl
    | true =>
        obtain ⟨e, he, hk⟩ := (StdMap.contains_eq_true_iff _ _).1 hc
        have : StdMap.contains hist k = true :=
          (StdMap.contains_eq_true_iff _ _).2 ⟨e, (List.mem_filter.1 he).1, hk⟩
        rw [hfresh] at this
        exact absurd this (by simp)
  have heq : B.IsPaidAlready hist k h
      = (false, StdMap.assign (hist.filter (fun e =>
          !(decide (e.2 < B.GetBlockStart) || decide (e.2 > B.GetBlockEnd)))) k h) := by
    unfold IsPaidAlready StdMap.insert
    simp only [hkept]
    rfl
  rw [heq]
  exact ⟨rfl, (k, h), StdMap.mem_assign _ k h, rfl, hstart, hend⟩

theorem IsPaidAlready_known (B : CFinalizedBudget) (hist : StdMap Int) (k : Nat) (h : Int)
    (hrec : ∃ e ∈ hist, e.1 = k ∧ B.GetBlockStart ≤ e.2 ∧ e.2 ≤ B.GetBlockEnd) :
    (B.IsPaidAlready hist k h).1 = true ∧
      ∃ e ∈ (B.IsPaidAlready hist k h).2,
        e.1 = k ∧ B.GetBlockStart ≤ e.2 ∧ e.2 ≤ B.GetBlockEnd := by
  obtain ⟨e, he, hk, h1, h2⟩ := hrec
  have hmem : e ∈ hist.filter (fun e =>
      !(decide (e.2 < B.GetBlockStart) || decide (e.2 > B.GetBlockEnd))) := by
    rw [List.mem_filter]
    refine ⟨he, ?_⟩
    have h3 : ¬ e.2 < B.GetBlockStart := by omega
    have h4 : ¬ e.2 > B.GetBlockEnd := by omega
    simp [h3, h4]
  have hkept : StdMap.contains
      (hist.filter (fun e =>
        !(decide (e.2 < B.GetBlockStart) || decide (e.2 > B.GetBlockEnd)))) k = true :=
    (StdMap.contains_eq_true_iff _ _).2 ⟨e, hmem, hk⟩
  have heq : B.IsPaidAlready hist k h
      = (true, hist.filter (fun e =>
          !(decide (e.2 < B.GetBlockStart) || decide (e.2 > B.GetBlockEnd)))) := by
    unfold IsPaidAlready
    simp only [hkept]
    rfl
  rw [heq]
  exact ⟨rfl, e, hmem, hk, h1, h2⟩

theorem IsTransactionValidLoop_known (B : CFinalizedBudget) (payment : CTxBudgetPayment)
    (h : Int) (vout : List CTxOut) (st : TrxValidationStatus) (hist : StdMap Int)
    (hrec : ∃ e ∈ hist, e.1 = payment.nProposalHash ∧ B.GetBlockStart ≤ e.2 ∧
      e.2 ≤ B.GetBlockEnd) :
    (B.IsTransactionValidLoop payment h vout st hist).1
        = (if vout.countP (fun out =>
              decide (payment.payee = out.scriptPubKey ∧ payment.nAmount = out.nValue)) = 0
            then st else TrxValidationStatus.DoublePayment) ∧
      ∃ e ∈ (B.IsTransactionValidLoop payment h vout st hist).2,
        e.1 = payment.nProposalHash ∧ B.GetBlockStart ≤ e.2 ∧ e.2 ≤ B.GetBlockEnd := by
  induction vout generalizing st hist with
  | nil => simpa [IsTransactionValidLoop] using hrec
  | cons out rest ih =>
      by_cases hm : payment.payee = out.scriptPubKey ∧ payment.nAmount = out.nValue
      · have hp := IsPaidAlready_known B hist payment.nProposalHash h hrec
        have hc : List.countP (fun out =>
              decide (payment.payee = out.scriptPubKey ∧ payment.nAmount = out.nValue))
            (out :: rest) ≠ 0 := by
          rw [List.countP_cons]
          simp [hm]
        rw [if_neg hc]
        simp only [IsTransactionValidLoop]
        rw [if_pos hm, hp.1]
        exact ⟨rfl, hp.2⟩
      · have hc : List.countP (fun out =>
              decide (payment.payee = out.scriptPubKey ∧ payment.nAmount = out.nValue))
            (out :: rest) = List.countP (fun out =>
              decide (payment.payee = out.scriptPubKey ∧ payment.nAmount = out.nValue)) rest := by
          rw [List.countP_cons]
          simp [hm]
        rw [hc]
        simp only [IsTransactionValidLoop]
        rw [if_neg hm]
        exact ih st hist hrec

theorem IsTransactionValidLoop_unknown (B : CFinalizedBudget) (payment : CTxBudgetPayment)
    (h : Int) (hstart : B.GetBlockStart ≤ h) (hend : h ≤ B.GetBlockEnd)
    (vout : List CTxOut) (st : TrxValidationStatus) (hist : StdMap Int)
    (hfresh : StdMap.contains hist payment.nProposalHash = false)
    (hout : 0 < vout.countP (fun out =>
      decide (payment.payee = out.scriptPubKey ∧ payment.nAmount = out.nValue))) :
    (B.IsTransactionValidLoop payment h vout st hist).1
        = (if vout.countP (fun out =>
              decide (payment.payee = out.scriptPubKey ∧ payment.nAmount = out.nValue)) = 1
            then TrxValidationStatus.Valid else TrxValidationStatus.DoublePayment) ∧
      ∃ e ∈ (B.IsTransactionValidLoop payment h vout st hist).2,
        e.1 = payment.nProposalHash ∧ B.GetBlockStart ≤ e.2 ∧ e.2 ≤ B.GetBlockEnd := by
  induction vout generalizing st hist with
  | nil => simp at hout
  | cons out rest ih =>
      by_cases hm : payment.payee = out.scriptPubKey ∧ payment.nAmount = out.nValue
      · have hp := IsPaidAlready_unknown B hist payment.nProposalHash h hstart hend hfresh
        have hk := IsTransactionValidLoop_known B payment h rest TrxValidationStatus.Valid
          (B.IsPaidAlready hist payment.nProposalHash h).2 hp.2
        have hc : List.countP (fun out =>
              decide (payment.payee = out.scriptPubKey ∧ payment.nAmount = out.nValue))
            (out :: rest) = List.countP (fun out =>
              decide (payment.payee = out.scriptPubKey ∧ payment.nAmount = out.nValue)) rest
              + 1 := by
          rw [List.countP_cons]
          simp [hm]
        rw [hc]
        simp only [IsTransactionValidLoop]
        rw [if_pos hm, hp.1]
        refine ⟨?_, hk.2⟩
        show (B.IsTransactionValidLoop payment h rest TrxValidationStatus.Valid
          (B.IsPaidAlready hist payment.nProposalHash h).2).1 = _
        rw [hk.1]
        by_cases h0 : List.countP (fun out =>
              decide (payment.payee = out.scriptPubKey ∧ payment.nAmount = out.nValue)) rest = 0
        · simp [h0]
        · simp [h0]
      · have hc : List.countP (fun out =>
              decide (payment.payee = out.scriptPubKey ∧ payment.nAmount = out.nValue))
            (out :: rest) = List.countP (fun out =>
              decide (payment.payee = out.scriptPubKey ∧ payment.nAmount = out.nValue)) rest := by
          rw [List.countP_cons]
          simp [hm]
        rw [hc] at hout ⊢
        simp only [IsTransactionValidLoop]
        rw [if_neg hm]
        exact ih st hist hfresh hout

end CFinalizedBudget

namespace CFinalizedBudget

theorem IsTransactionValid_eq_loop (B : CFinalizedBudget) (hist : StdMap Int)
    (vout : List CTxOut) (h : Int) (payment : CTxBudgetPayment)
    (hstart : B.GetBlockStart ≤ h) (hend : h ≤ B.GetBlockEnd)
    (hpay : B.vecBudgetPayments[(h - B.GetBlockStart).toNat]? = some payment) :
    B.IsTransactionValid hist vout h
      = B.IsTransactionValidLoop payment h vout TrxValidationStatus.InValid hist := by
  unfold IsTransactionValid
  have h1 : ¬ h - B.GetBlockStart < 0 := by omega
  have h2 : ¬ h - B.GetBlockStart > (B.vecBudgetPayments.length : Int) - 1 := by
    unfold GetBlockEnd at hend
    unfold GetBlockStart at *
    omega
  simp only [h1, h2, if_false, hpay]

/-- C3, as the code has it: for a finalized budget `B`, a height `h` with
`B.start <= h <= B.end`, a transaction with at least one output equal (payee script and
amount) to the payment of `B` at index `h - B.start`, and a payment history without an
entry for the proposal hash of that payment: the first call
`CFinalizedBudget::IsTransactionValid(tx, h)` returns `Valid` when the transaction has
exactly one such output and `DoublePayment` when it has two or more, and an immediately
following second call with the same arguments returns `DoublePayment`. -/
theorem IsTransactionValid_valid_then_double (B : CFinalizedBudget) (hist : StdMap Int)
    (vout : List CTxOut) (h : Int) (payment : CTxBudgetPayment)
    (hstart : B.GetBlockStart ≤ h) (hend : h ≤ B.GetBlockEnd)
    (hpay : B.vecBudgetPayments[(h - B.GetBlockStart).toNat]? = some payment)
    (hout : ∃ out ∈ vout, payment.payee = out.scriptPubKey ∧ payment.nAmount = out.nValue)
    (hfresh : StdMap.contains hist payment.nProposalHash = false) :
    (B.IsTransactionValid hist vout h).1
        = (if vout.countP (fun out =>
              decide (payment.payee = out.scriptPubKey ∧ payment.nAmount = out.nValue)) = 1
            then TrxValidationStatus.Valid else TrxValidationStatus.DoublePayment) ∧
      (B.IsTransactionValid (B.IsTransactionValid hist vout h).2 vout h).1
        = TrxValidationStatus.DoublePayment := by
  have hpos : 0 < vout.countP (fun out =>
      decide (payment.payee = out.scriptPubKey ∧ payment.nAmount = out.nValue)) := by
    rw [List.countP_pos_iff]
    obtain ⟨out, ho, hm⟩ := hout
    exact ⟨out, ho, by simpa using hm⟩
  have hfirst := IsTransactionValidLoop_unknown B payment h hstart hend vout
    TrxValidationStatus.InValid hist hfresh hpos
  rw [IsTransactionValid_eq_loop B hist vout h payment hstart hend hpay]
  refine ⟨hfirst.1, ?_⟩
  rw [IsTransactionValid_eq_loop B _ vout h payment hstart hend hpay]
  have hsecond := IsTransactionValidLoop_known B payment h vout TrxValidationStatus.InValid
    _ hfirst.2
  rw [hsecond.1, if_neg (by omega)]

/-- Witness for C3: a budget starting at height 1000
with one payment of 50 to the script `[1]`, and a transaction paying it once. -/
theorem IsTransactionValid_valid_then_double_witness :
    ((CFinalizedBudget.IsTransactionValid
        { fAutoChecked := false, fValid := true, strBudgetName := "main", nBlockStart := 1000,
          vecBudgetPayments := [{ nProposalHash := 5, payee := [1], nAmount := 50 }],
          mapVotes := [], nFeeTXHash := 9, nTime := 0 }
        [] [{ nValue := 50, scriptPubKey := [1] }] 1000).1
      = (if [({ nValue := 50, scriptPubKey := [1] } : CTxOut)].countP (fun out =>
              decide (([1] : CScript) = out.scriptPubKey ∧ (50 : Int) = out.nValue)) = 1
            then TrxValidationStatus.Valid else TrxValidationStatus.DoublePayment)) ∧
    (CFinalizedBudget.IsTransactionValid
        { fAutoChecked := false, fValid := true, strBudgetName := "main", nBlockStart := 1000,
          vecBudgetPayments := [{ nProposalHash := 5, payee := [1], nAmount := 50 }],
          mapVotes := [], nFeeTXHash := 9, nTime := 0 }
        (CFinalizedBudget.IsTransactionValid
          { fAutoChecked := false, fValid := true, strBudgetName := "main", nBlockStart := 1000,
            vecBudgetPayments := [{ nProposalHash := 5, payee := [1], nAmount := 50 }],
            mapVotes := [], nFeeTXHash := 9, nTime := 0 }
          [] [{ nValue := 50, scriptPubKey := [1] }] 1000).2
        [{ nValue := 50, scriptPubKey := [1] }] 1000).1 = TrxValidationStatus.DoublePayment :=
  IsTransactionValid_valid_then_double
    { fAutoChecked := false, fValid := true, strBudgetName := "main", nBlockStart := 1000,
      vecBudgetPayments := [{ nProposalHash := 5, payee := [1], nAmount := 50 }],
      mapVotes := [], nFeeTXHash := 9, nTime := 0 }
    [] [{ nValue := 50, scriptPubKey := [1] }] 1000
    { nProposalHash := 5, payee := [1], nAmount := 50 }
    (by decide) (by decide) (by decide) (by decide) (by decide)

/-- C3 as stated fails: a transaction that holds the payment of the budget twice makes
the first call record the payment at the first output and report `DoublePayment` at the
second one, with an empty payment history before the call. -/
theorem IsTransactionValid_first_call_double :
    (CFinalizedBudget.IsTransactionValid
        { fAutoChecked := false, fValid := true, strBudgetName := "main", nBlockStart := 1000,
          vecBudgetPayments := [{ nProposalHash := 5, payee := [1], nAmount := 50 }],
          mapVotes := [], nFeeTXHash := 9, nTime := 0 }
        [] [{ nValue := 50, scriptPubKey := [1] }, { nValue := 50, scriptPubKey := [1] }] 1000).1
      = TrxValidationStatus.DoublePayment := by
  decide

end CFinalizedBudget

/-! ## Selection of the budget -/

theorem GetTotalBudget_nonneg (env : Env)
    (hsub : ∀ height fProofOfStake, 0 ≤ env.GetBlockSubsidy height fProofOfStake)
    (nHeight : Int) : 0 ≤ GetTotalBudget env nHeight := by
  unfold GetTotalBudget
  apply Int.tdiv_nonneg _ (by decide)
  have key : ∀ (l : List Nat) (a : Int), 0 ≤ a →
      0 ≤ l.foldl (fun (acc : Int) (i : Nat) =>
        acc + env.GetBlockSubsidy (nHeight + (i : Int))
          (decide (nHeight + (i : Int) > env.nPoWBlock))) a := by
    intro l
    induction l with
    | nil => intro a ha; exact ha
    | cons i rest ih =>
        intro a ha
        exact ih _ (Int.add_nonneg ha (hsub _ _))
  exact key _ 0 (le_refl 0)

namespace CBudgetManager

theorem GetBudgetLoop_sum_le (env : Env) (pindex : Option CBlockIndex)
    (nBlockStart nBlockEnd mnCount : Int) (cap : Int)
    (sorted : List (CBudgetProposal × Int)) (alloc : Int) (halloc : alloc ≤ cap) :
    alloc + ((GetBudgetLoop env pindex nBlockStart nBlockEnd mnCount cap alloc sorted).1.map
      (fun p => p.nAmount)).sum ≤ cap := by
  induction sorted generalizing alloc with
  | nil => simpa [GetBudgetLoop] using halloc
  | cons e rest ih =>
      obtain ⟨p, v⟩ := e
      simp only [GetBudgetLoop]
      by_cases hpass : p.IsPassing env pindex nBlockStart nBlockEnd mnCount = true
      · rw [if_pos hpass]
        by_cases hfit : p.GetAmount + alloc ≤ cap
        · rw [if_pos hfit]
          have h1 := ih (alloc + p.GetAmount) (by omega)
          simp only [List.map_cons, List.sum_cons, CBudgetProposal.SetAllotted]
          unfold CBudgetProposal.GetAmount at h1 ⊢
          omega
        · rw [if_neg hfit]
          exact ih alloc halloc
      · rw [if_neg hpass]
        exact ih alloc halloc

/-- C4: for every call of `CBudgetManager::GetBudget` with a non-null chain tip and
non-negative block subsidies, the sum of the amounts of the returned proposals is at
most `GetTotalBudget(nBlockStart)`, where `nBlockStart` is the start of the next payment
cycle and `GetTotalBudget` is a tenth of the sum of the block subsidies of that
cycle. -/
theorem GetBudget_total_le_cap (env : Env) (mapProposals : List CBudgetProposal)
    (tip : CBlockIndex)
    (hsub : ∀ height fProofOfStake, 0 ≤ env.GetBlockSubsidy height fProofOfStake) :
    ((GetBudget env mapProposals (some tip)).1.map (fun p => p.nAmount)).sum
      ≤ GetTotalBudget env (nextCycleStart env tip.nHeight) := by
  have h := GetBudgetLoop_sum_le env (some tip) (nextCycleStart env tip.nHeight)
    (nextCycleStart env tip.nHeight + GetBudgetPaymentCycleBlocks env - 1) env.CountEnabled
    (GetTotalBudget env (nextCycleStart env tip.nHeight))
    (vBudgetPorposalsSort env mapProposals) 0
    (GetTotalBudget_nonneg env hsub _)
  simpa [GetBudget] using h

end CBudgetManager

theorem foldl_add_const (c : Int) (f : Nat → Int) (hf : ∀ i, f i = c) (l : List Nat) (a : Int) :
    l.foldl (fun acc i => acc + f i) a = a + (l.length : Int) * c := by
  induction l generalizing a with
  | nil => simp
  | cons i rest ih =>
      simp only [List.foldl_cons, List.length_cons]
      rw [ih, hf]
      push_cast
      ring

theorem GetTotalBudget_const (env : Env) (c : Int)
    (hc : ∀ height fProofOfStake, env.GetBlockSubsidy height fProofOfStake = c) (nHeight : Int) :
    GetTotalBudget env nHeight
      = (((GetBudgetPaymentCycleBlocks env).toNat : Int) * c).tdiv 10 := by
  unfold GetTotalBudget
  have h := foldl_add_const c
    (fun i => env.GetBlockSubsidy (nHeight + (i : Int))
      (decide (nHeight + (i : Int) > env.nPoWBlock)))
    (fun i => hc _ _) (List.range (GetBudgetPaymentCycleBlocks env).toNat) 0
  simp only [List.length_range, zero_add] at h
  simp only [h]

theorem exampleEnv_cap (nHeight : Int) : GetTotalBudget exampleEnv nHeight = 300000000000 := by
  rw [GetTotalBudget_const exampleEnv (30 * 100000000) (fun _ _ => rfl)]
  decide

namespace CBudgetManager

theorem IsPassing_SetAllotted (env : Env) (p : CBudgetProposal) (a : Int)
    (pindex : Option CBlockIndex) (nBlockStart nBlockEnd mnCount : Int) :
    (p.SetAllotted a).IsPassing env pindex nBlockStart nBlockEnd mnCount
      = p.IsPassing env pindex nBlockStart nBlockEnd mnCount := rfl

theorem GetBudgetLoop_eq_select (env : Env) (pindex : Option CBlockIndex)
    (nBlockStart nBlockEnd mnCount : Int) (cap : Int)
    (sorted : List (CBudgetProposal × Int)) (alloc : Int) (returned : List CBudgetProposal)
    (hsum : (returned.map (fun q => q.nAmount)).sum = alloc) :
    selectWithinCap cap returned
        ((sorted.map Prod.fst).filter (fun p =>
          p.IsPassing env pindex nBlockStart nBlockEnd mnCount))
      = returned ++ (GetBudgetLoop env pindex nBlockStart nBlockEnd mnCount cap alloc sorted).1 := by
  induction sorted generalizing alloc returned with
  | nil => simp [GetBudgetLoop, selectWithinCap]
  | cons e rest ih =>
      obtain ⟨p, v⟩ := e
      simp only [GetBudgetLoop, List.map_cons]
      by_cases hpass : p.IsPassing env pindex nBlockStart nBlockEnd mnCount = true
      · rw [if_pos hpass]
        simp only [List.filter_cons, hpass, if_true, selectWithinCap]
        rw [hsum]
        by_cases hfit : p.GetAmount + alloc ≤ cap
        · have hfit2 : p.nAmount + alloc ≤ cap := hfit
          rw [if_pos hfit, if_pos hfit2]
          have h1 := ih (alloc + p.GetAmount) (returned ++ [p.SetAllotted p.GetAmount])
            (by simp [hsum, CBudgetProposal.GetAmount, CBudgetProposal.SetAllotted])
          show selectWithinCap cap (returned ++ [p.SetAllotted p.GetAmount]) _ = _
          rw [h1]
          simp
        · have hfit2 : ¬ p.nAmount + alloc ≤ cap := hfit
          rw [if_neg hfit, if_neg hfit2]
          exact ih alloc returned hsum
      · rw [if_neg hpass]
        simp only [List.filter_cons, hpass, if_false]
        exact ih alloc returned hsum

theorem GetBudgetLoop_allotted (env : Env) (pindex : Option CBlockIndex)
    (nBlockStart nBlockEnd mnCount : Int) (cap : Int)
    (sorted : List (CBudgetProposal × Int)) (alloc : Int) :
    ∀ p ∈ (GetBudgetLoop env pindex nBlockStart nBlockEnd mnCount cap alloc sorted).1,
      p.nAlloted = p.nAmount := by
  induction sorted generalizing alloc with
  | nil => simp [GetBudgetLoop]
  | cons e rest ih =>
      obtain ⟨p, v⟩ := e
      simp only [GetBudgetLoop]
      by_cases hpass : p.IsPassing env pindex nBlockStart nBlockEnd mnCount = true
      · rw [if_pos hpass]
        by_cases hfit : p.GetAmount + alloc ≤ cap
        · rw [if_pos hfit]
          intro q hq
          rcases List.mem_cons.1 hq with rfl | hq
          · rfl
          · exact ih _ q hq
        · rw [if_neg hfit]
          exact ih alloc
      · rw [if_neg hpass]
        exact ih alloc

theorem GetBudgetLoop_visited (env : Env) (pindex : Option CBlockIndex)
    (nBlockStart nBlockEnd mnCount : Int) (cap : Int)
    (sorted : List (CBudgetProposal × Int)) (alloc : Int) :
    ∀ q ∈ (GetBudgetLoop env pindex nBlockStart nBlockEnd mnCount cap alloc sorted).2,
      q.IsPassing env pindex nBlockStart nBlockEnd mnCount = true →
      q ∉ (GetBudgetLoop env pindex nBlockStart nBlockEnd mnCount cap alloc sorted).1 →
      q.nAlloted = 0 := by
  induction sorted generalizing alloc with
  | nil => simp [GetBudgetLoop]
  | cons e rest ih =>
      obtain ⟨p, v⟩ := e
      simp only [GetBudgetLoop]
      by_cases hpass : p.IsPassing env pindex nBlockStart nBlockEnd mnCount = true
      · rw [if_pos hpass]
        by_cases hfit : p.GetAmount + alloc ≤ cap
        · rw [if_pos hfit]
          intro q hq hqpass hnot
          rcases List.mem_cons.1 hq with rfl | hq
          · exact absurd (List.mem_cons_self _ _) hnot
          · exact ih _ q hq hqpass (fun hmem => hnot (List.mem_cons_of_mem _ hmem))
        · rw [if_neg hfit]
          intro q hq hqpass hnot
          rcases List.mem_cons.1 hq with rfl | hq
          · rfl
          · exact ih _ q hq hqpass hnot
      · rw [if_neg hpass]
        intro q hq hqpass hnot
        rcases List.mem_cons.1 hq with rfl | hq
        · exact absurd hqpass hpass
        · exact ih _ q hq hqpass hnot

theorem GetBudgetLoop_frame (env : Env) (pindex : Option CBlockIndex)
    (nBlockStart nBlockEnd mnCount : Int) (cap : Int)
    (sorted : List (CBudgetProposal × Int)) (alloc : Int) :
    (GetBudgetLoop env pindex nBlockStart nBlockEnd mnCount cap alloc sorted).2.map
        (fun q => q.SetAllotted 0)
      = sorted.map (fun e => e.1.SetAllotted 0) := by
  induction sorted generalizing alloc with
  | nil => simp [GetBudgetLoop]
  | cons e rest ih =>
      obtain ⟨p, v⟩ := e
      simp only [GetBudgetLoop]
      by_cases hpass : p.IsPassing env pindex nBlockStart nBlockEnd mnCount = true
      · rw [if_pos hpass]
        by_cases hfit : p.GetAmount + alloc ≤ cap
        · rw [if_pos hfit]
          simp only [List.map_cons, ih]
          rfl
        · rw [if_neg hfit]
          simp only [List.map_cons, ih]
          rfl
      · rw [if_neg hpass]
        simp only [List.map_cons, ih]

set_option maxRecDepth 100000 in
/-- C5: `CBudgetManager::GetBudget` with a non-null tip equals the reference selection
`GetBudgetSpec`: the stored proposals that are passing for the next cycle, in sorted
order (net votes, then fee hash), a proposal being returned if and only if its amount
plus the total amount of the proposals returned before it is at most the cap of the
cycle.  Every returned proposal has allotted = its amount, every passing proposal that
is not returned has allotted = 0, and nothing but the allotted amounts of the stored
proposals changes.  On the example of the specification (tip 20000, cycle 1000, net
votes 50/30/10, amounts 1000/2000/500 coins, cap 3000 coins) the call returns the
proposals #1 and #2, not #3, with a total of 3000 coins. -/
theorem GetBudget_eq_spec (env : Env) (mapProposals : List CBudgetProposal) (tip : CBlockIndex) :
    (GetBudget env mapProposals (some tip)).1 = GetBudgetSpec env mapProposals tip ∧
    (∀ p ∈ (GetBudget env mapProposals (some tip)).1, p.GetAllotted = p.GetAmount) ∧
    (∀ q ∈ (GetBudget env mapProposals (some tip)).2,
      q.IsPassing env (some tip) (nextCycleStart env tip.nHeight)
        (nextCycleStart env tip.nHeight + GetBudgetPaymentCycleBlocks env - 1)
        env.CountEnabled = true →
      q ∉ (GetBudget env mapProposals (some tip)).1 → q.GetAllotted = 0) ∧
    ((GetBudget env mapProposals (some tip)).2.map (fun q => q.SetAllotted 0)
      = (vBudgetPorposalsSort env mapProposals).map (fun e => e.1.SetAllotted 0)) ∧
    (GetBudgetPaymentCycleBlocks exampleEnv = 1000 ∧
     GetTotalBudget exampleEnv (nextCycleStart exampleEnv 20000) = 3000 * exampleEnv.COIN ∧
     (GetBudget exampleEnv exampleProposals (some ⟨20000⟩)).1.map
        (fun p => (p.strProposalName, p.GetAllotted))
       = [("#1", 1000 * exampleEnv.COIN), ("#2", 2000 * exampleEnv.COIN)] ∧
     ((GetBudget exampleEnv exampleProposals (some ⟨20000⟩)).1.map
        (fun p => p.nAmount)).sum = 3000 * exampleEnv.COIN) := by
  refine ⟨?_, ?_, ?_, ?_, ?_, ?_, ?_, ?_⟩
  · simp only [GetBudget, GetBudgetSpec]
    rw [GetBudgetLoop_eq_select env (some tip) _ _ _ _ _ 0 [] rfl]
    simp
  · simp only [GetBudget]
    exact GetBudgetLoop_allotted env (some tip) _ _ _ _ _ 0
  · simp only [GetBudget]
    exact GetBudgetLoop_visited env (some tip) _ _ _ _ _ 0
  · simp only [GetBudget]
    exact GetBudgetLoop_frame env (some tip) _ _ _ _ _ 0
  · decide
  · rw [exampleEnv_cap]
    decide
  · simp only [GetBudget, exampleEnv_cap]
    decide
  · simp only [GetBudget, exampleEnv_cap]
    decide

end CBudgetManager

/-! ## Order of the budget -/

theorem sortProposalsByVotes_eq_false_iff (a b : CBudgetProposal × Int) :
    sortProposalsByVotes b a = false
      ↔ a.2 > b.2 ∨ (a.2 = b.2 ∧ a.1.nFeeTXHash ≥ b.1.nFeeTXHash) := by
  unfold sortProposalsByVotes
  by_cases h : b.2 ≠ a.2
  · rw [if_pos h]
    simp only [decide_eq_false_iff_not]
    constructor
    · intro h1
      left
      omega
    · rintro (h1 | ⟨h1, _⟩)
      · omega
      · exact absurd h1.symm h
  · rw [if_neg h]
    simp only [decide_eq_false_iff_not]
    have h2 : b.2 = a.2 := by
      by_contra h3
      exact h h3
    constructor
    · intro h1
      right
      exact ⟨h2.symm, by omega⟩
    · rintro (h1 | ⟨_, h1⟩)
      · omega
      · omega

theorem stdSort_sortProposalsByVotes_sorted (l : List (CBudgetProposal × Int)) :
    (stdSort sortProposalsByVotes l).Pairwise
      (fun a b => a.2 > b.2 ∨ (a.2 = b.2 ∧ a.1.nFeeTXHash ≥ b.1.nFeeTXHash)) := by
  haveI htotal : IsTotal (CBudgetProposal × Int)
      (fun a b => sortProposalsByVotes b a = false) :=
    ⟨fun a b => by
      rw [sortProposalsByVotes_eq_false_iff, sortProposalsByVotes_eq_false_iff]
      omega⟩
  haveI htrans : IsTrans (CBudgetProposal × Int)
      (fun a b => sortProposalsByVotes b a = false) :=
    ⟨fun a b c => by
      rw [sortProposalsByVotes_eq_false_iff, sortProposalsByVotes_eq_false_iff,
        sortProposalsByVotes_eq_false_iff]
      omega⟩
  have h := List.sorted_insertionSort (fun a b => sortProposalsByVotes b a = false) l
  exact List.Pairwise.imp (fun {a b} hab => (sortProposalsByVotes_eq_false_iff a b).1 hab) h

theorem stdSort_perm {α : Type} (comp : α → α → Bool) (l : List α) :
    (stdSort comp l).Perm l :=
  List.perm_insertionSort _ l

theorem eq_of_perm_of_pairwise {α : Type} {r : α → α → Prop} :
    ∀ (l1 l2 : List α), l1.Perm l2 → l1.Pairwise r → l2.Pairwise r →
      (∀ a ∈ l1, ∀ b ∈ l1, r a b → r b a → a = b) → l1 = l2
  | [], l2, hp, _, _, _ => hp.nil_eq
  | a :: t, [], hp, _, _, _ => absurd hp.symm.nil_eq (by simp)
  | a :: t, b :: t2, hp, hs1, hs2, hanti => by
      have hab : a = b := by
        have ha : a ∈ b :: t2 := hp.subset (List.mem_cons_self _ _)
        have hb : b ∈ a :: t := hp.symm.subset (List.mem_cons_self _ _)
        rcases List.mem_cons.1 ha with h | h
        · exact h
        · rcases List.mem_cons.1 hb with h2 | h2
          · exact h2.symm
          · exact hanti a (List.mem_cons_self _ _) b hb
              ((List.pairwise_cons.1 hs1).1 b h2) ((List.pairwise_cons.1 hs2).1 a h)
      subst hab
      have ht : t = t2 :=
        eq_of_perm_of_pairwise t t2 hp.cons_inv (List.pairwise_cons.1 hs1).2
          (List.pairwise_cons.1 hs2).2
          (fun x hx y hy => hanti x (List.mem_cons_of_mem _ hx) y (List.mem_cons_of_mem _ hy))
      rw [ht]

namespace CBudgetManager

theorem vBudgetPorposalsSort_mem (env : Env) (l : List CBudgetProposal)
    (e : CBudgetProposal × Int) (he : e ∈ vBudgetPorposalsSort env l) :
    ∃ p ∈ l, e = (p.CleanAndRemove env false,
      (p.CleanAndRemove env false).GetYeas - (p.CleanAndRemove env false).GetNays) := by
  unfold vBudgetPorposalsSort at he
  have h1 := (stdSort_perm sortProposalsByVotes _).subset he
  obtain ⟨p, hp, hpe⟩ := List.mem_map.1 h1
  exact ⟨p, hp, hpe.symm⟩

theorem GetBudgetLoop_sublist (env : Env) (pindex : Option CBlockIndex)
    (nBlockStart nBlockEnd mnCount : Int) (cap : Int)
    (sorted : List (CBudgetProposal × Int)) (alloc : Int) :
    List.Sublist (GetBudgetLoop env pindex nBlockStart nBlockEnd mnCount cap alloc sorted).1
      (sorted.map (fun e => e.1.SetAllotted e.1.GetAmount)) := by
  induction sorted generalizing alloc with
  | nil => simp [GetBudgetLoop]
  | cons e rest ih =>
      obtain ⟨p, v⟩ := e
      simp only [GetBudgetLoop, List.map_cons]
      by_cases hpass : p.IsPassing env pindex nBlockStart nBlockEnd mnCount = true
      · rw [if_pos hpass]
        by_cases hfit : p.GetAmount + alloc ≤ cap
        · rw [if_pos hfit]
          exact List.Sublist.cons₂ _ (ih _)
        · rw [if_neg hfit]
          exact List.Sublist.cons _ (ih _)
      · rw [if_neg hpass]
        exact List.Sublist.cons _ (ih _)

theorem GetBudget_ret_sublist (env : Env) (mapProposals : List CBudgetProposal)
    (pindex : Option CBlockIndex) :
    List.Sublist (GetBudget env mapProposals pindex).1
      ((vBudgetPorposalsSort env mapProposals).map (fun e => e.1.SetAllotted e.1.GetAmount)) := by
  unfold GetBudget
  cases pindex with
  | none => simp
  | some tip => exact GetBudgetLoop_sublist env (some tip) _ _ _ _ _ 0

theorem vBudgetPorposalsSort_perm_eq (env : Env) (l1 l2 : List CBudgetProposal)
    (hperm : l1.Perm l2) (hnodup : (l1.map (fun p => p.nFeeTXHash)).Nodup) :
    vBudgetPorposalsSort env l1 = vBudgetPorposalsSort env l2 := by
  apply eq_of_perm_of_pairwise (r := fun a b : CBudgetProposal × Int =>
      a.2 > b.2 ∨ (a.2 = b.2 ∧ a.1.nFeeTXHash ≥ b.1.nFeeTXHash))
  · unfold vBudgetPorposalsSort
    exact ((stdSort_perm _ _).trans (hperm.map _)).trans (stdSort_perm _ _).symm
  · exact stdSort_sortProposalsByVotes_sorted _
  · exact stdSort_sortProposalsByVotes_sorted _
  · intro a ha b hb hab hba
    obtain ⟨p, hp, rfl⟩ := vBudgetPorposalsSort_mem env l1 a ha
    obtain ⟨q, hq, rfl⟩ := vBudgetPorposalsSort_mem env l1 b hb
    have hfee : p.nFeeTXHash = q.nFeeTXHash := by
      have h1 : (p.CleanAndRemove env false).nFeeTXHash = p.nFeeTXHash := rfl
      have h2 : (q.CleanAndRemove env false).nFeeTXHash = q.nFeeTXHash := rfl
      simp only [h1, h2] at hab hba
      omega
    have hpq : p = q := List.inj_on_of_nodup_map hnodup hp hq hfee
    rw [hpq]

/-- C6: the list returned by `CBudgetManager::GetBudget` is ordered by net vote count
(valid yes votes minus valid no votes) in descending order, and proposals with equal
net vote count are ordered by their collateral fee-transaction hash, compared as
256-bit unsigned integers, in descending order; so for pairwise distinct fee hashes the
returned list does not depend on the storage order of the proposals. -/
theorem GetBudget_ordered (env : Env) (mapProposals : List CBudgetProposal)
    (pindex : Option CBlockIndex) :
    (GetBudget env mapProposals pindex).1.Pairwise
        (fun a b => a.GetYeas - a.GetNays > b.GetYeas - b.GetNays ∨
          (a.GetYeas - a.GetNays = b.GetYeas - b.GetNays ∧ a.nFeeTXHash ≥ b.nFeeTXHash)) ∧
      ∀ stored : List CBudgetProposal, mapProposals.Perm stored →
        (mapProposals.map (fun p => p.nFeeTXHash)).Nodup →
        (GetBudget env stored pindex).1 = (GetBudget env mapProposals pindex).1 := by
  constructor
  · apply List.Pairwise.sublist (GetBudget_ret_sublist env mapProposals pindex)
    rw [List.pairwise_map]
    apply List.Pairwise.imp_of_mem _ (stdSort_sortProposalsByVotes_sorted _)
    intro a b ha hb hab
    obtain ⟨p, _, rfl⟩ := vBudgetPorposalsSort_mem env mapProposals a ha
    obtain ⟨q, _, rfl⟩ := vBudgetPorposalsSort_mem env mapProposals b hb
    exact hab
  · intro stored hperm hnodup
    unfold GetBudget
    rw [vBudgetPorposalsSort_perm_eq env mapProposals stored hperm hnodup]

/-- Witness for C6: the three proposals of the example, stored in two
different orders. -/
theorem GetBudget_ordered_witness :
    (GetBudget exampleEnv
        [exampleProposal "#3" 13 10 500, exampleProposal "#1" 11 50 1000,
         exampleProposal "#2" 12 30 2000] (some ⟨20000⟩)).1
      = (GetBudget exampleEnv exampleProposals (some ⟨20000⟩)).1 :=
  (GetBudget_ordered exampleEnv exampleProposals (some ⟨20000⟩)).2
    [exampleProposal "#3" 13 10 500, exampleProposal "#1" 11 50 1000,
     exampleProposal "#2" 12 30 2000]
    (List.Perm.trans
      (List.Perm.cons _ (List.Perm.swap _ _ _))
      (List.Perm.swap _ _ _))
    (by decide)

/-- Witness for C4: the example of the specification. -/
theorem GetBudget_total_le_cap_witness :
    ((GetBudget exampleEnv exampleProposals (some ⟨20000⟩)).1.map (fun p => p.nAmount)).sum
      ≤ GetTotalBudget exampleEnv (nextCycleStart exampleEnv 20000) :=
  GetBudget_total_le_cap exampleEnv exampleProposals ⟨20000⟩
    (fun _ _ => (by decide : (0 : Int) ≤ 30 * 100000000))

end CBudgetManager

/-! ## Validity of proposals -/

theorem IsBudgetCollateralValid_none (env : CollateralEnv) (nTxCollateralHash nExpectedHash : Nat)
    (nTime nConf : Int) (fBudgetFinalization : Bool)
    (hnone : env.GetTransaction nTxCollateralHash = none) :
    IsBudgetCollateralValid env nTxCollateralHash nExpectedHash nTime nConf fBudgetFinalization
      = Except.error Fault.nullDereference := by
  unfold IsBudgetCollateralValid
  rw [hnone]

theorem IsBudgetCollateralValid_some (env : CollateralEnv) (nTxCollateralHash nExpectedHash : Nat)
    (nTime nConf : Int) (fBudgetFinalization : Bool) (found : CTransaction × Nat)
    (hsome : env.GetTransaction nTxCollateralHash = some found) :
    ∃ r, IsBudgetCollateralValid env nTxCollateralHash nExpectedHash nTime nConf
      fBudgetFinalization = Except.ok r := by
  obtain ⟨txCollateral, nBlockHash⟩ := found
  unfold IsBudgetCollateralValid
  rw [hsome]
  dsimp only
  repeat' split
  all_goals exact ⟨_, rfl⟩

namespace CBudgetProposal

theorem IsValidTail_of_amount_over_cap (env : Env) (p q : CBudgetProposal)
    (pindex : Option CBlockIndex) (hover : p.nAmount > GetTotalBudget env p.nBlockStart)
    (hamount : q.nAmount = p.nAmount) (hstart : q.nBlockStart = p.nBlockStart) :
    IsValidTail env q pindex = (false, q) := by
  unfold IsValidTail
  by_cases h7 : env.IsPayToScriptHash q.address = true
  · rw [if_pos h7]
  · rw [if_neg h7, if_pos (by rw [hamount, hstart]; exact hover)]

/-- C7, as the code has it: for a budget proposal whose requested amount is greater than
`GetTotalBudget(nBlockStart)`, `CBudgetProposal::IsValid` faults exactly when the
collateral is checked, the five tests before the collateral check pass and the fee
transaction of the proposal is not found; in every other case it returns false,
whatever the votes, the other fields and the chain tip. -/
theorem IsValid_amount_over_cap_faults (env : Env) (p : CBudgetProposal)
    (pindex : Option CBlockIndex) (fCheckCollateral : Bool)
    (hover : p.nAmount > GetTotalBudget env p.nBlockStart) :
    (p.IsValid env pindex fCheckCollateral = Except.error Fault.nullDereference ↔
        (fCheckCollateral = true ∧ env.collateral.GetTransaction p.nFeeTXHash = none ∧
          ¬ p.GetNays - p.GetYeas > env.CountEnabled.tdiv 10 ∧ ¬ p.nBlockStart < 0 ∧
          ¬ p.nBlockEnd < p.nBlockStart ∧ ¬ p.nAmount < 10 * env.COIN ∧ p.address ≠ [])) ∧
      (p.IsValid env pindex fCheckCollateral = Except.error Fault.nullDereference ∨
        ∃ q, p.IsValid env pindex fCheckCollateral = Except.ok (false, q)) := by
  unfold IsValid
  by_cases h1 : p.GetNays - p.GetYeas > env.CountEnabled.tdiv 10
  · rw [if_pos h1]
    exact ⟨⟨fun h => Except.noConfusion h, fun h => absurd h1 h.2.2.1⟩, Or.inr ⟨p, rfl⟩⟩
  rw [if_neg h1]
  by_cases h2 : p.nBlockStart < 0
  · rw [if_pos h2]
    exact ⟨⟨fun h => Except.noConfusion h, fun h => absurd h2 h.2.2.2.1⟩, Or.inr ⟨p, rfl⟩⟩
  rw [if_neg h2]
  by_cases h3 : p.nBlockEnd < p.nBlockStart
  · rw [if_pos h3]
    exact ⟨⟨fun h => Except.noConfusion h, fun h => absurd h3 h.2.2.2.2.1⟩, Or.inr ⟨p, rfl⟩⟩
  rw [if_neg h3]
  by_cases h4 : p.nAmount < 10 * env.COIN
  · rw [if_pos h4]
    exact ⟨⟨fun h => Except.noConfusion h, fun h => absurd h4 h.2.2.2.2.2.1⟩, Or.inr ⟨p, rfl⟩⟩
  rw [if_neg h4]
  by_cases h5 : p.address = []
  · rw [if_pos h5]
    exact ⟨⟨fun h => Except.noConfusion h, fun h => absurd h5 h.2.2.2.2.2.2⟩, Or.inr ⟨p, rfl⟩⟩
  rw [if_neg h5]
  cases fCheckCollateral with
  | false =>
      rw [if_neg (by decide), IsValidTail_of_amount_over_cap env p p pindex hover rfl rfl]
      exact ⟨⟨fun h => Except.noConfusion h, fun h => Bool.noConfusion h.1⟩, Or.inr ⟨p, rfl⟩⟩
  | true =>
      rw [if_pos rfl]
      cases hfound : env.collateral.GetTransaction p.nFeeTXHash with
      | none =>
          rw [IsBudgetCollateralValid_none env.collateral p.nFeeTXHash (p.GetHash env) p.nTime 0
            false hfound]
          exact ⟨⟨fun _ => ⟨rfl, rfl, h1, h2, h3, h4, h5⟩, fun _ => rfl⟩, Or.inl rfl⟩
      | some found =>
          obtain ⟨r, hr⟩ := IsBudgetCollateralValid_some env.collateral p.nFeeTXHash
            (p.GetHash env) p.nTime 0 false found hfound
          rw [hr]
          dsimp only
          by_cases hc : (!r.1) = true
          · rw [if_pos hc]
            exact ⟨⟨fun h => Except.noConfusion h, fun h => Option.noConfusion h.2.1⟩,
              Or.inr ⟨_, rfl⟩⟩
          · rw [if_neg hc,
              IsValidTail_of_amount_over_cap env p { p with nTime := r.2.1 } pindex hover rfl rfl]
            exact ⟨⟨fun h => Except.noConfusion h, fun h => Option.noConfusion h.2.1⟩,
              Or.inr ⟨_, rfl⟩⟩

/-- Witness for C7: 31 coins against a cap of 30, on a node that does not know the fee
transaction of the proposal.  With the collateral check the call faults, without it the
call returns false. -/
theorem IsValid_amount_over_cap_faults_witness :
    (smallProposal 31 0 VOTE_YES).nAmount
        > GetTotalBudget smallEnvNoCollateral (smallProposal 31 0 VOTE_YES).nBlockStart ∧
      (smallProposal 31 0 VOTE_YES).IsValid smallEnvNoCollateral (some ⟨100⟩) true
        = Except.error Fault.nullDereference ∧
      (smallProposal 31 0 VOTE_YES).IsValid smallEnvNoCollateral (some ⟨100⟩) false
        = Except.ok (false, smallProposal 31 0 VOTE_YES) ∧
      (smallProposal 31 0 VOTE_YES).IsValid smallEnv (some ⟨100⟩) true
        = Except.ok (false, smallProposal 31 0 VOTE_YES) :=
  ⟨by decide,
   (IsValid_amount_over_cap_faults smallEnvNoCollateral (smallProposal 31 0 VOTE_YES)
      (some ⟨100⟩) true (by decide)).1.2 (by decide),
   by decide, by decide⟩

theorem IsValid_false_of_nays (env : Env) (p : CBudgetProposal) (pindex : Option CBlockIndex)
    (fCheckCollateral : Bool) (hnays : p.GetNays - p.GetYeas > env.CountEnabled.tdiv 10) :
    p.IsValid env pindex fCheckCollateral = Except.ok (false, p) := by
  unfold IsValid
  rw [if_pos hnays]

end CBudgetProposal

namespace CBudgetManager

theorem CheckAndRemove_mapProposals_drop (env : Env) (p : CBudgetProposal)
    (pindex : Option CBlockIndex) (hinvalid : p.IsValid env pindex true = Except.ok (false, p))
    (before after : List CBudgetProposal) :
    CheckAndRemove_mapProposals env (before ++ p :: after) pindex
      = CheckAndRemove_mapProposals env (before ++ after) pindex := by
  induction before with
  | nil =>
      rw [List.nil_append, List.nil_append, CheckAndRemove_mapProposals, hinvalid]
      dsimp only
      cases CheckAndRemove_mapProposals env after pindex <;> rfl
  | cons b rest ih =>
      rw [List.cons_append, List.cons_append, CheckAndRemove_mapProposals,
        CheckAndRemove_mapProposals, ih]

/-- C8, as the code has it: for every budget proposal whose valid no votes exceed its
valid yes votes by more than a tenth of the enabled masternode count
(`GetNays() - GetYeas() > CountEnabled / 10`), `CBudgetProposal::IsValid` returns false
and leaves the proposal as it is, so that `CBudgetManager::CheckAndRemove` drops it from
`mapProposals`: the outcome of the loop over the stored proposals is the same as without
it, whatever the other stored proposals are. -/
theorem IsValid_false_of_active_removal (env : Env) (p : CBudgetProposal)
    (pindex : Option CBlockIndex) (fCheckCollateral : Bool)
    (hnays : p.GetNays - p.GetYeas > env.CountEnabled.tdiv 10) :
    p.IsValid env pindex fCheckCollateral = Except.ok (false, p) ∧
      ∀ before after : List CBudgetProposal,
        CheckAndRemove_mapProposals env (before ++ p :: after) pindex
          = CheckAndRemove_mapProposals env (before ++ after) pindex := by
  refine ⟨CBudgetProposal.IsValid_false_of_nays env p pindex fCheckCollateral hnays, ?_⟩
  intro before after
  exact CheckAndRemove_mapProposals_drop env p pindex
    (CBudgetProposal.IsValid_false_of_nays env p pindex true hnays) before after

/-- Witness for C8: ten no votes against none, with 90
enabled masternodes. -/
theorem IsValid_false_of_active_removal_witness :
    (smallProposal 20 10 VOTE_NO).IsValid smallEnv (some ⟨100⟩) true
        = Except.ok (false, smallProposal 20 10 VOTE_NO) ∧
      ∀ before after : List CBudgetProposal,
        CheckAndRemove_mapProposals smallEnv (before ++ smallProposal 20 10 VOTE_NO :: after)
            (some ⟨100⟩)
          = CheckAndRemove_mapProposals smallEnv (before ++ after) (some ⟨100⟩) :=
  IsValid_false_of_active_removal smallEnv (smallProposal 20 10 VOTE_NO) (some ⟨100⟩) true
    (by decide)

/-- C8 as stated fails: a proposal without any vote has a net support of 0, which is
below a tenth of the 90 enabled masternodes, yet `IsValid` returns true and
`CheckAndRemove` keeps the proposal. -/
theorem IsValid_true_without_support :
    (smallProposal 20 0 VOTE_YES).GetYeas - (smallProposal 20 0 VOTE_YES).GetNays
        < smallEnv.CountEnabled.tdiv 10 ∧
      (smallProposal 20 0 VOTE_YES).IsValid smallEnv (some ⟨100⟩) true
        = Except.ok (true, smallProposal 20 0 VOTE_YES) ∧
      CheckAndRemove_mapProposals smallEnv [smallProposal 20 0 VOTE_YES] (some ⟨100⟩)
        = Except.ok [smallProposal 20 0 VOTE_YES] := by
  decide

end CBudgetManager

/-! ## Content hashes -/

namespace CBudgetProposal

theorem GetHash_AddOrUpdateVote (env1 env2 : Env) (p : CBudgetProposal) (v : CBudgetVote) :
    (p.AddOrUpdateVote env1 v).2.GetHash env2 = p.GetHash env2 := by
  unfold AddOrUpdateVote
  dsimp only
  split <;> split_ifs <;> rfl

theorem GetHash_foldl_AddOrUpdateVote (env : Env) (votes : List (Env × CBudgetVote))
    (p : CBudgetProposal) :
    (votes.foldl (fun q ev => (q.AddOrUpdateVote ev.1 ev.2).2) p).GetHash env = p.GetHash env := by
  induction votes generalizing p with
  | nil => rfl
  | cons ev rest ih =>
      simp only [List.foldl_cons]
      rw [ih, GetHash_AddOrUpdateVote]

end CBudgetProposal

namespace CFinalizedBudget

theorem GetHash_AddOrUpdateVote_finalized (env1 env2 : Env) (B : CFinalizedBudget)
    (v : CFinalizedBudgetVote) :
    (B.AddOrUpdateVote env1 v).2.GetHash env2 = B.GetHash env2 := by
  unfold AddOrUpdateVote
  dsimp only
  split <;> split_ifs <;> rfl

theorem GetHash_foldl_AddOrUpdateVote_finalized (env : Env)
    (votes : List (Env × CFinalizedBudgetVote)) (B : CFinalizedBudget) :
    (votes.foldl (fun q ev => (q.AddOrUpdateVote ev.1 ev.2).2) B).GetHash env = B.GetHash env := by
  induction votes generalizing B with
  | nil => rfl
  | cons ev rest ih =>
      simp only [List.foldl_cons]
      rw [ih, GetHash_AddOrUpdateVote_finalized]

end CFinalizedBudget

/-- C9: for every `CBudgetProposal` `p` and every vote `v`, `p.GetHash()` is the same
before and after `p.AddOrUpdateVote(v)`, whether the vote is accepted or rejected (the
vote may arrive at any clock time), and the same holds for `CFinalizedBudget`; hence
the hash is unchanged after adding any sequence of votes, of length 100 or other.  The
hash is a function of (name, URL, start block, end block, amount, payee) for a proposal
and of (name, start block, payment list) for a finalized budget only. -/
theorem GetHash_invariant_under_votes (env : Env) :
    (∀ (env1 : Env) (p : CBudgetProposal) (v : CBudgetVote),
      (p.AddOrUpdateVote env1 v).2.GetHash env = p.GetHash env) ∧
    (∀ (env1 : Env) (B : CFinalizedBudget) (v : CFinalizedBudgetVote),
      (B.AddOrUpdateVote env1 v).2.GetHash env = B.GetHash env) ∧
    (∀ (p : CBudgetProposal) (votes : List (Env × CBudgetVote)),
      (votes.foldl (fun q ev => (q.AddOrUpdateVote ev.1 ev.2).2) p).GetHash env
        = p.GetHash env) ∧
    (∀ (B : CFinalizedBudget) (votes : List (Env × CFinalizedBudgetVote)),
      (votes.foldl (fun q ev => (q.AddOrUpdateVote ev.1 ev.2).2) B).GetHash env
        = B.GetHash env) ∧
    (∀ p q : CBudgetProposal,
      p.strProposalName = q.strProposalName → p.strURL = q.strURL →
      p.nBlockStart = q.nBlockStart → p.nBlockEnd = q.nBlockEnd → p.nAmount = q.nAmount →
      p.address = q.address → p.GetHash env = q.GetHash env) ∧
    (∀ B C : CFinalizedBudget,
      B.strBudgetName = C.strBudgetName → B.nBlockStart = C.nBlockStart →
      B.vecBudgetPayments = C.vecBudgetPayments → B.GetHash env = C.GetHash env) := by
  refine ⟨?_, ?_, ?_, ?_, ?_, ?_⟩
  · intro env1 p v
    exact CBudgetProposal.GetHash_AddOrUpdateVote env1 env p v
  · intro env1 B v
    exact CFinalizedBudget.GetHash_AddOrUpdateVote_finalized env1 env B v
  · intro p votes
    exact CBudgetProposal.GetHash_foldl_AddOrUpdateVote env votes p
  · intro B votes
    exact CFinalizedBudget.GetHash_foldl_AddOrUpdateVote_finalized env votes B
  · intro p q h1 h2 h3 h4 h5 h6
    unfold CBudgetProposal.GetHash
    rw [h1, h2, h3, h4, h5, h6]
  · intro B C h1 h2 h3
    unfold CFinalizedBudget.GetHash
    rw [h1, h2, h3]

/-- Witness for C9: a proposal without votes and the same proposal with three no votes
have the same hash. -/
theorem GetHash_invariant_under_votes_witness :
    (smallProposal 20 0 VOTE_YES).GetHash smallEnv = (smallProposal 20 3 VOTE_NO).GetHash smallEnv :=
  (GetHash_invariant_under_votes smallEnv).2.2.2.2.1 (smallProposal 20 0 VOTE_YES)
    (smallProposal 20 3 VOTE_NO) rfl rfl rfl rfl rfl rfl

/-! ## Validity of finalized budgets -/

namespace CFinalizedBudget

theorem foldl_payout (l : List CTxBudgetPayment) (a : Int) :
    l.foldl (fun ret payment => ret + payment.nAmount) a
      = a + (l.map (fun payment => payment.nAmount)).sum := by
  induction l generalizing a with
  | nil => simp
  | cons x rest ih =>
      simp only [List.foldl_cons, List.map_cons, List.sum_cons]
      rw [ih]
      ring

theorem GetTotalPayout_eq_sum (B : CFinalizedBudget) :
    B.GetTotalPayout = (B.vecBudgetPayments.map (fun payment => payment.nAmount)).sum := by
  unfold GetTotalPayout
  rw [foldl_payout]
  simp

/-- C10: whenever `CFinalizedBudget::IsValid` returns true, the start block of the
budget is a non-zero multiple of `GetBudgetPaymentCycleBlocks()`, its payment list has
at most 100 entries, its fee-transaction hash is non-null, and its total payout (the sum
of the payment amounts) is at most `GetTotalBudget(nBlockStart)`.  `B1` is the budget
as the call leaves it. -/
theorem IsValid_true_implies (env : Env) (B : CFinalizedBudget) (pindex : Option CBlockIndex)
    (fCheckCollateral : Bool) (B1 : CFinalizedBudget)
    (hvalid : B.IsValid env pindex fCheckCollateral = Except.ok (true, B1)) :
    (∃ k : Int, k ≠ 0 ∧ B.nBlockStart = k * GetBudgetPaymentCycleBlocks env) ∧
      B.vecBudgetPayments.length ≤ 100 ∧
      B.nFeeTXHash ≠ 0 ∧
      (B.vecBudgetPayments.map (fun payment => payment.nAmount)).sum
        ≤ GetTotalBudget env B.nBlockStart := by
  unfold IsValid at hvalid
  by_cases h1 : B.nBlockStart.tmod (GetBudgetPaymentCycleBlocks env) ≠ 0
  · rw [if_pos h1] at hvalid
    exact absurd hvalid (by simp)
  rw [if_neg h1] at hvalid
  by_cases h2 : B.GetBlockEnd - B.nBlockStart > 100
  · rw [if_pos h2] at hvalid
    exact absurd hvalid (by simp)
  rw [if_neg h2] at hvalid
  by_cases h3 : (B.vecBudgetPayments.length : Int) > 100
  · rw [if_pos h3] at hvalid
    exact absurd hvalid (by simp)
  rw [if_neg h3] at hvalid
  by_cases h4 : B.strBudgetName = ""
  · rw [if_pos h4] at hvalid
    exact absurd hvalid (by simp)
  rw [if_neg h4] at hvalid
  by_cases h5 : B.nBlockStart = 0
  · rw [if_pos h5] at hvalid
    exact absurd hvalid (by simp)
  rw [if_neg h5] at hvalid
  by_cases h6 : B.nFeeTXHash = 0
  · rw [if_pos h6] at hvalid
    exact absurd hvalid (by simp)
  rw [if_neg h6] at hvalid
  by_cases h7 : B.GetTotalPayout > GetTotalBudget env B.nBlockStart
  · rw [if_pos h7] at hvalid
    exact absurd hvalid (by simp)
  refine ⟨⟨B.nBlockStart.tdiv (GetBudgetPaymentCycleBlocks env), ?_, ?_⟩, ?_, h6, ?_⟩
  · intro hk
    have h8 := Int.tdiv_add_tmod B.nBlockStart (GetBudgetPaymentCycleBlocks env)
    have h9 : B.nBlockStart.tmod (GetBudgetPaymentCycleBlocks env) = 0 := by
      by_contra h10
      exact h1 h10
    rw [hk, h9] at h8
    simp at h8
    exact h5 h8.symm
  · have h8 := Int.tdiv_add_tmod B.nBlockStart (GetBudgetPaymentCycleBlocks env)
    have h9 : B.nBlockStart.tmod (GetBudgetPaymentCycleBlocks env) = 0 := by
      by_contra h10
      exact h1 h10
    rw [h9, add_zero, mul_comm] at h8
    exact h8.symm
  · omega
  · rw [← GetTotalPayout_eq_sum]
    omega

/-- Witness for C10: a finalized budget at height 100 of a chain with a
payment cycle of 10 blocks, paying 20 coins against a cap of 30. -/
theorem IsValid_true_implies_witness :
    (∃ k : Int, k ≠ 0 ∧ smallBudget.nBlockStart = k * GetBudgetPaymentCycleBlocks smallEnv) ∧
      smallBudget.vecBudgetPayments.length ≤ 100 ∧
      smallBudget.nFeeTXHash ≠ 0 ∧
      (smallBudget.vecBudgetPayments.map (fun payment => payment.nAmount)).sum
        ≤ GetTotalBudget smallEnv smallBudget.nBlockStart :=
  IsValid_true_implies smallEnv smallBudget (some ⟨100⟩) true smallBudget (by decide)

end CFinalizedBudget

/-! ## Budget payment blocks and the payee check -/

namespace CBudgetManager

theorem highestCount_gt (h : Int) (T : Int) (l : List CFinalizedBudget) (a : Int) :
    highestCount h l a > T
      ↔ a > T ∨ ∃ B ∈ l, B.GetBlockStart ≤ h ∧ h ≤ B.GetBlockEnd ∧ B.GetVoteCount > T := by
  unfold highestCount
  induction l generalizing a with
  | nil => simp
  | cons B rest ih =>
      simp only [List.foldl_cons, List.mem_cons, exists_eq_or_imp]
      rw [ih]
      by_cases hc : B.GetVoteCount > a ∧ h ≥ B.GetBlockStart ∧ h ≤ B.GetBlockEnd
      · rw [if_pos hc]
        constructor
        · rintro (h1 | h1)
          · exact Or.inr (Or.inl ⟨hc.2.1, hc.2.2, h1⟩)
          · exact Or.inr (Or.inr h1)
        · rintro (h1 | h1 | h1)
          · exact Or.inl (by omega)
          · exact Or.inl h1.2.2
          · exact Or.inr h1
      · rw [if_neg hc]
        constructor
        · rintro (h1 | h1)
          · exact Or.inl h1
          · exact Or.inr (Or.inr h1)
        · rintro (h1 | h1 | h1)
          · exact Or.inl h1
          · refine Or.inl ?_
            by_contra h2
            exact hc ⟨by omega, h1.1, h1.2.1⟩
          · exact Or.inr h1

/-- C14: for every set of finalized budgets, enabled masternode count `N >= 0` and height
`h`, `CBudgetManager::IsBudgetPaymentBlock(h)` returns true if and only if some
finalized budget with `GetBlockStart() <= h <= GetBlockEnd()` has a vote count strictly
greater than `N / 20` (integer division); in particular it is false when there is no
finalized budget. -/
theorem IsBudgetPaymentBlock_iff (env : Env) (mapFinalizedBudgets : List CFinalizedBudget)
    (h : Int) (hcount : 0 ≤ env.CountEnabled) :
    (IsBudgetPaymentBlock env mapFinalizedBudgets h = true
      ↔ ∃ B ∈ mapFinalizedBudgets, B.GetBlockStart ≤ h ∧ h ≤ B.GetBlockEnd ∧
          B.GetVoteCount > env.CountEnabled.tdiv 20) ∧
      IsBudgetPaymentBlock env [] h = false := by
  have hT : 0 ≤ env.CountEnabled.tdiv 20 := Int.tdiv_nonneg hcount (by decide)
  have key : ∀ l : List CFinalizedBudget, IsBudgetPaymentBlock env l h = true
      ↔ ∃ B ∈ l, B.GetBlockStart ≤ h ∧ h ≤ B.GetBlockEnd ∧
          B.GetVoteCount > env.CountEnabled.tdiv 20 := by
    intro l
    unfold IsBudgetPaymentBlock
    have h1 := highestCount_gt h (env.CountEnabled.tdiv 20) l (-1)
    by_cases h2 : highestCount h l (-1) > env.CountEnabled.tdiv 20
    · simp only [h2, if_true, true_iff]
      rcases h1.1 h2 with h3 | h3
      · omega
      · exact h3
    · simp only [h2, if_false]
      constructor
      · intro h3
        exact absurd h3 (by simp)
      · intro h3
        exact absurd (h1.2 (Or.inr h3)) h2
  refine ⟨key mapFinalizedBudgets, ?_⟩
  cases hb : IsBudgetPaymentBlock env [] h with
  | false => rfl
  | true =>
      obtain ⟨B, hB, _⟩ := (key []).1 hb
      exact absurd hB (List.not_mem_nil B)

/-- Witness for C14: the small test chain with 90 enabled masternodes and a finalized
budget with five votes. -/
theorem IsBudgetPaymentBlock_iff_witness :
    (IsBudgetPaymentBlock smallEnv [votedBudget [1] 20 5] 100 = true
      ↔ ∃ B ∈ [votedBudget [1] 20 5], B.GetBlockStart ≤ 100 ∧ 100 ≤ B.GetBlockEnd ∧
          B.GetVoteCount > smallEnv.CountEnabled.tdiv 20) ∧
      IsBudgetPaymentBlock smallEnv [] 100 = false :=
  IsBudgetPaymentBlock_iff smallEnv [votedBudget [1] 20 5] 100 (by decide)

end CBudgetManager

/-- C13: when the node is synced, superblocks are enabled and the height is a budget
payment block, `IsBlockPayeeValid` returns true when the budget validation yields
`Valid`, returns false when it yields `InValid` and budget enforcement (SPORK_9) is
active, and falls back to the masternode rule when it yields `DoublePayment` or
`VoteThreshold`: the result is then true if and only if
`masternodePayments.IsTransactionValid(tx, height)` holds or masternode payment
enforcement (SPORK_8) is inactive. -/
theorem IsBlockPayeeValid_budget_block (env : NodeEnv)
    (mapFinalizedBudgets : List CFinalizedBudget) (mapPayment_History : StdMap Int)
    (mapMasternodeBlocks : List (Int × CMasternodeBlockPayees)) (block : CBlock)
    (nBlockHeight : Int)
    (hsynced : env.IsSynced = true) (hsuper : env.SPORK_13 = true)
    (hblock : CBudgetManager.IsBudgetPaymentBlock env.toEnv mapFinalizedBudgets nBlockHeight
      = true) :
    ((CBudgetManager.IsTransactionValid env.toEnv mapFinalizedBudgets mapPayment_History
        block.txNew nBlockHeight).1 = TrxValidationStatus.Valid →
      (IsBlockPayeeValid env mapFinalizedBudgets mapPayment_History mapMasternodeBlocks block
        nBlockHeight).1 = true) ∧
    ((CBudgetManager.IsTransactionValid env.toEnv mapFinalizedBudgets mapPayment_History
        block.txNew nBlockHeight).1 = TrxValidationStatus.InValid → env.SPORK_9 = true →
      (IsBlockPayeeValid env mapFinalizedBudgets mapPayment_History mapMasternodeBlocks block
        nBlockHeight).1 = false) ∧
    (((CBudgetManager.IsTransactionValid env.toEnv mapFinalizedBudgets mapPayment_History
          block.txNew nBlockHeight).1 = TrxValidationStatus.DoublePayment ∨
        (CBudgetManager.IsTransactionValid env.toEnv mapFinalizedBudgets mapPayment_History
          block.txNew nBlockHeight).1 = TrxValidationStatus.VoteThreshold) →
      ((IsBlockPayeeValid env mapFinalizedBudgets mapPayment_History mapMasternodeBlocks block
          nBlockHeight).1 = true
        ↔ CMasternodePayments.IsTransactionValid mapMasternodeBlocks block.txNew nBlockHeight
            env.requiredMasternodePayment = true ∨ env.SPORK_8 = false)) := by
  unfold IsBlockPayeeValid
  simp only [hsynced, hsuper, hblock, Bool.not_true, if_true, if_false, Bool.false_eq_true]
  refine ⟨?_, ?_, ?_⟩
  · intro hv
    simp [hv]
  · intro hv h9
    simp [hv, h9]
  · intro hv
    have h1 : (CBudgetManager.IsTransactionValid env.toEnv mapFinalizedBudgets
        mapPayment_History block.txNew nBlockHeight).1 ≠ TrxValidationStatus.Valid := by
      rcases hv with hv | hv <;> rw [hv] <;> decide
    have h2 : (CBudgetManager.IsTransactionValid env.toEnv mapFinalizedBudgets
        mapPayment_History block.txNew nBlockHeight).1 ≠ TrxValidationStatus.InValid := by
      rcases hv with hv | hv <;> rw [hv] <;> decide
    simp only [h1, h2, if_false, false_and]
    by_cases hm : CMasternodePayments.IsTransactionValid mapMasternodeBlocks block.txNew
        nBlockHeight env.requiredMasternodePayment = true
    · simp [hm]
    · by_cases h8 : env.SPORK_8 = true
      · simp [hm, h8]
      · simp [hm, h8]

/-- Witness for C13: a budget payment that is already in the payment history is a
double payment, and the block passes by the masternode rule. -/
theorem IsBlockPayeeValid_budget_block_witness :
    (IsBlockPayeeValid smallNodeEnv [votedBudget [1] 20 5] [(6, 100)] []
      { fProofOfStake := false, vtx := [[{ nValue := 2000000000, scriptPubKey := [1] }]] }
      100).1 = true :=
  ((IsBlockPayeeValid_budget_block smallNodeEnv [votedBudget [1] 20 5] [(6, 100)] []
      { fProofOfStake := false, vtx := [[{ nValue := 2000000000, scriptPubKey := [1] }]] }
      100 rfl rfl (by decide)).2.2 (Or.inl (by decide))).2 (Or.inl (by decide))

/-! ## The automatic vote -/

theorem stdSort_length {α : Type} (comp : α → α → Bool) (l : List α) :
    (stdSort comp l).length = l.length :=
  (stdSort_perm comp l).length_eq

theorem count_set_of_ne {α : Type} [DecidableEq α] (a b : α) (hne : a ≠ b) :
    ∀ (l : List α) (i : Nat), l[i]? = some a → (l.set i b).count a + 1 = l.count a
  | [], i, h => by simp at h
  | x :: rest, 0, h => by
      have hx : x = a := by simpa using h
      subst hx
      have hba : ¬ b = x := fun hb => hne hb.symm
      simp [List.count_cons, hba]
  | x :: rest, i + 1, h => by
      have h1 : rest[i]? = some a := by simpa using h
      have ih := count_set_of_ne a b hne rest i h1
      simp only [List.set_cons_succ, List.count_cons]
      omega

namespace CFinalizedBudget

theorem CheckAndVoteLoop_iff (env : NodeEnv) :
    ∀ (payments : List CTxBudgetPayment) (proposals : List CBudgetProposal),
      payments.length = proposals.length →
      (CheckAndVoteLoop env payments proposals = true
        ↔ ∀ (i : Nat) (payment : CTxBudgetPayment) (proposal : CBudgetProposal),
            payments[i]? = some payment → proposals[i]? = some proposal →
            payment.nProposalHash = proposal.GetHash env.toEnv ∧
            env.ScriptToString payment.payee = env.ScriptToString proposal.GetPayee ∧
            payment.nAmount = proposal.GetAmount)
  | [], [], _ => by simp [CheckAndVoteLoop]
  | [], _ :: _, h => by simp at h
  | _ :: _, [], h => by simp at h
  | payment :: payments, proposal :: proposals, h => by
      have hlen : payments.length = proposals.length := by simpa using h
      have ih := CheckAndVoteLoop_iff env payments proposals hlen
      simp only [CheckAndVoteLoop]
      constructor
      · intro hloop i pay prop hpay hprop
        by_cases h1 : payment.nProposalHash ≠ proposal.GetHash env.toEnv
        · rw [if_pos h1] at hloop
          exact absurd hloop (by simp)
        rw [if_neg h1] at hloop
        by_cases h2 : env.ScriptToString payment.payee ≠ env.ScriptToString proposal.GetPayee
        · rw [if_pos h2] at hloop
          exact absurd hloop (by simp)
        rw [if_neg h2] at hloop
        by_cases h3 : payment.nAmount ≠ proposal.GetAmount
        · rw [if_pos h3] at hloop
          exact absurd hloop (by simp)
        rw [if_neg h3] at hloop
        cases i with
        | zero =>
            have e1 : payment = pay := by simpa using hpay
            have e2 : proposal = prop := by simpa using hprop
            subst e1
            subst e2
            exact ⟨not_not.1 h1, not_not.1 h2, not_not.1 h3⟩
        | succ j =>
            exact ih.1 hloop j pay prop (by simpa using hpay) (by simpa using hprop)
      · intro hall
        have h0 := hall 0 payment proposal (by simp) (by simp)
        rw [if_neg (not_not.2 h0.1), if_neg (not_not.2 h0.2.1), if_neg (not_not.2 h0.2.2)]
        apply ih.2
        intro i pay prop hpay hprop
        exact hall (i + 1) pay prop (by simpa using hpay) (by simpa using hprop)

theorem CheckAndVoteLoop_keys (env : NodeEnv) :
    ∀ (payments : List CTxBudgetPayment) (proposals : List CBudgetProposal),
      payments.length = proposals.length →
      CheckAndVoteLoop env payments proposals = true →
      payments.map (paymentKey env) = proposals.map (proposalKey env)
  | [], [], _, _ => rfl
  | [], _ :: _, h, _ => by simp at h
  | _ :: _, [], h, _ => by simp at h
  | payment :: payments, proposal :: proposals, h, hloop => by
      have hlen : payments.length = proposals.length := by simpa using h
      have h0 := (CheckAndVoteLoop_iff env (payment :: payments) (proposal :: proposals) h).1
        hloop 0 payment proposal (by simp) (by simp)
      have hrest : CheckAndVoteLoop env payments proposals = true := by
        apply (CheckAndVoteLoop_iff env payments proposals hlen).2
        intro i pay prop hpay hprop
        exact (CheckAndVoteLoop_iff env (payment :: payments) (proposal :: proposals) h).1
          hloop (i + 1) pay prop (by simpa using hpay) (by simpa using hprop)
      have ih := CheckAndVoteLoop_keys env payments proposals hlen hrest
      simp only [List.map_cons, ih]
      congr 1
      unfold paymentKey proposalKey
      rw [h0.1, h0.2.1, h0.2.2]

theorem CheckAndVoteCompare_iff (env : NodeEnv) (self : CFinalizedBudget)
    (budget : List CBudgetProposal) :
    CheckAndVoteCompare env self budget = true
      ↔ budget ≠ [] ∧ budget.length = self.vecBudgetPayments.length ∧
        ∀ (i : Nat) (payment : CTxBudgetPayment) (proposal : CBudgetProposal),
          (stdSort sortPaymentsByHash self.vecBudgetPayments)[i]? = some payment →
          (stdSort (sortProposalsByHash env.toEnv) budget)[i]? = some proposal →
          payment.nProposalHash = proposal.GetHash env.toEnv ∧
          env.ScriptToString payment.payee = env.ScriptToString proposal.GetPayee ∧
          payment.nAmount = proposal.GetAmount := by
  unfold CheckAndVoteCompare
  simp only [stdSort_length]
  by_cases h0 : budget.length = 0
  · have hnil : budget = [] := List.length_eq_zero.1 h0
    simp [hnil]
  · have hne : budget ≠ [] := fun h => h0 (by simp [h])
    rw [if_neg h0]
    by_cases h1 : budget.length ≠ self.vecBudgetPayments.length
    · rw [if_pos h1]
      constructor
      · intro h
        exact absurd h (by simp)
      · intro h
        exact absurd h.2.1 h1
    · rw [if_neg h1]
      have hlen : budget.length = self.vecBudgetPayments.length := not_not.1 h1
      rw [CheckAndVoteLoop_iff env _ _ (by simp only [stdSort_length]; exact hlen.symm)]
      constructor
      · intro h
        exact ⟨hne, hlen, h⟩
      · intro h
        exact h.2.2

theorem CheckAndVoteCompare_perm (env : NodeEnv) (self : CFinalizedBudget)
    (budget : List CBudgetProposal) (hvote : CheckAndVoteCompare env self budget = true) :
    (self.vecBudgetPayments.map (paymentKey env)).Perm (budget.map (proposalKey env)) := by
  have hlen := ((CheckAndVoteCompare_iff env self budget).1 hvote).2.1
  unfold CheckAndVoteCompare at hvote
  simp only [stdSort_length] at hvote
  have h0 : ¬ budget.length = 0 := by
    intro h
    rw [if_pos h] at hvote
    exact absurd hvote (by simp)
  rw [if_neg h0, if_neg (not_not.2 hlen)] at hvote
  have hkeys := CheckAndVoteLoop_keys env _ _
    (by simp only [stdSort_length]; exact hlen.symm) hvote
  have p1 := ((stdSort_perm sortPaymentsByHash self.vecBudgetPayments).map (paymentKey env)).symm
  have p2 := (stdSort_perm (sortProposalsByHash env.toEnv) budget).map (proposalKey env)
  rw [hkeys] at p1
  exact p1.trans p2

theorem CheckAndVoteCompare_changed (env : NodeEnv) (self : CFinalizedBudget)
    (budget : List CBudgetProposal) (i : Nat) (payment changed : CTxBudgetPayment)
    (hvote : CheckAndVoteCompare env self budget = true)
    (hpay : self.vecBudgetPayments[i]? = some payment)
    (hkey : paymentKey env payment ≠ paymentKey env changed) :
    CheckAndVoteCompare env
      { self with vecBudgetPayments := self.vecBudgetPayments.set i changed } budget = false := by
  cases hc : CheckAndVoteCompare env
      { self with vecBudgetPayments := self.vecBudgetPayments.set i changed } budget with
  | false => rfl
  | true =>
      exfalso
      have p1 := CheckAndVoteCompare_perm env self budget hvote
      have p2 := CheckAndVoteCompare_perm env _ budget hc
      have p3 := p1.trans p2.symm
      have hcount := p3.count_eq (paymentKey env payment)
      simp only [List.map_set] at hcount
      have hget : (self.vecBudgetPayments.map (paymentKey env))[i]? = some (paymentKey env payment) := by
        simp [hpay]
      have hset := count_set_of_ne (paymentKey env payment) (paymentKey env changed) hkey
        (self.vecBudgetPayments.map (paymentKey env)) i hget
      omega

theorem CheckAndVote_eq_compare (env : NodeEnv) (self : CFinalizedBudget)
    (mapProposals : List CBudgetProposal) (tip : CBlockIndex)
    (hnode : env.fMasterNode = true) (hmode : env.strBudgetMode = "auto")
    (hauto : self.fAutoChecked = false) (hrand : env.rand.tmod 4 = 0) :
    (self.CheckAndVote env mapProposals (some tip)).1
      = CheckAndVoteCompare env self
          (CBudgetManager.GetBudget env.toEnv mapProposals (some tip)).1 := by
  unfold CheckAndVote
  simp only [hnode, hauto, hrand, hmode, Bool.not_true, Bool.or_false, Bool.false_eq_true,
    if_false, if_true, ne_eq, not_true_eq_false]
  rfl

end CFinalizedBudget

namespace CFinalizedBudget

/-- C11, as the code has it: when `CFinalizedBudget::CheckAndVote` reaches its
comparison (masternode mode, budget mode `auto`, not yet auto-checked, probability gate
passed, non-null tip), it submits a vote if and only if the locally computed budget
(`GetBudget`) is non-empty, has the same length as the payment list, and, after sorting
both by proposal hash, for every index the proposal hash, the printed form of the payee
(`CScript::ToString`) and the amount are equal.  Changing the amount of a single
payment of a matching budget by 1, or its payee to a script that prints differently,
suppresses the vote. -/
theorem CheckAndVote_iff_match (env : NodeEnv) (self : CFinalizedBudget)
    (mapProposals : List CBudgetProposal) (tip : CBlockIndex)
    (hnode : env.fMasterNode = true) (hmode : env.strBudgetMode = "auto")
    (hauto : self.fAutoChecked = false) (hrand : env.rand.tmod 4 = 0) :
    ((self.CheckAndVote env mapProposals (some tip)).1 = true
      ↔ (CBudgetManager.GetBudget env.toEnv mapProposals (some tip)).1 ≠ [] ∧
        (CBudgetManager.GetBudget env.toEnv mapProposals (some tip)).1.length
          = self.vecBudgetPayments.length ∧
        ∀ (i : Nat) (payment : CTxBudgetPayment) (proposal : CBudgetProposal),
          (stdSort sortPaymentsByHash self.vecBudgetPayments)[i]? = some payment →
          (stdSort (sortProposalsByHash env.toEnv)
            (CBudgetManager.GetBudget env.toEnv mapProposals (some tip)).1)[i]?
              = some proposal →
          payment.nProposalHash = proposal.GetHash env.toEnv ∧
          env.ScriptToString payment.payee = env.ScriptToString proposal.GetPayee ∧
          payment.nAmount = proposal.GetAmount) ∧
    (∀ (i : Nat) (payment changed : CTxBudgetPayment),
      (self.CheckAndVote env mapProposals (some tip)).1 = true →
      self.vecBudgetPayments[i]? = some payment →
      (changed = { payment with nAmount := payment.nAmount + 1 } ∨
        changed = { payment with nAmount := payment.nAmount - 1 } ∨
        (changed.nProposalHash = payment.nProposalHash ∧
          changed.nAmount = payment.nAmount ∧
          env.ScriptToString changed.payee ≠ env.ScriptToString payment.payee)) →
      (CheckAndVote env
        { self with vecBudgetPayments := self.vecBudgetPayments.set i changed }
        mapProposals (some tip)).1 = false) := by
  constructor
  · rw [CheckAndVote_eq_compare env self mapProposals tip hnode hmode hauto hrand]
    exact CheckAndVoteCompare_iff env self _
  · intro i payment changed hvote hpay hchange
    rw [CheckAndVote_eq_compare env self mapProposals tip hnode hmode hauto hrand] at hvote
    have h2 := CheckAndVote_eq_compare env
      { self with vecBudgetPayments := self.vecBudgetPayments.set i changed }
      mapProposals tip hnode hmode hauto hrand
    rw [h2]
    apply CheckAndVoteCompare_changed env self _ i payment changed hvote hpay
    intro hkey
    unfold paymentKey at hkey
    rcases hchange with h | h | h
    · rw [h] at hkey
      have h1 := congrArg (fun k => k.2.2) hkey
      simp at h1
    · rw [h] at hkey
      have h1 := congrArg (fun k => k.2.2) hkey
      simp only at h1
      omega
    · have h1 := congrArg (fun k => k.2.1) hkey
      exact h.2.2 h1.symm

/-- Witness for C11: on the small test chain the budget that pays the one passing
proposal matches, and the same budget with the amount raised by 1 gets no vote. -/
theorem CheckAndVote_iff_match_witness :
    (CheckAndVote smallNodeEnv
      { budgetFor smallNodeEnv.toEnv (smallProposal 20 10 VOTE_YES) [1] with
        vecBudgetPayments :=
          (budgetFor smallNodeEnv.toEnv (smallProposal 20 10 VOTE_YES) [1]).vecBudgetPayments.set 0
            { nProposalHash := (smallProposal 20 10 VOTE_YES).GetHash smallNodeEnv.toEnv,
              payee := [1], nAmount := 2000000000 + 1 } }
      [smallProposal 20 10 VOTE_YES] (some ⟨95⟩)).1 = false :=
  (CheckAndVote_iff_match smallNodeEnv
      (budgetFor smallNodeEnv.toEnv (smallProposal 20 10 VOTE_YES) [1])
      [smallProposal 20 10 VOTE_YES] ⟨95⟩ rfl rfl rfl (by decide)).2 0
    { nProposalHash := (smallProposal 20 10 VOTE_YES).GetHash smallNodeEnv.toEnv,
      payee := [1], nAmount := 2000000000 }
    { nProposalHash := (smallProposal 20 10 VOTE_YES).GetHash smallNodeEnv.toEnv,
      payee := [1], nAmount := 2000000000 + 1 }
    (by decide) (by decide) (Or.inl rfl)

/-- C11 as stated fails: the payee scripts `[1]` and `[2]` differ, but both print as
`[error]`, so the budget that pays the passing proposal still gets the vote when its
payee is changed from `[1]`, the payee of the proposal, to `[2]`. -/
theorem CheckAndVote_votes_for_other_payee :
    (CheckAndVote smallNodeEnv
        (budgetFor smallNodeEnv.toEnv (smallProposal 20 10 VOTE_YES) [1])
        [smallProposal 20 10 VOTE_YES] (some ⟨95⟩)).1 = true ∧
      (CheckAndVote smallNodeEnv
        (budgetFor smallNodeEnv.toEnv (smallProposal 20 10 VOTE_YES) [2])
        [smallProposal 20 10 VOTE_YES] (some ⟨95⟩)).1 = true ∧
      ([1] : CScript) ≠ [2] := by
  decide

end CFinalizedBudget

namespace StdMap

theorem assign_perm {V : Type} (k : Nat) (v : V) :
    ∀ (m : StdMap V), (∀ e ∈ m, e.1 ≠ k) → (assign m k v).Perm ((k, v) :: m)
  | [], _ => by simp [assign]
  | (k1, v1) :: rest, hfresh => by
      unfold assign
      have hne : k1 ≠ k := hfresh (k1, v1) (List.mem_cons_self _ _)
      by_cases h1 : k < k1
      · rw [if_pos h1]
      · rw [if_neg h1, if_neg (fun h => hne h.symm)]
        have ih := assign_perm k v rest (fun e he => hfresh e (List.mem_cons_of_mem _ he))
        exact (List.Perm.cons _ ih).trans (List.Perm.swap _ _ _)

theorem assign_sorted {V : Type} (k : Nat) (v : V) :
    ∀ (m : StdMap V), m.Pairwise (fun a b => a.1 < b.1) → (∀ e ∈ m, e.1 ≠ k) →
      (assign m k v).Pairwise (fun a b => a.1 < b.1)
  | [], _, _ => by simp [assign]
  | (k1, v1) :: rest, hsorted, hfresh => by
      unfold assign
      have hne : k1 ≠ k := hfresh (k1, v1) (List.mem_cons_self _ _)
      have hrest := List.pairwise_cons.1 hsorted
      by_cases h1 : k < k1
      · rw [if_pos h1]
        refine List.pairwise_cons.2 ⟨?_, hsorted⟩
        intro e he
        rcases List.mem_cons.1 he with h | h
        · rw [h]
          exact h1
        · exact Nat.lt_trans h1 (hrest.1 e h)
      · rw [if_neg h1, if_neg (fun h => hne h.symm)]
        have hfresh2 : ∀ e ∈ rest, e.1 ≠ k := fun e he => hfresh e (List.mem_cons_of_mem _ he)
        refine List.pairwise_cons.2 ⟨?_, assign_sorted k v rest hrest.2 hfresh2⟩
        intro e he
        have he2 := (assign_perm k v rest hfresh2).subset he
        rcases List.mem_cons.1 he2 with h | h
        · rw [h]
          show k1 < k
          omega
        · exact hrest.1 e h

end StdMap

namespace CBudgetProposal

theorem IsValidTail_snd (env : Env) (q : CBudgetProposal) (pindex : Option CBlockIndex) :
    (IsValidTail env q pindex).2 = q := by
  unfold IsValidTail
  repeat' split
  all_goals first | rfl | (dsimp only; split <;> rfl)

theorem IsValid_GetHash (env : Env) (p : CBudgetProposal) (pindex : Option CBlockIndex)
    (fCheckCollateral : Bool) (r : Bool × CBudgetProposal)
    (hr : p.IsValid env pindex fCheckCollateral = Except.ok r) :
    r.2.GetHash env = p.GetHash env := by
  unfold IsValid at hr
  by_cases h1 : p.GetNays - p.GetYeas > env.CountEnabled.tdiv 10
  · rw [if_pos h1] at hr
    cases hr
    rfl
  rw [if_neg h1] at hr
  by_cases h2 : p.nBlockStart < 0
  · rw [if_pos h2] at hr
    cases hr
    rfl
  rw [if_neg h2] at hr
  by_cases h3 : p.nBlockEnd < p.nBlockStart
  · rw [if_pos h3] at hr
    cases hr
    rfl
  rw [if_neg h3] at hr
  by_cases h4 : p.nAmount < 10 * env.COIN
  · rw [if_pos h4] at hr
    cases hr
    rfl
  rw [if_neg h4] at hr
  by_cases h5 : p.address = []
  · rw [if_pos h5] at hr
    cases hr
    rfl
  rw [if_neg h5] at hr
  cases fCheckCollateral with
  | false =>
      rw [if_neg (by decide)] at hr
      cases hr
      rw [IsValidTail_snd]
  | true =>
      rw [if_pos rfl] at hr
      cases hc : IsBudgetCollateralValid env.collateral p.nFeeTXHash (p.GetHash env) p.nTime 0
          false with
      | error fault =>
          rw [hc] at hr
          cases hr
      | ok collateral =>
          rw [hc] at hr
          dsimp only at hr
          by_cases h6 : (!collateral.1) = true
          · rw [if_pos h6] at hr
            cases hr
            rfl
          · rw [if_neg h6] at hr
            cases hr
            rw [IsValidTail_snd]
            rfl

theorem IsValid_returns (env : Env) (p : CBudgetProposal) (pindex : Option CBlockIndex)
    (fCheckCollateral : Bool)
    (hfound : env.collateral.GetTransaction p.nFeeTXHash ≠ none) :
    ∃ r, p.IsValid env pindex fCheckCollateral = Except.ok r := by
  cases hget : env.collateral.GetTransaction p.nFeeTXHash with
  | none => exact absurd hget hfound
  | some found =>
      obtain ⟨c, hc⟩ := IsBudgetCollateralValid_some env.collateral p.nFeeTXHash
        (p.GetHash env) p.nTime 0 false found hget
      unfold IsValid
      rw [hc]
      dsimp only
      repeat' split
      all_goals exact ⟨_, rfl⟩

end CBudgetProposal

namespace CBudgetManager

theorem AddProposal_returns (env : Env) (m : StdMap CBudgetProposal) (p : CBudgetProposal)
    (pindex : Option CBlockIndex) (r : Bool × CBudgetProposal)
    (hr : p.IsValid env pindex true = Except.ok r) :
    ∃ stored, AddProposal env m p pindex = Except.ok stored := by
  unfold AddProposal
  rw [hr]
  dsimp only
  repeat' split
  all_goals exact ⟨_, rfl⟩

theorem AddProposals_fault (env : Env) (pindex : Option CBlockIndex) :
    ∀ (l : List CBudgetProposal) (m : StdMap CBudgetProposal),
      (∃ p ∈ l, p.IsValid env pindex true = Except.error Fault.nullDereference) →
      AddProposals env pindex m l = Except.error Fault.nullDereference
  | [], _, hfault => by
      obtain ⟨p, hp, _⟩ := hfault
      exact absurd hp (List.not_mem_nil p)
  | q :: rest, m, hfault => by
      unfold AddProposals
      cases hq : q.IsValid env pindex true with
      | error fault =>
          cases fault
          have hadd : AddProposal env m q pindex = Except.error Fault.nullDereference := by
            unfold AddProposal
            rw [hq]
          rw [hadd]
      | ok r =>
          obtain ⟨stored, hstored⟩ := AddProposal_returns env m q pindex r hq
          rw [hstored]
          dsimp only
          apply AddProposals_fault env pindex rest stored.2
          obtain ⟨p, hp, hf⟩ := hfault
          rcases List.mem_cons.1 hp with h1 | h1
          · rw [h1, hq] at hf
            cases hf
          · exact ⟨p, h1, hf⟩

theorem AddProposals_sorted_perm (env : Env) (pindex : Option CBlockIndex) :
    ∀ (l : List CBudgetProposal) (m : StdMap CBudgetProposal),
      m.Pairwise (fun a b => a.1 < b.1) →
      (l.map (fun p => p.GetHash env)).Nodup →
      (∀ e ∈ m, e.1 ∉ l.map (fun p => p.GetHash env)) →
      (∀ p ∈ l, ∃ r, p.IsValid env pindex true = Except.ok r) →
      ∃ stored, AddProposals env pindex m l = Except.ok stored ∧
        stored.Pairwise (fun a b => a.1 < b.1) ∧
        stored.Perm (accepted env pindex l ++ m)
  | [], m, hsorted, _, _, _ => by
      refine ⟨m, rfl, hsorted, ?_⟩
      simp only [accepted, List.filterMap_nil, List.nil_append]
      exact List.Perm.refl _
  | p :: rest, m, hsorted, hnodup, hfresh, hreturns => by
      have hnd := List.nodup_cons.1 (by simpa only [List.map_cons] using hnodup)
      have hfresh_rest : ∀ e ∈ m, e.1 ∉ rest.map (fun p => p.GetHash env) := by
        intro e he hmem
        exact hfresh e he (by simp only [List.map_cons]; exact List.mem_cons_of_mem _ hmem)
      have hfresh_p : ∀ e ∈ m, e.1 ≠ p.GetHash env := by
        intro e he heq
        exact hfresh e he (by simp only [List.map_cons, heq]; exact List.mem_cons_self _ _)
      have hreturns_rest : ∀ q ∈ rest, ∃ r, q.IsValid env pindex true = Except.ok r :=
        fun q hq => hreturns q (List.mem_cons_of_mem _ hq)
      obtain ⟨r, hr⟩ := hreturns p (List.mem_cons_self _ _)
      have hhash := CBudgetProposal.IsValid_GetHash env p pindex true r hr
      unfold AddProposals
      by_cases hv : r.1 = true
      · have hnot : StdMap.contains m (p.GetHash env) = false := by
          cases hc : StdMap.contains m (p.GetHash env) with
          | false => rfl
          | true =>
              obtain ⟨e, he, hk⟩ := (StdMap.contains_eq_true_iff _ _).1 hc
              exact absurd hk (hfresh_p e he)
        have hadd : AddProposal env m p pindex
            = Except.ok (true, StdMap.assign m (p.GetHash env) r.2) := by
          unfold AddProposal
          rw [hr]
          simp only [hv, Bool.not_true, Bool.false_eq_true, if_false, hhash, hnot, StdMap.insert]
        rw [hadd]
        dsimp only
        have hperm := StdMap.assign_perm (p.GetHash env) r.2 m hfresh_p
        have hsorted2 := StdMap.assign_sorted (p.GetHash env) r.2 m hsorted hfresh_p
        have hfresh2 : ∀ e ∈ StdMap.assign m (p.GetHash env) r.2,
            e.1 ∉ rest.map (fun p => p.GetHash env) := by
          intro e he
          rcases List.mem_cons.1 (hperm.subset he) with h | h
          · rw [h]
            exact hnd.1
          · exact hfresh_rest e h
        obtain ⟨stored, ih0, ih1, ih2⟩ :=
          AddProposals_sorted_perm env pindex rest _ hsorted2 hnd.2 hfresh2 hreturns_rest
        refine ⟨stored, ih0, ih1, ?_⟩
        have hacc : accepted env pindex (p :: rest)
            = (p.GetHash env, r.2) :: accepted env pindex rest := by
          unfold accepted
          rw [List.filterMap_cons, hr]
          simp only [hv, if_true, hhash]
        rw [hacc]
        exact (ih2.trans (List.Perm.append_left _ hperm)).trans List.perm_middle
      · have hadd : AddProposal env m p pindex = Except.ok (false, m) := by
          unfold AddProposal
          rw [hr]
          simp only [hv, Bool.not_eq_true', if_true]
        rw [hadd]
        dsimp only
        obtain ⟨stored, ih0, ih1, ih2⟩ :=
          AddProposals_sorted_perm env pindex rest m hsorted hnd.2 hfresh_rest hreturns_rest
        refine ⟨stored, ih0, ih1, ?_⟩
        have hacc : accepted env pindex (p :: rest) = accepted env pindex rest := by
          unfold accepted
          rw [List.filterMap_cons, hr]
          simp only [hv, if_false]
          simp
        rw [hacc]
        exact ih2

theorem AddProposals_perm_eq (env : Env) (pindex : Option CBlockIndex)
    (l1 l2 : List CBudgetProposal) (hperm : l1.Perm l2)
    (hkeys : (l1.map (fun p => p.GetHash env)).Nodup) :
    AddProposals env pindex [] l2 = AddProposals env pindex [] l1 := by
  have hkeys2 : (l2.map (fun p => p.GetHash env)).Nodup :=
    (hperm.map (fun p => p.GetHash env)).nodup_iff.1 hkeys
  by_cases hfault : ∃ p ∈ l1, p.IsValid env pindex true = Except.error Fault.nullDereference
  · rw [AddProposals_fault env pindex l1 [] hfault]
    obtain ⟨p, hp, hf⟩ := hfault
    exact AddProposals_fault env pindex l2 [] ⟨p, hperm.subset hp, hf⟩
  · have hreturns : ∀ p ∈ l1, ∃ r, p.IsValid env pindex true = Except.ok r := by
      intro p hp
      cases hv : p.IsValid env pindex true with
      | error fault =>
          cases fault
          exact absurd ⟨p, hp, hv⟩ hfault
      | ok r => exact ⟨r, rfl⟩
    obtain ⟨m1, he1, hs1, hp1⟩ := AddProposals_sorted_perm env pindex l1 [] List.Pairwise.nil
      hkeys (fun e he => absurd he (List.not_mem_nil e)) hreturns
    obtain ⟨m2, he2, hs2, hp2⟩ := AddProposals_sorted_perm env pindex l2 [] List.Pairwise.nil
      hkeys2 (fun e he => absurd he (List.not_mem_nil e))
      (fun p hp => hreturns p (hperm.symm.subset hp))
    rw [he1, he2]
    congr 1
    apply eq_of_perm_of_pairwise (r := fun a b : Nat × CBudgetProposal => a.1 < b.1)
    · have hacc : (accepted env pindex l1).Perm (accepted env pindex l2) := by
        unfold accepted
        exact hperm.filterMap _
      simp only [List.append_nil] at hp1 hp2
      exact (hp2.trans hacc.symm).trans hp1.symm
    · exact hs2
    · exact hs1
    · intro a _ b _ hab hba
      exact absurd hab (by omega)

end CBudgetManager

namespace CFinalizedBudget

theorem stdSort_payments_perm_eq (l1 l2 : List CTxBudgetPayment) (hperm : l1.Perm l2)
    (hhashes : (l1.map (fun payment => payment.nProposalHash)).Nodup) :
    stdSort sortPaymentsByHash l2 = stdSort sortPaymentsByHash l1 := by
  apply eq_of_perm_of_pairwise (r := fun a b : CTxBudgetPayment =>
      sortPaymentsByHash b a = false)
  · exact ((stdSort_perm _ _).trans hperm.symm).trans (stdSort_perm _ _).symm
  · haveI htotal : IsTotal CTxBudgetPayment (fun a b => sortPaymentsByHash b a = false) :=
      ⟨fun a b => by
        unfold sortPaymentsByHash
        simp only [decide_eq_false_iff_not]
        omega⟩
    haveI htrans : IsTrans CTxBudgetPayment (fun a b => sortPaymentsByHash b a = false) :=
      ⟨fun a b c => by
        unfold sortPaymentsByHash
        simp only [decide_eq_false_iff_not]
        omega⟩
    exact List.sorted_insertionSort (fun a b => sortPaymentsByHash b a = false) l2
  · haveI htotal : IsTotal CTxBudgetPayment (fun a b => sortPaymentsByHash b a = false) :=
      ⟨fun a b => by
        unfold sortPaymentsByHash
        simp only [decide_eq_false_iff_not]
        omega⟩
    haveI htrans : IsTrans CTxBudgetPayment (fun a b => sortPaymentsByHash b a = false) :=
      ⟨fun a b c => by
        unfold sortPaymentsByHash
        simp only [decide_eq_false_iff_not]
        omega⟩
    exact List.sorted_insertionSort (fun a b => sortPaymentsByHash b a = false) l1
  · intro a ha b hb hab hba
    have ha1 : a ∈ l1 := hperm.symm.subset ((stdSort_perm _ _).subset ha)
    have hb1 : b ∈ l1 := hperm.symm.subset ((stdSort_perm _ _).subset hb)
    unfold sortPaymentsByHash at hab hba
    simp only [decide_eq_false_iff_not] at hab hba
    exact List.inj_on_of_nodup_map hhashes ha1 hb1 (by omega)

theorem CheckAndVote_of_sorted_eq (env : NodeEnv) (self : CFinalizedBudget)
    (payments : List CTxBudgetPayment) (l1 l2 : List CBudgetProposal)
    (pindex : Option CBlockIndex)
    (hsort : stdSort sortPaymentsByHash payments
      = stdSort sortPaymentsByHash self.vecBudgetPayments)
    (hbudget : CBudgetManager.vBudgetPorposalsSort env.toEnv l2
      = CBudgetManager.vBudgetPorposalsSort env.toEnv l1) :
    (CheckAndVote env { self with vecBudgetPayments := payments } l2 pindex).1
      = (CheckAndVote env self l1 pindex).1 := by
  unfold CheckAndVote
  cases pindex with
  | none => rfl
  | some tip =>
      simp only
      by_cases h1 : (!env.fMasterNode || self.fAutoChecked) = true
      · rw [if_pos h1, if_pos h1]
      rw [if_neg h1, if_neg h1]
      by_cases h2 : env.rand.tmod 4 ≠ 0
      · rw [if_pos h2, if_pos h2]
      rw [if_neg h2, if_neg h2]
      by_cases h3 : env.strBudgetMode = "auto"
      · rw [if_pos h3, if_pos h3]
        simp only [CheckAndVoteCompare, CBudgetManager.GetBudget, hsort, hbudget]
      · rw [if_neg h3, if_neg h3]

/-- C12: the vote decision of `CFinalizedBudget::CheckAndVote` is order-independent: for
every payment list with pairwise distinct proposal hashes and every permutation of it,
and for every order in which the local proposals were stored by `AddProposal` in
`mapProposals`, a map keyed by their pairwise distinct hashes, the call reaches the same
decision (vote or no vote); the calls of `AddProposal` return in both orders when the
fee transaction of every proposal is found.  If the iteration order of the local
proposals is taken as free instead of the key order of the map, the decision is the same
for every order of local proposals with pairwise distinct collateral fee hashes. -/
theorem CheckAndVote_order_independent (env : NodeEnv) (self : CFinalizedBudget)
    (payments : List CTxBudgetPayment) (proposals reordered : List CBudgetProposal)
    (pindexStored pindex : Option CBlockIndex)
    (hpayments : self.vecBudgetPayments.Perm payments)
    (hhashes : (self.vecBudgetPayments.map (fun payment => payment.nProposalHash)).Nodup)
    (hstored : proposals.Perm reordered)
    (hkeys : (proposals.map (fun p => p.GetHash env.toEnv)).Nodup) :
    (CBudgetManager.AddProposals env.toEnv pindexStored [] reordered).map
        (fun stored =>
          (CheckAndVote env { self with vecBudgetPayments := payments } (stored.map Prod.snd)
            pindex).1)
      = (CBudgetManager.AddProposals env.toEnv pindexStored [] proposals).map
        (fun stored => (CheckAndVote env self (stored.map Prod.snd) pindex).1) ∧
    ((∀ p ∈ proposals, env.collateral.GetTransaction p.nFeeTXHash ≠ none) →
      ∃ stored,
        CBudgetManager.AddProposals env.toEnv pindexStored [] proposals = Except.ok stored ∧
        CBudgetManager.AddProposals env.toEnv pindexStored [] reordered = Except.ok stored ∧
        (CheckAndVote env { self with vecBudgetPayments := payments } (stored.map Prod.snd)
            pindex).1
          = (CheckAndVote env self (stored.map Prod.snd) pindex).1) ∧
    ((proposals.map (fun p => p.nFeeTXHash)).Nodup →
      (CheckAndVote env { self with vecBudgetPayments := payments } reordered pindex).1
        = (CheckAndVote env self proposals pindex).1) := by
  have hsort := stdSort_payments_perm_eq self.vecBudgetPayments payments hpayments hhashes
  have heq := CBudgetManager.AddProposals_perm_eq env.toEnv pindexStored proposals reordered
    hstored hkeys
  refine ⟨?_, ?_, ?_⟩
  · rw [heq]
    cases CBudgetManager.AddProposals env.toEnv pindexStored [] proposals with
    | error fault => rfl
    | ok stored =>
        exact congrArg Except.ok
          (CheckAndVote_of_sorted_eq env self payments _ _ pindex hsort rfl)
  · intro hfound
    obtain ⟨stored, hs, _, _⟩ := CBudgetManager.AddProposals_sorted_perm env.toEnv pindexStored
      proposals [] List.Pairwise.nil hkeys (fun e he => absurd he (List.not_mem_nil e))
      (fun p hp => CBudgetProposal.IsValid_returns env.toEnv p pindexStored true (hfound p hp))
    refine ⟨stored, hs, ?_, ?_⟩
    · rw [heq, hs]
    · exact CheckAndVote_of_sorted_eq env self payments _ _ pindex hsort rfl
  · intro hfees
    exact CheckAndVote_of_sorted_eq env self payments proposals reordered pindex hsort
      (CBudgetManager.vBudgetPorposalsSort_perm_eq env.toEnv proposals reordered
        hstored hfees).symm

set_option maxRecDepth 100000 in
/-- Witness for C12: the budget that pays the two local proposals of 20 and of 10 coins,
with its two payments in either order, against the two proposals stored in either order:
both calls of `CheckAndVote` run the comparison of the sorted lists and decide to vote. -/
theorem CheckAndVote_order_independent_witness :
    ((CBudgetManager.AddProposals smallNodeEnv.toEnv (some ⟨95⟩) []
          [smallProposal 10 10 VOTE_YES, smallProposal 20 10 VOTE_YES]).map
        (fun stored =>
          (CheckAndVote smallNodeEnv
            { twoPaymentBudget with
              vecBudgetPayments :=
                [{ nProposalHash := (smallProposal 10 10 VOTE_YES).GetHash smallNodeEnv.toEnv,
                   payee := [1], nAmount := 10 * 100000000 },
                 { nProposalHash := (smallProposal 20 10 VOTE_YES).GetHash smallNodeEnv.toEnv,
                   payee := [1], nAmount := 20 * 100000000 }] }
            (stored.map Prod.snd) (some ⟨95⟩)).1)
      = (CBudgetManager.AddProposals smallNodeEnv.toEnv (some ⟨95⟩) []
          [smallProposal 20 10 VOTE_YES, smallProposal 10 10 VOTE_YES]).map
        (fun stored =>
          (CheckAndVote smallNodeEnv twoPaymentBudget (stored.map Prod.snd) (some ⟨95⟩)).1)) ∧
      (CBudgetManager.AddProposals smallNodeEnv.toEnv (some ⟨95⟩) []
          [smallProposal 20 10 VOTE_YES, smallProposal 10 10 VOTE_YES]).map
        (fun stored =>
          (CheckAndVote smallNodeEnv twoPaymentBudget (stored.map Prod.snd) (some ⟨95⟩)).1)
        = Except.ok true :=
  ⟨(CheckAndVote_order_independent smallNodeEnv twoPaymentBudget
      [{ nProposalHash := (smallProposal 10 10 VOTE_YES).GetHash smallNodeEnv.toEnv,
         payee := [1], nAmount := 10 * 100000000 },
       { nProposalHash := (smallProposal 20 10 VOTE_YES).GetHash smallNodeEnv.toEnv,
         payee := [1], nAmount := 20 * 100000000 }]
      [smallProposal 20 10 VOTE_YES, smallProposal 10 10 VOTE_YES]
      [smallProposal 10 10 VOTE_YES, smallProposal 20 10 VOTE_YES]
      (some ⟨95⟩) (some ⟨95⟩) (List.Perm.swap _ _ _) (by decide) (List.Perm.swap _ _ _)
      (by decide)).1,
   by decide⟩

/-- The two proposals of 20 and 25 coins with the same net votes and the same collateral
fee hash are stored by `AddProposal` in the same order whichever comes first, and the
budget that pays the proposal of 20 coins gets the same decision in both cases; it is
only for an iteration order other than the key order of the map that the selection
under the cap of 30 coins, and with it the decision, would change. -/
theorem CheckAndVote_ties_follow_key_order :
    CBudgetManager.AddProposals smallNodeEnv.toEnv (some ⟨95⟩) []
        [smallProposal 20 10 VOTE_YES, smallProposal 25 10 VOTE_YES]
      = CBudgetManager.AddProposals smallNodeEnv.toEnv (some ⟨95⟩) []
        [smallProposal 25 10 VOTE_YES, smallProposal 20 10 VOTE_YES] ∧
      (CheckAndVote smallNodeEnv
        (budgetFor smallNodeEnv.toEnv (smallProposal 20 10 VOTE_YES) [1])
        [smallProposal 20 10 VOTE_YES, smallProposal 25 10 VOTE_YES] (some ⟨95⟩)).1 = true ∧
      (CheckAndVote smallNodeEnv
        (budgetFor smallNodeEnv.toEnv (smallProposal 20 10 VOTE_YES) [1])
        [smallProposal 25 10 VOTE_YES, smallProposal 20 10 VOTE_YES] (some ⟨95⟩)).1 = false := by
  decide

end CFinalizedBudget

/-! ## The lifecycle check of a masternode -/

namespace CMasternode

theorem Check_forced_unfold (env : RegistryEnv) (mn : CMasternode)
    (hrun : env.ShutdownRequested = false) (hstate : mn.activeState ≠ MASTERNODE_VIN_SPENT)
    (hping : CMasternodePing.eq mn.lastPing CMasternodePing.null = false) :
    mn.Check env true
      = (if ¬ env.GetAdjustedTime - mn.lastPing.sigTime < MASTERNODE_REMOVAL_SECONDS then
          { mn with lastTimeChecked := env.GetTime, activeState := MASTERNODE_REMOVE }
        else if ¬ env.GetAdjustedTime - mn.lastPing.sigTime < MASTERNODE_EXPIRATION_SECONDS then
          { mn with lastTimeChecked := env.GetTime, activeState := MASTERNODE_EXPIRED }
        else if mn.lastPing.sigTime - mn.sigTime < MASTERNODE_MIN_MNP_SECONDS then
          { mn with lastTimeChecked := env.GetTime, activeState := MASTERNODE_PRE_ENABLED }
        else if mn.unitTest = false ∧
            CheckCollateral env mn.vin.prevout = CollateralStatus.COLLATERAL_UTXO_NOT_FOUND then
          { mn with lastTimeChecked := env.GetTime, nActiveState := MASTERNODE_OUTPOINT_SPENT }
        else { mn with lastTimeChecked := env.GetTime, activeState := MASTERNODE_ENABLED }) := by
  unfold Check IsPingedWithin
  simp only [hrun, hping, hstate, Bool.false_eq_true, if_false, if_true, Bool.not_true,
    Bool.false_and, Bool.not_eq_true', decide_eq_false_iff_not, Bool.and_eq_true,
    decide_eq_true_eq]

/-- C15, as the code has it: for every identity that is not VIN_SPENT and has a recorded
(non-null) last ping with timestamp `p`: while a shutdown is requested
`CMasternode::Check` changes nothing; while no shutdown is requested, a forced
`CMasternode::Check` at adjusted time `t` sets the state to REMOVE when `t - p >= 7800`
and to EXPIRED when `7200 <= t - p < 7800`; when `t - p < 7200` it sets the state to
PRE_ENABLED if the ping is less than 600 s after the enrollment, to ENABLED if it is not
and the identity is a unit-test one or the collateral look-up does not report the output
as not found, and otherwise it leaves `activeState` as it was and writes OUTPOINT_SPENT
to `nActiveState` only.  So for `t - p < 7200`, as at 7199, the call writes neither
REMOVE nor EXPIRED. -/
theorem Check_ping_windows (env : RegistryEnv) (mn : CMasternode)
    (hstate : mn.activeState ≠ MASTERNODE_VIN_SPENT)
    (hping : CMasternodePing.eq mn.lastPing CMasternodePing.null = false) :
    (env.ShutdownRequested = true → ∀ forceCheck : Bool, mn.Check env forceCheck = mn) ∧
    (env.ShutdownRequested = false →
      (env.GetAdjustedTime - mn.lastPing.sigTime ≥ 7800 →
        (mn.Check env true).activeState = MASTERNODE_REMOVE) ∧
      (7200 ≤ env.GetAdjustedTime - mn.lastPing.sigTime →
        env.GetAdjustedTime - mn.lastPing.sigTime < 7800 →
        (mn.Check env true).activeState = MASTERNODE_EXPIRED) ∧
      (env.GetAdjustedTime - mn.lastPing.sigTime < 7200 →
        mn.lastPing.sigTime - mn.sigTime < 600 →
        (mn.Check env true).activeState = MASTERNODE_PRE_ENABLED) ∧
      (env.GetAdjustedTime - mn.lastPing.sigTime < 7200 →
        mn.lastPing.sigTime - mn.sigTime ≥ 600 →
        (mn.unitTest = true ∨
          CheckCollateral env mn.vin.prevout ≠ CollateralStatus.COLLATERAL_UTXO_NOT_FOUND) →
        (mn.Check env true).activeState = MASTERNODE_ENABLED) ∧
      (env.GetAdjustedTime - mn.lastPing.sigTime < 7200 →
        mn.lastPing.sigTime - mn.sigTime ≥ 600 →
        mn.unitTest = false →
        CheckCollateral env mn.vin.prevout = CollateralStatus.COLLATERAL_UTXO_NOT_FOUND →
        mn.Check env true
          = { mn with lastTimeChecked := env.GetTime,
                      nActiveState := MASTERNODE_OUTPOINT_SPENT }) ∧
      (env.GetAdjustedTime - mn.lastPing.sigTime < 7200 →
        mn.Check env true
            = { mn with lastTimeChecked := env.GetTime,
                        activeState := MASTERNODE_PRE_ENABLED } ∨
          mn.Check env true
            = { mn with lastTimeChecked := env.GetTime,
                        activeState := MASTERNODE_ENABLED } ∨
          mn.Check env true
            = { mn with lastTimeChecked := env.GetTime,
                        nActiveState := MASTERNODE_OUTPOINT_SPENT })) := by
  constructor
  · intro hshutdown forceCheck
    unfold Check
    rw [if_pos hshutdown]
  intro hrun
  rw [Check_forced_unfold env mn hrun hstate hping]
  simp only [MASTERNODE_REMOVAL_SECONDS, MASTERNODE_EXPIRATION_SECONDS,
    MASTERNODE_MIN_MNP_SECONDS]
  refine ⟨?_, ?_, ?_, ?_, ?_, ?_⟩
  · intro h1
    rw [if_pos (by omega)]
  · intro h1 h2
    rw [if_neg (by omega), if_pos (by omega)]
  · intro h1 h2
    rw [if_neg (by omega), if_neg (by omega), if_pos (by omega)]
  · intro h1 h2 h3
    rw [if_neg (by omega), if_neg (by omega), if_neg (by omega)]
    have h4 : ¬ (mn.unitTest = false ∧
        CheckCollateral env mn.vin.prevout = CollateralStatus.COLLATERAL_UTXO_NOT_FOUND) := by
      rintro ⟨h5, h6⟩
      rcases h3 with h3 | h3
      · rw [h5] at h3
        exact absurd h3 (by simp)
      · exact h3 h6
    rw [if_neg h4]
  · intro h1 h2 h3 h4
    rw [if_neg (by omega), if_neg (by omega), if_neg (by omega), if_pos ⟨h3, h4⟩]
  · intro h1
    rw [if_neg (by omega), if_neg (by omega)]
    by_cases h2 : mn.lastPing.sigTime - mn.sigTime < 10 * 60
    · rw [if_pos h2]
      exact Or.inl rfl
    · rw [if_neg h2]
      by_cases h3 : mn.unitTest = false ∧
          CheckCollateral env mn.vin.prevout = CollateralStatus.COLLATERAL_UTXO_NOT_FOUND
      · rw [if_pos h3]
        exact Or.inr (Or.inr rfl)
      · rw [if_neg h3]
        exact Or.inr (Or.inl rfl)

/-- Witness for C15, at the adjusted time 10000: a last ping 7800 s old gives REMOVE, one
7200 s old gives EXPIRED, one 7199 s old, of an identity whose collateral output is not
found, leaves the state as it was, and during a shutdown the call changes nothing. -/
theorem Check_ping_windows_witness :
    ((exampleMasternode MASTERNODE_ENABLED 1000 2200).Check exampleRegistryEnv true).activeState
        = MASTERNODE_REMOVE ∧
      ((exampleMasternode MASTERNODE_ENABLED 1000 2800).Check exampleRegistryEnv true).activeState
        = MASTERNODE_EXPIRED ∧
      (exampleMasternode MASTERNODE_ENABLED 1000 2801).Check exampleRegistryEnv true
        = { exampleMasternode MASTERNODE_ENABLED 1000 2801 with
            lastTimeChecked := exampleRegistryEnv.GetTime,
            nActiveState := MASTERNODE_OUTPOINT_SPENT } ∧
      (exampleMasternode MASTERNODE_ENABLED 1000 2200).Check
          { exampleRegistryEnv with ShutdownRequested := true } true
        = exampleMasternode MASTERNODE_ENABLED 1000 2200 :=
  ⟨((Check_ping_windows exampleRegistryEnv (exampleMasternode MASTERNODE_ENABLED 1000 2200)
      (by decide) (by decide)).2 rfl).1 (by decide),
   ((Check_ping_windows exampleRegistryEnv (exampleMasternode MASTERNODE_ENABLED 1000 2800)
      (by decide) (by decide)).2 rfl).2.1 (by decide) (by decide),
   ((Check_ping_windows exampleRegistryEnv (exampleMasternode MASTERNODE_ENABLED 1000 2801)
      (by decide) (by decide)).2 rfl).2.2.2.2.1 (by decide) (by decide) rfl (by decide),
   (Check_ping_windows { exampleRegistryEnv with ShutdownRequested := true }
      (exampleMasternode MASTERNODE_ENABLED 1000 2200) (by decide) (by decide)).1 rfl true⟩

/-- C15 as stated fails: while a shutdown is requested, a forced check changes nothing,
so an enabled identity whose last ping is 7800 s old stays enabled. -/
theorem Check_during_shutdown :
    ((exampleMasternode MASTERNODE_ENABLED 1000 2200).Check
        { exampleRegistryEnv with ShutdownRequested := true } true).activeState
      = MASTERNODE_ENABLED ∧
      exampleRegistryEnv.GetAdjustedTime - (exampleMasternode MASTERNODE_ENABLED 1000 2200).lastPing.sigTime
        = 7800 := by
  decide

/-- C16, the code at the failing input: an enabled identity, pinged 1000 s ago, whose
ping is 1000 s after its enrollment and whose collateral output is not in the
unspent-output set.  The forced check writes OUTPOINT_SPENT to `nActiveState`, which
`GetStatus` reports, and leaves `activeState` as it was, so `IsEnabled()` returns
true. -/
theorem Check_outpoint_spent_stays_enabled :
    CheckCollateral exampleRegistryEnv (exampleMasternode MASTERNODE_ENABLED 8000 9000).vin.prevout
        = CollateralStatus.COLLATERAL_UTXO_NOT_FOUND ∧
      ((exampleMasternode MASTERNODE_ENABLED 8000 9000).Check exampleRegistryEnv true).IsEnabled
        = true ∧
      ((exampleMasternode MASTERNODE_ENABLED 8000 9000).Check exampleRegistryEnv true).activeState
        = MASTERNODE_ENABLED ∧
      ((exampleMasternode MASTERNODE_ENABLED 8000 9000).Check exampleRegistryEnv true).nActiveState
        = MASTERNODE_OUTPOINT_SPENT ∧
      ((exampleMasternode MASTERNODE_ENABLED 8000 9000).Check exampleRegistryEnv true).GetStatus
        = "OUTPOINT_SPENT" := by
  decide

/-- The branch of `Check` for a collateral output that is not found writes
`nActiveState` only: under the conditions of C16 the state `activeState`, which
`IsEnabled` reads, is the one before the call. -/
theorem Check_outpoint_spent_frame (env : RegistryEnv) (mn : CMasternode)
    (hrun : env.ShutdownRequested = false) (hstate : mn.activeState ≠ MASTERNODE_VIN_SPENT)
    (hping : CMasternodePing.eq mn.lastPing CMasternodePing.null = false)
    (hwithin : env.GetAdjustedTime - mn.lastPing.sigTime < 7200)
    (hgap : mn.lastPing.sigTime - mn.sigTime ≥ 600)
    (hunit : mn.unitTest = false)
    (hutxo : CheckCollateral env mn.vin.prevout = CollateralStatus.COLLATERAL_UTXO_NOT_FOUND) :
    (mn.Check env true).activeState = mn.activeState ∧
      (mn.Check env true).nActiveState = MASTERNODE_OUTPOINT_SPENT ∧
      (mn.Check env true).IsEnabled = mn.IsEnabled := by
  rw [Check_forced_unfold env mn hrun hstate hping]
  simp only [MASTERNODE_REMOVAL_SECONDS, MASTERNODE_EXPIRATION_SECONDS,
    MASTERNODE_MIN_MNP_SECONDS]
  rw [if_neg (by omega), if_neg (by omega), if_neg (by omega), if_pos ⟨hunit, hutxo⟩]
  exact ⟨rfl, rfl, rfl⟩

end CMasternode

/-! ## Admission of pings and broadcasts -/

namespace CMasternodeMan

theorem FindFrom_some (prevout : COutPoint) :
    ∀ (l : List CMasternode) (i j : Nat) (x : CMasternode),
      FindFrom prevout i l = some (j, x) → x ∈ l ∧ x.vin.prevout = prevout
  | [], _, _, _, h => by simp [FindFrom] at h
  | mn :: rest, i, j, x, h => by
      unfold FindFrom at h
      by_cases hm : mn.vin.prevout = prevout
      · rw [if_pos hm] at h
        have hx : mn = x := by
          have h1 := Option.some.inj h
          exact congrArg Prod.snd h1
        subst hx
        exact ⟨List.mem_cons_self _ _, hm⟩
      · rw [if_neg hm] at h
        have ih := FindFrom_some prevout rest (i + 1) j x h
        exact ⟨List.mem_cons_of_mem _ ih.1, ih.2⟩

theorem FindFrom_of_mem (prevout : COutPoint) :
    ∀ (l : List CMasternode) (i : Nat) (m : CMasternode),
      m ∈ l → m.vin.prevout = prevout → ∃ j x, FindFrom prevout i l = some (j, x)
  | [], _, _, hm, _ => by simp at hm
  | mn :: rest, i, m, hm, hkey => by
      unfold FindFrom
      by_cases h : mn.vin.prevout = prevout
      · rw [if_pos h]
        exact ⟨i, mn, rfl⟩
      · rw [if_neg h]
        rcases List.mem_cons.1 hm with h1 | h1
        · subst h1
          exact absurd hkey h
        · exact FindFrom_of_mem prevout rest (i + 1) m h1 hkey

theorem Find_of_unique (man : CMasternodeMan) (vin : CTxIn) (m : CMasternode)
    (hmem : m ∈ man.vMasternodes) (hkey : m.vin.prevout = vin.prevout)
    (hunique : (man.vMasternodes.map (fun mn => mn.vin.prevout)).Nodup) :
    ∃ i, man.Find vin = some (i, m) := by
  obtain ⟨j, x, hfind⟩ := FindFrom_of_mem vin.prevout man.vMasternodes 0 m hmem hkey
  have hx := FindFrom_some vin.prevout man.vMasternodes 0 j x hfind
  have hxm : x = m := List.inj_on_of_nodup_map hunique hx.1 hmem (by rw [hx.2, hkey])
  subst hxm
  exact ⟨j, hfind⟩

end CMasternodeMan

namespace CMasternodePing

theorem CheckAndUpdate_sigTimeOnly_registry (env : RegistryEnv) (man : CMasternodeMan)
    (ping : CMasternodePing) (nDos : Int) (fRequireEnabled : Bool) :
    (ping.CheckAndUpdate env man nDos fRequireEnabled true).2.2 = man := by
  unfold CheckAndUpdate
  by_cases h1 : ping.sigTime > env.GetAdjustedTime + 60 * 60
  · rw [if_pos h1]
  rw [if_neg h1]
  by_cases h2 : ping.sigTime ≤ env.GetAdjustedTime - 60 * 60
  · rw [if_pos h2]
  rw [if_neg h2]
  simp only [if_true]
  cases man.Find ping.vin with
  | none => rfl
  | some r => rfl

/-- C18, as the code has it: for every ping whose collateral is unknown to the registry
and `fCheckSigTimeOnly = true`, `CMasternodePing::CheckAndUpdate` returns true if and
only if `now - 3600 < sigTime <= now + 3600`, where `now` is the adjusted time: a
timestamp exactly one hour before the adjusted time is rejected already.  When the call
rejects, it sets the misbehaviour score to 1. -/
theorem CheckAndUpdate_sigTime_window (env : RegistryEnv) (man : CMasternodeMan)
    (ping : CMasternodePing) (nDos : Int) (fRequireEnabled : Bool)
    (hunknown : man.Find ping.vin = none) :
    ((ping.CheckAndUpdate env man nDos fRequireEnabled true).1 = true
      ↔ env.GetAdjustedTime - 3600 < ping.sigTime ∧ ping.sigTime ≤ env.GetAdjustedTime + 3600) ∧
    ((ping.CheckAndUpdate env man nDos fRequireEnabled true).1 = false →
      (ping.CheckAndUpdate env man nDos fRequireEnabled true).2.1 = 1) := by
  unfold CheckAndUpdate
  by_cases h1 : ping.sigTime > env.GetAdjustedTime + 60 * 60
  · rw [if_pos h1]
    refine ⟨?_, fun _ => rfl⟩
    constructor
    · intro h
      exact absurd h (by simp)
    · intro h
      omega
  rw [if_neg h1]
  by_cases h2 : ping.sigTime ≤ env.GetAdjustedTime - 60 * 60
  · rw [if_pos h2]
    refine ⟨?_, fun _ => rfl⟩
    constructor
    · intro h
      exact absurd h (by simp)
    · intro h
      omega
  rw [if_neg h2]
  simp only [if_true, hunknown]
  refine ⟨?_, ?_⟩
  · constructor
    · intro _
      omega
    · intro _
      trivial
  · intro h
    exact absurd h (by simp)

/-- Witness for C18: a ping of an unknown collateral, stamped 1000 s before the adjusted
time, passes the timestamp test. -/
theorem CheckAndUpdate_sigTime_window_witness :
    ((examplePing 9000).CheckAndUpdate exampleRegistryEnv
        { vMasternodes := [], mapSeenMasternodeBroadcast := [], mapSeenMasternodePing := [] }
        0 false true).1 = true :=
  ((CheckAndUpdate_sigTime_window exampleRegistryEnv
      { vMasternodes := [], mapSeenMasternodeBroadcast := [], mapSeenMasternodePing := [] }
      (examplePing 9000) 0 false rfl).1).2 (by decide)

/-- C18 as stated fails: a ping stamped exactly 3600 s before the adjusted time 10000 is
rejected, with the misbehaviour score 1. -/
theorem CheckAndUpdate_rejects_at_one_hour :
    ((examplePing 6400).CheckAndUpdate exampleRegistryEnv
        { vMasternodes := [], mapSeenMasternodeBroadcast := [], mapSeenMasternodePing := [] }
        0 false true) =
      (false, 1,
        { vMasternodes := [], mapSeenMasternodeBroadcast := [], mapSeenMasternodePing := [] }) ∧
      exampleRegistryEnv.GetAdjustedTime - 3600 ≤ (examplePing 6400).sigTime ∧
      (examplePing 6400).sigTime ≤ exampleRegistryEnv.GetAdjustedTime + 3600 := by
  decide

end CMasternodePing

namespace CMasternodeBroadcast

/-- C17: for every broadcast `b` and every registry, keyed by the collateral reference,
that holds an identity `m` with the collateral reference of `b` and
`m.sigTime >= b.sigTime`, `CMasternodeBroadcast::CheckAndUpdate` returns false and
leaves the registry, and with it `m` (keys, address, timestamp, signature, stored ping,
state), unchanged. -/
theorem CheckAndUpdate_rejects_stale (env : RegistryEnv) (man : CMasternodeMan)
    (b : CMasternodeBroadcast) (nDos : Int) (m : CMasternode)
    (hmem : m ∈ man.vMasternodes) (hkey : m.vin.prevout = b.vin.prevout)
    (hunique : (man.vMasternodes.map (fun mn => mn.vin.prevout)).Nodup)
    (hstale : m.sigTime ≥ b.sigTime) :
    (CMasternodeBroadcast.CheckAndUpdate env man b nDos).1 = false ∧
      (CMasternodeBroadcast.CheckAndUpdate env man b nDos).2.2 = man := by
  obtain ⟨i, hfind⟩ := CMasternodeMan.Find_of_unique man b.vin m hmem hkey hunique
  have hman := CMasternodePing.CheckAndUpdate_sigTimeOnly_registry env man b.lastPing nDos false
  unfold CMasternodeBroadcast.CheckAndUpdate
  by_cases h1 : b.sigTime > env.GetAdjustedTime + 60 * 60
  · rw [if_pos h1]
    exact ⟨rfl, rfl⟩
  rw [if_neg h1]
  by_cases h2 : CMasternodePing.eq b.lastPing CMasternodePing.null = true
  · rw [if_pos h2]
    exact ⟨rfl, rfl⟩
  rw [if_neg h2]
  dsimp only
  rw [hman]
  by_cases h3 : (!(CMasternodePing.CheckAndUpdate env man b.lastPing nDos false true).1) = true
  · rw [if_pos h3]
    exact ⟨rfl, rfl⟩
  rw [if_neg h3]
  by_cases h4 : b.protocolVersion < GetMinMasternodePaymentsProto env
  · rw [if_pos h4]
    exact ⟨rfl, rfl⟩
  rw [if_neg h4]
  by_cases h5 : env.PubkeyScriptSize b.pubKeyCollateralAddress ≠ 25
  · rw [if_pos h5]
    exact ⟨rfl, rfl⟩
  rw [if_neg h5]
  by_cases h6 : env.PubkeyScriptSize b.pubKeyMasternode ≠ 25
  · rw [if_pos h6]
    exact ⟨rfl, rfl⟩
  rw [if_neg h6]
  by_cases h7 : b.vin.scriptSig ≠ []
  · rw [if_pos h7]
    exact ⟨rfl, rfl⟩
  rw [if_neg h7]
  by_cases h8 : (!env.VerifyBroadcastNew b && !env.VerifyBroadcastOld b) = true
  · rw [if_pos h8]
    exact ⟨rfl, rfl⟩
  rw [if_neg h8]
  by_cases h9 : (env.fMainNet && decide (b.addr.port ≠ 23511)) = true
  · rw [if_pos h9]
    exact ⟨rfl, rfl⟩
  rw [if_neg h9]
  by_cases h10 : (!env.fMainNet && decide (b.addr.port = 23511)) = true
  · rw [if_pos h10]
    exact ⟨rfl, rfl⟩
  rw [if_neg h10, hfind]
  dsimp only
  rw [if_pos hstale]
  exact ⟨rfl, rfl⟩

/-- Witness for C17: the registry holds the identity of the collateral `(77, 0)` with the
timestamp 5000, and a broadcast for that collateral with the timestamp 4000 arrives from
an address that passes the port check of the test network: the call reaches the
comparison of the timestamps and returns false there.  The same broadcast with the
timestamp 6000 is accepted. -/
theorem CheckAndUpdate_rejects_stale_witness :
    ((CMasternodeBroadcast.CheckAndUpdate exampleRegistryEnv
        { vMasternodes := [exampleMasternode MASTERNODE_ENABLED 5000 9000],
          mapSeenMasternodeBroadcast := [], mapSeenMasternodePing := [] }
        (exampleBroadcast 4000 9500) 0).1 = false ∧
      (CMasternodeBroadcast.CheckAndUpdate exampleRegistryEnv
        { vMasternodes := [exampleMasternode MASTERNODE_ENABLED 5000 9000],
          mapSeenMasternodeBroadcast := [], mapSeenMasternodePing := [] }
        (exampleBroadcast 4000 9500) 0).2.2
        = { vMasternodes := [exampleMasternode MASTERNODE_ENABLED 5000 9000],
            mapSeenMasternodeBroadcast := [], mapSeenMasternodePing := [] }) ∧
      (CMasternodeBroadcast.CheckAndUpdate exampleRegistryEnv
        { vMasternodes := [exampleMasternode MASTERNODE_ENABLED 5000 9000],
          mapSeenMasternodeBroadcast := [], mapSeenMasternodePing := [] }
        (exampleBroadcast 6000 9500) 0).1 = true :=
  ⟨CheckAndUpdate_rejects_stale exampleRegistryEnv
    { vMasternodes := [exampleMasternode MASTERNODE_ENABLED 5000 9000],
      mapSeenMasternodeBroadcast := [], mapSeenMasternodePing := [] }
    (exampleBroadcast 4000 9500) 0
    (exampleMasternode MASTERNODE_ENABLED 5000 9000)
    (List.mem_cons_self _ _) rfl (by decide) (by decide),
   by decide⟩

end CMasternodeBroadcast

/-! ## Scores -/

theorem arith_uint256_sub_of_le (a b : Nat) (hba : b ≤ a) (ha : a < 2 ^ 256) :
    arith_uint256_sub a b = a - b := by
  unfold arith_uint256_sub
  have h1 : ((a : Int) - (b : Int)) % (2 ^ 256 : Int) = (a : Int) - (b : Int) := by
    apply Int.emod_eq_of_lt
    · omega
    · have h2 : ((2 : Int) ^ 256) = ((2 ^ 256 : Nat) : Int) := by norm_cast
      rw [h2]
      omega
  rw [h1]
  omega

namespace CMasternode

/-- C19: `CMasternode::CalculateScore` returns the zero hash when the chain index is null
or the block hash for the height is unavailable; otherwise it returns the absolute
difference `|a - b|` of two 256-bit unsigned integers, with `b = H(blockHash)` and
`a = H(blockHash, (collateral txid + output index) mod 2^256)`, that is `a - b` when
`a > b` and `b - a` otherwise, so the subtraction never wraps around and the result is
symmetric in `a` and `b`. -/
theorem CalculateScore_abs_diff (env : Env) (cache : BlockHashCache) (mn : CMasternode)
    (nBlockHeight : Int) (pindex : CBlockIndexPtr)
    (ha : env.HashWriter
        [SerItem.u256 (GetBlockHash cache 0 nBlockHeight pindex).2.1,
         SerItem.u256 ((mn.vin.prevout.hash + mn.vin.prevout.n) % 2 ^ 256)] < 2 ^ 256)
    (hb : env.HashWriter [SerItem.u256 (GetBlockHash cache 0 nBlockHeight pindex).2.1]
        < 2 ^ 256) :
    (mn.CalculateScore env cache nBlockHeight [] = (0, cache)) ∧
    ((GetBlockHash cache 0 nBlockHeight pindex).1 = false →
      (mn.CalculateScore env cache nBlockHeight pindex).1 = 0) ∧
    ((GetBlockHash cache 0 nBlockHeight pindex).1 = true →
      (mn.CalculateScore env cache nBlockHeight pindex).1
        = Int.natAbs
            ((env.HashWriter
                [SerItem.u256 (GetBlockHash cache 0 nBlockHeight pindex).2.1,
                 SerItem.u256 ((mn.vin.prevout.hash + mn.vin.prevout.n) % 2 ^ 256)] : Int)
              - (env.HashWriter
                [SerItem.u256 (GetBlockHash cache 0 nBlockHeight pindex).2.1] : Int)) ∧
      (mn.CalculateScore env cache nBlockHeight pindex).1
        = Int.natAbs
            ((env.HashWriter
                [SerItem.u256 (GetBlockHash cache 0 nBlockHeight pindex).2.1] : Int)
              - (env.HashWriter
                [SerItem.u256 (GetBlockHash cache 0 nBlockHeight pindex).2.1,
                 SerItem.u256 ((mn.vin.prevout.hash + mn.vin.prevout.n) % 2 ^ 256)] : Int)) ∧
      (mn.CalculateScore env cache nBlockHeight pindex).1 < 2 ^ 256) := by
  refine ⟨rfl, ?_, ?_⟩
  · intro hfail
    cases pindex with
    | nil => rfl
    | cons tip rest =>
        unfold CalculateScore
        simp only [hfail, Bool.not_false, if_true]
  · intro hok
    cases pindex with
    | nil => simp [GetBlockHash] at hok
    | cons tip rest =>
        unfold CalculateScore
        simp only [hok, Bool.not_true, Bool.false_eq_true, if_false]
        by_cases hgt : env.HashWriter
            [SerItem.u256 (GetBlockHash cache 0 nBlockHeight (tip :: rest)).2.1,
             SerItem.u256 ((mn.vin.prevout.hash + mn.vin.prevout.n) % 2 ^ 256)]
            > env.HashWriter [SerItem.u256 (GetBlockHash cache 0 nBlockHeight (tip :: rest)).2.1]
        · rw [if_pos hgt, arith_uint256_sub_of_le _ _ (Nat.le_of_lt hgt) ha]
          omega
        · rw [if_neg hgt, arith_uint256_sub_of_le _ _ (by omega) hb]
          omega

/-- Witness for C19: the identity of the collateral `(77, 0)` scored for height 3 on a
chain of three blocks. -/
theorem CalculateScore_abs_diff_witness :
    ((exampleMasternode MASTERNODE_ENABLED 8000 9000).CalculateScore
        exampleRegistryEnv.toEnv [] 0 [] = (0, [])) ∧
      ((exampleMasternode MASTERNODE_ENABLED 8000 9000).CalculateScore
        exampleRegistryEnv.toEnv [] 3 exampleChainA).1 < 2 ^ 256 :=
  ⟨(CalculateScore_abs_diff exampleRegistryEnv.toEnv []
      (exampleMasternode MASTERNODE_ENABLED 8000 9000) 3 exampleChainA
      (by decide) (by decide)).1,
   ((CalculateScore_abs_diff exampleRegistryEnv.toEnv []
      (exampleMasternode MASTERNODE_ENABLED 8000 9000) 3 exampleChainA
      (by decide) (by decide)).2.2 (by decide)).2.2⟩

set_option maxRecDepth 100000 in
/-- C20, the code at the failing input: on a fork, `GetBlockHash(3, tipB)` gives the
block hash 202 of branch B when the cache is empty, and the block hash 102 of branch A
after a call `GetBlockHash(3, tipA)`, which cached it under the height 3; on a tip of
height 1 the call fails with an empty cache and succeeds after that call.  The score of
an identity for height 3 on branch B differs accordingly. -/
theorem GetBlockHash_depends_on_cache :
    GetBlockHash [] 0 3 exampleChainB = (true, 202, [(3, 202)]) ∧
      GetBlockHash (GetBlockHash [] 0 3 exampleChainA).2.2 0 3 exampleChainB
        = (true, 102, [(3, 102)]) ∧
      (GetBlockHash [] 0 3 [{ nHeight := 1, hashBlock := 101 }]).1 = false ∧
      (GetBlockHash (GetBlockHash [] 0 3 exampleChainA).2.2 0 3
        [{ nHeight := 1, hashBlock := 101 }]).1 = true ∧
      ((exampleMasternode MASTERNODE_ENABLED 8000 9000).CalculateScore
          exampleRegistryEnv.toEnv [] 3 exampleChainB).1
        ≠ ((exampleMasternode MASTERNODE_ENABLED 8000 9000).CalculateScore
          exampleRegistryEnv.toEnv (GetBlockHash [] 0 3 exampleChainA).2.2 3 exampleChainB).1 := by
  decide

end CMasternode

/-! ## Votes on proposals and finalized budgets -/

namespace CBudgetProposal

theorem AddOrUpdateVote_true_iff (env : Env) (p : CBudgetProposal) (v : CBudgetVote) :
    (p.AddOrUpdateVote env v).1 = true
      ↔ v.nTime ≤ env.GetTime + 3600 ∧
        (p.mapVotes.find v.vin.hash = none ∨
          ∃ old, p.mapVotes.find v.vin.hash = some old ∧ old.nTime + 3600 ≤ v.nTime) := by
  unfold AddOrUpdateVote
  simp only [BUDGET_VOTE_UPDATE_MIN]
  cases hf : p.mapVotes.find v.vin.hash with
  | none =>
      simp only [true_or, and_true]
      by_cases h1 : v.nTime > env.GetTime + 60 * 60
      · rw [if_pos h1]
        constructor
        · intro h
          exact absurd h (by simp)
        · intro h
          omega
      · rw [if_neg h1]
        constructor
        · intro _
          omega
        · intro _
          rfl
  | some old =>
      have hex : (∃ o, some old = some o ∧ o.nTime + 3600 ≤ v.nTime)
          ↔ old.nTime + 3600 ≤ v.nTime := by
        constructor
        · rintro ⟨o, ho, h⟩
          rw [Option.some.inj ho]
          exact h
        · intro h
          exact ⟨old, rfl, h⟩
      have hnone : ¬ (some old = (none : Option _)) := by simp
      rw [hex, or_iff_right hnone]
      dsimp only
      by_cases h2 : old.nTime > v.nTime
      · rw [if_pos h2]
        constructor
        · intro h
          exact absurd h (by simp)
        · intro h
          omega
      rw [if_neg h2]
      by_cases h3 : v.nTime - old.nTime < 60 * 60
      · rw [if_pos h3]
        constructor
        · intro h
          exact absurd h (by simp)
        · intro h
          omega
      rw [if_neg h3]
      by_cases h1 : v.nTime > env.GetTime + 60 * 60
      · rw [if_pos h1]
        constructor
        · intro h
          exact absurd h (by simp)
        · intro h
          omega
      · rw [if_neg h1]
        constructor
        · intro _
          omega
        · intro _
          rfl

theorem AddOrUpdateVote_snd (env : Env) (p : CBudgetProposal) (v : CBudgetVote) :
    (p.AddOrUpdateVote env v).2
      = if (p.AddOrUpdateVote env v).1 = true then
          { p with mapVotes := p.mapVotes.assign v.vin.hash v }
        else p := by
  unfold AddOrUpdateVote
  simp only [BUDGET_VOTE_UPDATE_MIN]
  cases hf : p.mapVotes.find v.vin.hash with
  | none =>
      dsimp only
      by_cases h1 : v.nTime > env.GetTime + 60 * 60
      · rw [if_pos h1]
        rfl
      · rw [if_neg h1]
        rfl
  | some old =>
      dsimp only
      by_cases h2 : old.nTime > v.nTime
      · rw [if_pos h2]
        rfl
      rw [if_neg h2]
      by_cases h3 : v.nTime - old.nTime < 60 * 60
      · rw [if_pos h3]
        rfl
      rw [if_neg h3]
      by_cases h1 : v.nTime > env.GetTime + 60 * 60
      · rw [if_pos h1]
        rfl
      · rw [if_neg h1]
        rfl

end CBudgetProposal

namespace CFinalizedBudget

theorem AddOrUpdateVote_true_iff_finalized (env : Env) (B : CFinalizedBudget)
    (v : CFinalizedBudgetVote) :
    (B.AddOrUpdateVote env v).1 = true
      ↔ v.nTime ≤ env.GetTime + 3600 ∧
        (B.mapVotes.find v.vin.hash = none ∨
          ∃ old, B.mapVotes.find v.vin.hash = some old ∧ old.nTime + 3600 ≤ v.nTime) := by
  unfold AddOrUpdateVote
  simp only [BUDGET_VOTE_UPDATE_MIN]
  cases hf : B.mapVotes.find v.vin.hash with
  | none =>
      simp only [true_or, and_true]
      by_cases h1 : v.nTime > env.GetTime + 60 * 60
      · rw [if_pos h1]
        constructor
        · intro h
          exact absurd h (by simp)
        · intro h
          omega
      · rw [if_neg h1]
        constructor
        · intro _
          omega
        · intro _
          rfl
  | some old =>
      have hex : (∃ o, some old = some o ∧ o.nTime + 3600 ≤ v.nTime)
          ↔ old.nTime + 3600 ≤ v.nTime := by
        constructor
        · rintro ⟨o, ho, h⟩
          rw [Option.some.inj ho]
          exact h
        · intro h
          exact ⟨old, rfl, h⟩
      have hnone : ¬ (some old = (none : Option _)) := by simp
      rw [hex, or_iff_right hnone]
      dsimp only
      by_cases h2 : old.nTime > v.nTime
      · rw [if_pos h2]
        constructor
        · intro h
          exact absurd h (by simp)
        · intro h
          omega
      rw [if_neg h2]
      by_cases h3 : v.nTime - old.nTime < 60 * 60
      · rw [if_pos h3]
        constructor
        · intro h
          exact absurd h (by simp)
        · intro h
          omega
      rw [if_neg h3]
      by_cases h1 : v.nTime > env.GetTime + 60 * 60
      · rw [if_pos h1]
        constructor
        · intro h
          exact absurd h (by simp)
        · intro h
          omega
      · rw [if_neg h1]
        constructor
        · intro _
          omega
        · intro _
          rfl

theorem AddOrUpdateVote_snd_finalized (env : Env) (B : CFinalizedBudget)
    (v : CFinalizedBudgetVote) :
    (B.AddOrUpdateVote env v).2
      = if (B.AddOrUpdateVote env v).1 = true then
          { B with mapVotes := B.mapVotes.assign v.vin.hash v }
        else B := by
  unfold AddOrUpdateVote
  simp only [BUDGET_VOTE_UPDATE_MIN]
  cases hf : B.mapVotes.find v.vin.hash with
  | none =>
      dsimp only
      by_cases h1 : v.nTime > env.GetTime + 60 * 60
      · rw [if_pos h1]
        rfl
      · rw [if_neg h1]
        rfl
  | some old =>
      dsimp only
      by_cases h2 : old.nTime > v.nTime
      · rw [if_pos h2]
        rfl
      rw [if_neg h2]
      by_cases h3 : v.nTime - old.nTime < 60 * 60
      · rw [if_pos h3]
        rfl
      rw [if_neg h3]
      by_cases h1 : v.nTime > env.GetTime + 60 * 60
      · rw [if_pos h1]
        rfl
      · rw [if_neg h1]
        rfl

end CFinalizedBudget

/-- C27: for every proposal and every finalized budget, vote `v` and current time `now`,
`AddOrUpdateVote(v)` returns true if and only if `v.nTime <= now + 3600` and either no
vote is stored under the key of the voter or the time of the stored vote is at least
3600 s (`BUDGET_VOTE_UPDATE_MIN`) before `v.nTime`.  On true the entry under that key is
`v`, all other entries and all other fields are unchanged; on false nothing changes.  In
particular a vote that is stored already is rejected. -/
theorem AddOrUpdateVote_iff (env : Env) (p : CBudgetProposal) (v : CBudgetVote)
    (B : CFinalizedBudget) (w : CFinalizedBudgetVote) :
    (((p.AddOrUpdateVote env v).1 = true
        ↔ v.nTime ≤ env.GetTime + 3600 ∧
          (p.mapVotes.find v.vin.hash = none ∨
            ∃ old, p.mapVotes.find v.vin.hash = some old ∧ old.nTime ≤ v.nTime - 3600)) ∧
      ((p.AddOrUpdateVote env v).1 = true →
        (p.AddOrUpdateVote env v).2 = { p with mapVotes := (p.AddOrUpdateVote env v).2.mapVotes } ∧
        (p.AddOrUpdateVote env v).2.mapVotes.find v.vin.hash = some v ∧
        ∀ k, k ≠ v.vin.hash →
          (p.AddOrUpdateVote env v).2.mapVotes.find k = p.mapVotes.find k) ∧
      ((p.AddOrUpdateVote env v).1 = false → (p.AddOrUpdateVote env v).2 = p) ∧
      (p.mapVotes.find v.vin.hash = some v → (p.AddOrUpdateVote env v).1 = false)) ∧
    (((B.AddOrUpdateVote env w).1 = true
        ↔ w.nTime ≤ env.GetTime + 3600 ∧
          (B.mapVotes.find w.vin.hash = none ∨
            ∃ old, B.mapVotes.find w.vin.hash = some old ∧ old.nTime ≤ w.nTime - 3600)) ∧
      ((B.AddOrUpdateVote env w).1 = true →
        (B.AddOrUpdateVote env w).2 = { B with mapVotes := (B.AddOrUpdateVote env w).2.mapVotes } ∧
        (B.AddOrUpdateVote env w).2.mapVotes.find w.vin.hash = some w ∧
        ∀ k, k ≠ w.vin.hash →
          (B.AddOrUpdateVote env w).2.mapVotes.find k = B.mapVotes.find k) ∧
      ((B.AddOrUpdateVote env w).1 = false → (B.AddOrUpdateVote env w).2 = B) ∧
      (B.mapVotes.find w.vin.hash = some w → (B.AddOrUpdateVote env w).1 = false)) := by
  refine ⟨⟨?_, ?_, ?_, ?_⟩, ⟨?_, ?_, ?_, ?_⟩⟩
  · rw [CBudgetProposal.AddOrUpdateVote_true_iff]
    constructor
    · rintro ⟨h1, h2⟩
      refine ⟨h1, ?_⟩
      rcases h2 with h2 | ⟨old, h2, h3⟩
      · exact Or.inl h2
      · exact Or.inr ⟨old, h2, by omega⟩
    · rintro ⟨h1, h2⟩
      refine ⟨h1, ?_⟩
      rcases h2 with h2 | ⟨old, h2, h3⟩
      · exact Or.inl h2
      · exact Or.inr ⟨old, h2, by omega⟩
  · intro h
    rw [CBudgetProposal.AddOrUpdateVote_snd, if_pos h]
    refine ⟨rfl, StdMap.find_assign_self _ _ _, ?_⟩
    intro k hk
    exact StdMap.find_assign_other _ _ _ _ hk
  · intro h
    rw [CBudgetProposal.AddOrUpdateVote_snd, h]
    simp
  · intro h
    cases hr : (p.AddOrUpdateVote env v).1 with
    | false => rfl
    | true =>
        have h2 := (CBudgetProposal.AddOrUpdateVote_true_iff env p v).1 hr
        rcases h2.2 with h3 | ⟨old, h3, h4⟩
        · rw [h] at h3
          exact absurd h3 (by simp)
        · rw [h] at h3
          have h5 : v = old := Option.some.inj h3
          rw [← h5] at h4
          omega
  · rw [CFinalizedBudget.AddOrUpdateVote_true_iff_finalized]
    constructor
    · rintro ⟨h1, h2⟩
      refine ⟨h1, ?_⟩
      rcases h2 with h2 | ⟨old, h2, h3⟩
      · exact Or.inl h2
      · exact Or.inr ⟨old, h2, by omega⟩
    · rintro ⟨h1, h2⟩
      refine ⟨h1, ?_⟩
      rcases h2 with h2 | ⟨old, h2, h3⟩
      · exact Or.inl h2
      · exact Or.inr ⟨old, h2, by omega⟩
  · intro h
    rw [CFinalizedBudget.AddOrUpdateVote_snd_finalized, if_pos h]
    refine ⟨rfl, StdMap.find_assign_self _ _ _, ?_⟩
    intro k hk
    exact StdMap.find_assign_other _ _ _ _ hk
  · intro h
    rw [CFinalizedBudget.AddOrUpdateVote_snd_finalized, h]
    simp
  · intro h
    cases hr : (B.AddOrUpdateVote env w).1 with
    | false => rfl
    | true =>
        have h2 := (CFinalizedBudget.AddOrUpdateVote_true_iff_finalized env B w).1 hr
        rcases h2.2 with h3 | ⟨old, h3, h4⟩
        · rw [h] at h3
          exact absurd h3 (by simp)
        · rw [h] at h3
          have h5 : w = old := Option.some.inj h3
          rw [← h5] at h4
          omega

/-- Two accepted votes whose voters have collaterals in different transactions are both
stored: after the two calls the entry of each transaction id is the vote of its
voter. -/
theorem AddOrUpdateVote_other_txid (env : Env) (p : CBudgetProposal) (v1 v2 : CBudgetVote)
    (h1 : (p.AddOrUpdateVote env v1).1 = true)
    (h2 : ((p.AddOrUpdateVote env v1).2.AddOrUpdateVote env v2).1 = true)
    (hne : v1.vin.hash ≠ v2.vin.hash) :
    ((p.AddOrUpdateVote env v1).2.AddOrUpdateVote env v2).2.mapVotes.find v1.vin.hash = some v1 ∧
      ((p.AddOrUpdateVote env v1).2.AddOrUpdateVote env v2).2.mapVotes.find v2.vin.hash
        = some v2 := by
  rw [CBudgetProposal.AddOrUpdateVote_snd env (p.AddOrUpdateVote env v1).2 v2, if_pos h2]
  rw [CBudgetProposal.AddOrUpdateVote_snd env p v1, if_pos h1]
  exact ⟨by
    show StdMap.find (StdMap.assign (StdMap.assign p.mapVotes v1.vin.hash v1) v2.vin.hash v2)
      v1.vin.hash = some v1
    rw [StdMap.find_assign_other _ _ _ _ hne, StdMap.find_assign_self],
    StdMap.find_assign_self _ _ _⟩

set_option maxRecDepth 100000 in
/-- C22, the code at the failing input: the masternodes with the collaterals `(5, 0)` and
`(5, 1)` vote yes on a proposal without votes, the second an hour after the first.
`AddOrUpdateVote` accepts both votes, but the key of the vote map is the transaction id
5 alone, so the second vote replaces the first: one entry, one yes vote.  A vote of the
second masternode at the time of the first is refused as an update that comes too soon.
The same holds for the votes on a finalized budget. -/
theorem AddOrUpdateVote_same_txid_one_entry :
    ((smallProposal 20 0 VOTE_YES).AddOrUpdateVote smallEnv
        (exampleVote { hash := 5, n := 0 } 6 1000)).1 = true ∧
      (((smallProposal 20 0 VOTE_YES).AddOrUpdateVote smallEnv
          (exampleVote { hash := 5, n := 0 } 6 1000)).2.AddOrUpdateVote smallEnv
        (exampleVote { hash := 5, n := 1 } 6 4600)).1 = true ∧
      (((smallProposal 20 0 VOTE_YES).AddOrUpdateVote smallEnv
          (exampleVote { hash := 5, n := 0 } 6 1000)).2.AddOrUpdateVote smallEnv
        (exampleVote { hash := 5, n := 1 } 6 4600)).2.mapVotes
        = [(5, exampleVote { hash := 5, n := 1 } 6 4600)] ∧
      (((smallProposal 20 0 VOTE_YES).AddOrUpdateVote smallEnv
          (exampleVote { hash := 5, n := 0 } 6 1000)).2.AddOrUpdateVote smallEnv
        (exampleVote { hash := 5, n := 1 } 6 4600)).2.GetYeas = 1 ∧
      (((smallProposal 20 0 VOTE_YES).AddOrUpdateVote smallEnv
          (exampleVote { hash := 5, n := 0 } 6 1000)).2.AddOrUpdateVote smallEnv
        (exampleVote { hash := 5, n := 1 } 6 1000)).1 = false ∧
      ((smallBudget.AddOrUpdateVote smallEnv
          (exampleFinalizedVote { hash := 5, n := 0 } 3 1000)).2.AddOrUpdateVote smallEnv
        (exampleFinalizedVote { hash := 5, n := 1 } 3 4600)).1 = true ∧
      ((smallBudget.AddOrUpdateVote smallEnv
          (exampleFinalizedVote { hash := 5, n := 0 } 3 1000)).2.AddOrUpdateVote smallEnv
        (exampleFinalizedVote { hash := 5, n := 1 } 3 4600)).2.GetVoteCount = 1 := by
  decide

/-! ## Budget payments with few masternodes -/

namespace CBudgetManager

theorem highestCount_ge (h : Int) (l : List CFinalizedBudget) (a : Int) :
    a ≤ highestCount h l a ∧
      ∀ B ∈ l, B.GetBlockStart ≤ h → h ≤ B.GetBlockEnd → B.GetVoteCount ≤ highestCount h l a := by
  constructor
  · have h1 := (highestCount_gt h (a - 1) l a).2 (Or.inl (by omega))
    omega
  · intro B hB hs he
    have h1 := (highestCount_gt h (B.GetVoteCount - 1) l a).2
      (Or.inr ⟨B, hB, hs, he, by omega⟩)
    omega

theorem IsTransactionValidBudgets_skips (nCountThreshold : Int) (vout : List CTxOut)
    (nBlockHeight : Int) :
    ∀ (l : List CFinalizedBudget) (transactionStatus : TrxValidationStatus) (fThreshold : Bool)
      (mapPayment_History : StdMap Int),
      (∀ B ∈ l, B.GetBlockStart ≤ nBlockHeight → nBlockHeight ≤ B.GetBlockEnd →
        B.GetVoteCount ≤ nCountThreshold) →
      (IsTransactionValidBudgets nCountThreshold vout nBlockHeight l transactionStatus
        fThreshold mapPayment_History).1 = transactionStatus
  | [], _, _, _, _ => rfl
  | B :: rest, transactionStatus, fThreshold, mapPayment_History, hle => by
      have hrest : ∀ B2 ∈ rest, B2.GetBlockStart ≤ nBlockHeight → nBlockHeight ≤ B2.GetBlockEnd →
          B2.GetVoteCount ≤ nCountThreshold :=
        fun B2 hB2 => hle B2 (List.mem_cons_of_mem _ hB2)
      unfold IsTransactionValidBudgets
      by_cases h1 : B.GetVoteCount > nCountThreshold
      · rw [if_pos h1]
        by_cases h2 : nBlockHeight ≥ B.GetBlockStart ∧ nBlockHeight ≤ B.GetBlockEnd
        · have h3 := hle B (List.mem_cons_self _ _) h2.1 h2.2
          omega
        · rw [if_neg h2]
          exact IsTransactionValidBudgets_skips nCountThreshold vout nBlockHeight rest _ _ _ hrest
      · rw [if_neg h1]
        exact IsTransactionValidBudgets_skips nCountThreshold vout nBlockHeight rest _ _ _ hrest

/-- C28: if the enabled masternode count `N` is below 10,
`CBudgetManager::IsTransactionValid` never returns `Valid`: for every set of finalized
budgets, every transaction and every height the result is `InValid` or `VoteThreshold`.
For a count `0 <= N < 10` the threshold `nHighestCount - N / 10` equals the highest
in-range vote count `nHighestCount`, and no budget whose payments cover the height has
strictly more votes than that. -/
theorem IsTransactionValid_few_masternodes (env : Env)
    (mapFinalizedBudgets : List CFinalizedBudget) (mapPayment_History : StdMap Int)
    (vout : List CTxOut) (nBlockHeight : Int) (hlow : env.CountEnabled < 10) :
    ((IsTransactionValid env mapFinalizedBudgets mapPayment_History vout nBlockHeight).1
        = TrxValidationStatus.InValid ∨
      (IsTransactionValid env mapFinalizedBudgets mapPayment_History vout nBlockHeight).1
        = TrxValidationStatus.VoteThreshold) ∧
    (0 ≤ env.CountEnabled →
      highestCount nBlockHeight mapFinalizedBudgets 0 - env.CountEnabled.tdiv 10
        = highestCount nBlockHeight mapFinalizedBudgets 0) ∧
    (∀ B ∈ mapFinalizedBudgets, B.GetBlockStart ≤ nBlockHeight → nBlockHeight ≤ B.GetBlockEnd →
      B.GetVoteCount ≤ highestCount nBlockHeight mapFinalizedBudgets 0) := by
  have htenth : env.CountEnabled.tdiv 10 ≤ 0 := by
    by_cases h0 : 0 ≤ env.CountEnabled
    · rw [Int.tdiv_eq_zero_of_lt h0 hlow]
    · have h1 : env.CountEnabled = -(-env.CountEnabled) := by omega
      rw [h1, Int.neg_tdiv]
      have h2 : 0 ≤ (-env.CountEnabled).tdiv 10 := Int.tdiv_nonneg (by omega) (by decide)
      omega
  have hmax := (highestCount_ge nBlockHeight mapFinalizedBudgets 0).2
  refine ⟨?_, ?_, hmax⟩
  · unfold IsTransactionValid
    dsimp only
    by_cases h1 : highestCount nBlockHeight mapFinalizedBudgets 0 < env.CountEnabled.tdiv 20
    · rw [if_pos h1]
      exact Or.inl rfl
    rw [if_neg h1]
    have hskip := IsTransactionValidBudgets_skips
      (highestCount nBlockHeight mapFinalizedBudgets 0 - env.CountEnabled.tdiv 10) vout
      nBlockHeight mapFinalizedBudgets TrxValidationStatus.InValid false mapPayment_History
      (fun B hB hs he => by
        have := hmax B hB hs he
        omega)
    rw [hskip]
    simp only [reduceCtorEq, if_false]
    split
    · exact Or.inr rfl
    · exact Or.inl rfl
  · intro h0
    rw [Int.tdiv_eq_zero_of_lt h0 hlow]
    omega

/-- Witness for C28: nine enabled masternodes, a finalized budget with five votes whose
payment is in the block. -/
theorem IsTransactionValid_few_masternodes_witness :
    (IsTransactionValid { smallEnv with CountEnabled := 9 } [votedBudget [1] 20 5] []
        [{ nValue := 2000000000, scriptPubKey := [1] }] 100).1 = TrxValidationStatus.InValid ∨
      (IsTransactionValid { smallEnv with CountEnabled := 9 } [votedBudget [1] 20 5] []
        [{ nValue := 2000000000, scriptPubKey := [1] }] 100).1
        = TrxValidationStatus.VoteThreshold :=
  (IsTransactionValid_few_masternodes { smallEnv with CountEnabled := 9 }
    [votedBudget [1] 20 5] [] [{ nValue := 2000000000, scriptPubKey := [1] }] 100
    (by decide)).1

end CBudgetManager

/-! ## The tally of payees of a height -/

namespace StdIntMap

theorem lookup_assign_self {V : Type} (k : Int) (v : V) :
    ∀ m : StdIntMap V, List.lookup k (assign m k v) = some v
  | [] => by simp [assign, List.lookup]
  | (k1, v1) :: rest => by
      unfold assign
      by_cases h1 : k < k1
      · simp [h1, List.lookup]
      · by_cases h2 : k = k1
        · simp [h2, List.lookup]
        · have h3 : (k == k1) = false := by simpa using h2
          simp only [h1, h2, if_false, List.lookup, h3]
          exact lookup_assign_self k v rest

theorem lookup_assign_other {V : Type} (k k2 : Int) (v : V) (hne : k2 ≠ k) :
    ∀ m : StdIntMap V, List.lookup k2 (assign m k v) = List.lookup k2 m
  | [] => by
      have hb : (k2 == k) = false := by simpa using hne
      simp [assign, List.lookup, hb]
  | (k1, v1) :: rest => by
      have hb : (k2 == k) = false := by simpa using hne
      unfold assign
      by_cases h1 : k < k1
      · simp [h1, List.lookup, hb]
      · by_cases h2 : k = k1
        · subst h2
          simp [List.lookup, hb]
        · simp only [h1, h2, if_false, List.lookup]
          cases hk : (k2 == k1)
          · exact lookup_assign_other k k2 v hne rest
          · rfl

theorem lookup_erase_self {V : Type} (k : Int) :
    ∀ m : StdIntMap V, List.lookup k (erase m k) = none
  | [] => rfl
  | (k1, v1) :: rest => by
      unfold erase
      by_cases h : k1 = k
      · simp only [List.filter_cons, h, decide_True, Bool.not_true, Bool.false_eq_true, if_false]
        exact lookup_erase_self k rest
      · have hb : (k == k1) = false := by
          simpa using fun h2 : k = k1 => h h2.symm
        simp only [List.filter_cons, h, decide_False, Bool.not_false, if_true, List.lookup, hb]
        exact lookup_erase_self k rest

theorem lookup_erase_other {V : Type} (k k2 : Int) (hne : k2 ≠ k) :
    ∀ m : StdIntMap V, List.lookup k2 (erase m k) = List.lookup k2 m
  | [] => rfl
  | (k1, v1) :: rest => by
      unfold erase
      by_cases h : k1 = k
      · have hb : (k2 == k1) = false := by
          rw [h]
          simpa using hne
        simp only [List.filter_cons, h, decide_True, Bool.not_true, Bool.false_eq_true, if_false,
          List.lookup]
        rw [← h, hb]
        exact h ▸ lookup_erase_other k k2 hne rest
      · simp only [List.filter_cons, h, decide_False, Bool.not_false, if_true, List.lookup]
        cases hk : (k2 == k1)
        · exact lookup_erase_other k k2 hne rest
        · rfl

end StdIntMap

namespace CMasternodeBlockPayees

theorem votesOf_AddPayeeLoop_self (payeeIn : CScript) (nIncrement : Int) :
    ∀ l : List CMasternodePayee,
      votesOf payeeIn (AddPayeeLoop payeeIn nIncrement l) = votesOf payeeIn l + nIncrement
  | [] => by simp [AddPayeeLoop, votesOf]
  | payee :: rest => by
      unfold AddPayeeLoop
      by_cases h : payee.scriptPubKey = payeeIn
      · rw [if_pos h]
        simp only [votesOf, List.filter_cons, h, decide_True, if_true, List.map_cons,
          List.sum_cons]
        omega
      · rw [if_neg h]
        have ih := votesOf_AddPayeeLoop_self payeeIn nIncrement rest
        simp only [votesOf, List.filter_cons, h, decide_False, Bool.false_eq_true, if_false]
          at ih ⊢
        exact ih

theorem votesOf_AddPayeeLoop_other (payeeIn other : CScript) (nIncrement : Int)
    (hne : other ≠ payeeIn) :
    ∀ l : List CMasternodePayee,
      votesOf other (AddPayeeLoop payeeIn nIncrement l) = votesOf other l
  | [] => by
      have h : ¬ payeeIn = other := fun h => hne h.symm
      simp [AddPayeeLoop, votesOf, h]
  | payee :: rest => by
      unfold AddPayeeLoop
      by_cases h : payee.scriptPubKey = payeeIn
      · rw [if_pos h]
        have h2 : ¬ payee.scriptPubKey = other := fun h3 => hne (h3.symm.trans h)
        simp only [votesOf, List.filter_cons, h2, decide_False, Bool.false_eq_true, if_false]
      · rw [if_neg h]
        have ih := votesOf_AddPayeeLoop_other payeeIn other nIncrement hne rest
        by_cases h2 : payee.scriptPubKey = other
        · simp only [votesOf, List.filter_cons, h2, decide_True, if_true, List.map_cons,
            List.sum_cons] at ih ⊢
          rw [ih]
        · simp only [votesOf, List.filter_cons, h2, decide_False, Bool.false_eq_true, if_false]
            at ih ⊢
          exact ih

theorem sumVotes_AddPayeeLoop (payeeIn : CScript) (nIncrement : Int) :
    ∀ l : List CMasternodePayee,
      sumVotes (AddPayeeLoop payeeIn nIncrement l) = sumVotes l + nIncrement
  | [] => by simp [AddPayeeLoop, sumVotes]
  | payee :: rest => by
      unfold AddPayeeLoop
      by_cases h : payee.scriptPubKey = payeeIn
      · rw [if_pos h]
        simp only [sumVotes, List.map_cons, List.sum_cons]
        omega
      · rw [if_neg h]
        have ih := sumVotes_AddPayeeLoop payeeIn nIncrement rest
        simp only [sumVotes, List.map_cons, List.sum_cons] at ih ⊢
        omega

theorem scripts_AddPayeeLoop (payeeIn : CScript) (nIncrement : Int) :
    ∀ l : List CMasternodePayee,
      (AddPayeeLoop payeeIn nIncrement l).map (fun p => p.scriptPubKey)
        = if payeeIn ∈ l.map (fun p => p.scriptPubKey) then l.map (fun p => p.scriptPubKey)
          else l.map (fun p => p.scriptPubKey) ++ [payeeIn]
  | [] => by simp [AddPayeeLoop]
  | payee :: rest => by
      unfold AddPayeeLoop
      by_cases h : payee.scriptPubKey = payeeIn
      · rw [if_pos h]
        have hmem : payeeIn ∈ (payee :: rest).map (fun p => p.scriptPubKey) := by
          simp only [List.map_cons, h]
          exact List.mem_cons_self _ _
        rw [if_pos hmem]
        rfl
      · rw [if_neg h]
        have ih := scripts_AddPayeeLoop payeeIn nIncrement rest
        simp only [List.map_cons, ih, List.mem_cons]
        have h2 : ¬ payeeIn = payee.scriptPubKey := fun h3 => h h3.symm
        by_cases hmem : payeeIn ∈ rest.map (fun p => p.scriptPubKey)
        · simp only [hmem, or_true, if_true]
        · simp only [hmem, h2, or_self, if_false, List.cons_append]

end CMasternodeBlockPayees

namespace CMasternodePayments

theorem sumVotesAt_AddWinningMasternode (env : Env) (tip : CBlockIndexPtr)
    (state : BlockHashCache × StdMap CMasternodePaymentWinner × StdIntMap CMasternodeBlockPayees)
    (winnerIn : CMasternodePaymentWinner) (nBlockHeight : Int) :
    sumVotesAt (AddWinningMasternode env tip state winnerIn).2.2.2 nBlockHeight
      = sumVotesAt state.2.2 nBlockHeight
        + (if (AddWinningMasternode env tip state winnerIn).1 = true ∧
              winnerIn.nBlockHeight = nBlockHeight then 1 else 0) := by
  unfold AddWinningMasternode
  dsimp only
  by_cases h1 : (!(GetBlockHash state.1 0 (winnerIn.nBlockHeight - 100) tip).1) = true
  · rw [if_pos h1]
    simp
  rw [if_neg h1]
  by_cases h2 : StdMap.contains state.2.1 (winnerIn.GetHash env) = true
  · rw [if_pos h2]
    simp
  rw [if_neg h2]
  by_cases h3 : winnerIn.nBlockHeight = nBlockHeight
  · simp only [h3, and_self, if_true]
    unfold sumVotesAt
    rw [StdIntMap.lookup_assign_self]
    cases hl : List.lookup nBlockHeight state.2.2 with
    | none =>
        simp only [CMasternodeBlockPayees.AddPayee,
          CMasternodeBlockPayees.sumVotes_AddPayeeLoop]
        simp [CMasternodeBlockPayees.sumVotes]
    | some tally =>
        simp only [CMasternodeBlockPayees.AddPayee,
          CMasternodeBlockPayees.sumVotes_AddPayeeLoop]
  · simp only [h3, and_false, if_false, add_zero]
    unfold sumVotesAt
    rw [StdIntMap.lookup_assign_other _ _ _ (fun h => h3 h.symm)]

theorem sumVotesAt_AddWinningMasternodeCalls (env : Env) (tip : CBlockIndexPtr)
    (nBlockHeight : Int) :
    ∀ (calls : List CMasternodePaymentWinner)
      (state : BlockHashCache × StdMap CMasternodePaymentWinner ×
        StdIntMap CMasternodeBlockPayees),
      sumVotesAt (AddWinningMasternodeCalls env tip state calls).2.2.2 nBlockHeight
        = sumVotesAt state.2.2 nBlockHeight
          + acceptedFor nBlockHeight (AddWinningMasternodeCalls env tip state calls).1 calls
  | [], state => by simp [AddWinningMasternodeCalls, acceptedFor]
  | winnerIn :: rest, state => by
      have ih := sumVotesAt_AddWinningMasternodeCalls env tip nBlockHeight rest
        (AddWinningMasternode env tip state winnerIn).2
      have h1 := sumVotesAt_AddWinningMasternode env tip state winnerIn nBlockHeight
      simp only [AddWinningMasternodeCalls, acceptedFor]
      rw [ih, h1]
      omega

end CMasternodePayments

/-- C24: for every per-height tally, payee script `p` and increment `k`, after
`CMasternodeBlockPayees::AddPayee(p, k)` the vote count of `p` is its count before (0 if
absent) plus `k`, the count of every other payee is unchanged, and payee scripts that
were pairwise distinct before the call are pairwise distinct after it.  After any
sequence of `AddWinningMasternode` calls that starts with empty maps, the sum of the
counts at a height equals the number of accepted votes for that height. -/
theorem AddPayee_counts (self : CMasternodeBlockPayees) (p : CScript) (k : Int) (env : Env)
    (tip : CBlockIndexPtr) (cache : BlockHashCache) (calls : List CMasternodePaymentWinner)
    (nBlockHeight : Int) :
    CMasternodeBlockPayees.votesOf p (self.AddPayee p k).vecPayments
        = CMasternodeBlockPayees.votesOf p self.vecPayments + k ∧
      (p ∉ self.vecPayments.map (fun payee => payee.scriptPubKey) →
        CMasternodeBlockPayees.votesOf p self.vecPayments = 0) ∧
      (∀ other, other ≠ p →
        CMasternodeBlockPayees.votesOf other (self.AddPayee p k).vecPayments
          = CMasternodeBlockPayees.votesOf other self.vecPayments) ∧
      ((self.vecPayments.map (fun payee => payee.scriptPubKey)).Nodup →
        ((self.AddPayee p k).vecPayments.map (fun payee => payee.scriptPubKey)).Nodup) ∧
      CMasternodePayments.sumVotesAt
          (CMasternodePayments.AddWinningMasternodeCalls env tip (cache, [], []) calls).2.2.2
          nBlockHeight
        = CMasternodePayments.acceptedFor nBlockHeight
          (CMasternodePayments.AddWinningMasternodeCalls env tip (cache, [], []) calls).1
          calls := by
  refine ⟨CMasternodeBlockPayees.votesOf_AddPayeeLoop_self p k _, ?_,
    fun other hne => CMasternodeBlockPayees.votesOf_AddPayeeLoop_other p other k hne _, ?_, ?_⟩
  · intro hnot
    unfold CMasternodeBlockPayees.votesOf
    have hnil : self.vecPayments.filter (fun q => decide (q.scriptPubKey = p)) = [] := by
      rw [List.filter_eq_nil_iff]
      intro q hq
      simp only [decide_eq_true_eq]
      intro hqp
      exact hnot (List.mem_map.2 ⟨q, hq, hqp⟩)
    rw [hnil]
    rfl
  · intro hnodup
    show ((CMasternodeBlockPayees.AddPayeeLoop p k self.vecPayments).map
      (fun payee => payee.scriptPubKey)).Nodup
    rw [CMasternodeBlockPayees.scripts_AddPayeeLoop]
    by_cases hmem : p ∈ self.vecPayments.map (fun payee => payee.scriptPubKey)
    · rw [if_pos hmem]
      exact hnodup
    · rw [if_neg hmem]
      rw [List.nodup_append]
      refine ⟨hnodup, List.nodup_singleton _, ?_⟩
      intro a ha hb
      rw [List.mem_singleton] at hb
      exact hmem (hb ▸ ha)
  · have h := CMasternodePayments.sumVotesAt_AddWinningMasternodeCalls env tip nBlockHeight
      calls (cache, [], [])
    rw [h]
    simp [CMasternodePayments.sumVotesAt]

/-! ## The masternode payment in a proof-of-stake block -/

theorem subValueAt_length : ∀ (vout : List CTxOut) (j : Nat) (nAmount : Int),
    (subValueAt vout j nAmount).length = vout.length
  | [], _, _ => rfl
  | _ :: _, 0, _ => rfl
  | out :: rest, j + 1, nAmount => by
      simp only [subValueAt, List.length_cons, subValueAt_length rest j nAmount]

theorem subValueAt_getElem? : ∀ (vout : List CTxOut) (j : Nat) (nAmount : Int) (i : Nat),
    (subValueAt vout j nAmount)[i]?
      = if i = j then (vout[i]?).map (fun out => { out with nValue := out.nValue - nAmount })
        else vout[i]?
  | [], _, _, _ => by simp [subValueAt]
  | out :: rest, 0, nAmount, 0 => by simp [subValueAt]
  | out :: rest, 0, nAmount, i + 1 => by simp [subValueAt]
  | out :: rest, j + 1, nAmount, 0 => by simp [subValueAt]
  | out :: rest, j + 1, nAmount, i + 1 => by
      simp only [subValueAt, List.getElem?_cons_succ, subValueAt_getElem? rest j nAmount i,
        Nat.add_right_cancel_iff]

theorem subValueAt_sum : ∀ (vout : List CTxOut) (j : Nat) (nAmount : Int), j < vout.length →
    ((subValueAt vout j nAmount).map (fun out => out.nValue)).sum
      = (vout.map (fun out => out.nValue)).sum - nAmount
  | [], _, _, h => absurd h (by simp)
  | out :: rest, 0, nAmount, _ => by
      simp only [subValueAt, List.map_cons, List.sum_cons]
      omega
  | out :: rest, j + 1, nAmount, h => by
      have ih := subValueAt_sum rest j nAmount (by simpa using h)
      simp only [subValueAt, List.map_cons, List.sum_cons, ih]
      omega

theorem splitLoop_length (mnPaymentSplit : Int) : ∀ (count j : Nat) (vout : List CTxOut),
    (splitLoop mnPaymentSplit count j vout).length = vout.length
  | 0, _, _ => rfl
  | count + 1, j, vout => by
      simp only [splitLoop, splitLoop_length mnPaymentSplit count (j + 1), subValueAt_length]

theorem splitLoop_getElem? (mnPaymentSplit : Int) :
    ∀ (count j : Nat) (vout : List CTxOut) (i : Nat),
      (splitLoop mnPaymentSplit count j vout)[i]?
        = if j ≤ i ∧ i < j + count then
            (vout[i]?).map (fun out => { out with nValue := out.nValue - mnPaymentSplit })
          else vout[i]?
  | 0, j, vout, i => by
      have h : ¬ (j ≤ i ∧ i < j + 0) := by omega
      simp only [splitLoop, if_neg h]
  | count + 1, j, vout, i => by
      simp only [splitLoop, splitLoop_getElem? mnPaymentSplit count (j + 1), subValueAt_getElem?]
      by_cases h1 : i = j
      · have h2 : ¬ (j + 1 ≤ i ∧ i < j + 1 + count) := by omega
        have h3 : j ≤ i ∧ i < j + (count + 1) := by omega
        rw [if_neg h2, if_pos h1, if_pos h3]
      · rw [if_neg h1]
        by_cases h2 : j + 1 ≤ i ∧ i < j + 1 + count
        · have h3 : j ≤ i ∧ i < j + (count + 1) := by omega
          rw [if_pos h2, if_pos h3]
        · have h3 : ¬ (j ≤ i ∧ i < j + (count + 1)) := by omega
          rw [if_neg h2, if_neg h3]

theorem splitLoop_sum (mnPaymentSplit : Int) : ∀ (count j : Nat) (vout : List CTxOut),
    j + count ≤ vout.length →
    ((splitLoop mnPaymentSplit count j vout).map (fun out => out.nValue)).sum
      = (vout.map (fun out => out.nValue)).sum - (count : Int) * mnPaymentSplit
  | 0, _, _, _ => by simp [splitLoop]
  | count + 1, j, vout, h => by
      have ih := splitLoop_sum mnPaymentSplit count (j + 1) (subValueAt vout j mnPaymentSplit)
        (by rw [subValueAt_length]; omega)
      simp only [splitLoop, ih, subValueAt_sum vout j mnPaymentSplit (by omega)]
      push_cast
      ring

namespace CMasternodePayments

theorem FillBlockPayee_pos (env : PaymentEnv)
    (mapMasternodeBlocks : StdIntMap CMasternodeBlockPayees) (pindexPrev : CBlockIndex)
    (vout : List CTxOut) (P : Int)
    (hP : P = env.GetMasternodePayment (pindexPrev.nHeight + 1)
      (env.GetBlockSubsidy (pindexPrev.nHeight + 1) true))
    (hpayee : (GetBlockPayee mapMasternodeBlocks (pindexPrev.nHeight + 1) []).1 = true ∨
      env.GetCurrentMasterNode.isSome = true)
    (hn : 2 ≤ vout.length) :
    ∃ payee : CScript,
      FillBlockPayee env mapMasternodeBlocks (some pindexPrev) vout true
        = if vout.length = 2 then
            subValueAt (vout ++ [{ nValue := P, scriptPubKey := payee }]) 1 P
          else
            subValueAt
              (splitLoop (P.tdiv ((vout.length - 1 : Nat) : Int)) (vout.length - 1) 1
                (vout ++ [{ nValue := P, scriptPubKey := payee }]))
              (vout.length - 1)
              (P - P.tdiv ((vout.length - 1 : Nat) : Int) * ((vout.length - 1 : Nat) : Int)) := by
  subst hP
  have hwinner : ∃ payee : CScript,
      (if (!(GetBlockPayee mapMasternodeBlocks (pindexPrev.nHeight + 1) []).1) = true then
          (match env.GetCurrentMasterNode with
            | some script => (true, script)
            | none => (false, (GetBlockPayee mapMasternodeBlocks (pindexPrev.nHeight + 1) []).2))
        else (true, (GetBlockPayee mapMasternodeBlocks (pindexPrev.nHeight + 1) []).2))
        = ((true, payee) : Bool × CScript) := by
    cases hf : (GetBlockPayee mapMasternodeBlocks (pindexPrev.nHeight + 1) []).1 with
    | true =>
        exact ⟨(GetBlockPayee mapMasternodeBlocks (pindexPrev.nHeight + 1) []).2, by simp⟩
    | false =>
        rw [hf] at hpayee
        cases hc : env.GetCurrentMasterNode with
        | none =>
            rw [hc] at hpayee
            simp at hpayee
        | some script => exact ⟨script, by simp⟩
  obtain ⟨payee, hw⟩ := hwinner
  refine ⟨payee, ?_⟩
  unfold FillBlockPayee
  simp only [hw, if_true]
  by_cases h2 : vout.length = 2
  · rw [if_pos h2, if_pos h2]
    simp [h2]
  · have h3 : vout.length > 2 := by omega
    rw [if_neg h2, if_neg h2, if_pos h3]

end CMasternodePayments

/-- C30: in the proof-of-stake branch of `CMasternodePayments::FillBlockPayee` with a
payee found and a coinstake that already has `n >= 2` outputs, the masternode payment
`P` is appended as one new last output of value `P`, and exactly `P` is subtracted from
the stake outputs `1..n-1`: all from output 1 when `n = 2`; `P / (n - 1)` (the truncating
quotient, which is the floor for `P >= 0`) from each, plus the remainder
`P - (n - 1) * (P / (n - 1))` from the last, when `n > 2`.  The sum of all output values
is unchanged, and output 0 and all scripts are untouched. -/
theorem FillBlockPayee_pos_split (env : PaymentEnv)
    (mapMasternodeBlocks : StdIntMap CMasternodeBlockPayees) (pindexPrev : CBlockIndex)
    (vout : List CTxOut) (P : Int)
    (hP : P = env.GetMasternodePayment (pindexPrev.nHeight + 1)
      (env.GetBlockSubsidy (pindexPrev.nHeight + 1) true))
    (hpayee : (CMasternodePayments.GetBlockPayee mapMasternodeBlocks (pindexPrev.nHeight + 1)
        []).1 = true ∨ env.GetCurrentMasterNode.isSome = true)
    (hn : 2 ≤ vout.length) :
    (CMasternodePayments.FillBlockPayee env mapMasternodeBlocks (some pindexPrev) vout
        true).length = vout.length + 1 ∧
    (∃ payee : CScript,
      (CMasternodePayments.FillBlockPayee env mapMasternodeBlocks (some pindexPrev) vout
        true)[vout.length]? = some { nValue := P, scriptPubKey := payee }) ∧
    (CMasternodePayments.FillBlockPayee env mapMasternodeBlocks (some pindexPrev) vout true)[0]?
      = vout[0]? ∧
    (((CMasternodePayments.FillBlockPayee env mapMasternodeBlocks (some pindexPrev) vout
        true).map (fun out => out.nValue)).sum = (vout.map (fun out => out.nValue)).sum) ∧
    (vout.length = 2 →
      (CMasternodePayments.FillBlockPayee env mapMasternodeBlocks (some pindexPrev) vout true)[1]?
        = (vout[1]?).map (fun out => { out with nValue := out.nValue - P })) ∧
    (vout.length > 2 →
      (∀ j, 1 ≤ j → j < vout.length - 1 →
        (CMasternodePayments.FillBlockPayee env mapMasternodeBlocks (some pindexPrev) vout
            true)[j]?
          = (vout[j]?).map (fun out =>
              { out with nValue := out.nValue - P.tdiv ((vout.length - 1 : Nat) : Int) })) ∧
      (CMasternodePayments.FillBlockPayee env mapMasternodeBlocks (some pindexPrev) vout
          true)[vout.length - 1]?
        = (vout[vout.length - 1]?).map (fun out =>
            { out with nValue := out.nValue - P.tdiv ((vout.length - 1 : Nat) : Int)
                - (P - ((vout.length - 1 : Nat) : Int)
                    * P.tdiv ((vout.length - 1 : Nat) : Int)) })) ∧
    (0 ≤ P → P.tdiv ((vout.length - 1 : Nat) : Int) = P / ((vout.length - 1 : Nat) : Int)) := by
  obtain ⟨payee, heq⟩ := CMasternodePayments.FillBlockPayee_pos env mapMasternodeBlocks
    pindexPrev vout P hP hpayee hn
  rw [heq]
  have hlen1 : (vout ++ [({ nValue := P, scriptPubKey := payee } : CTxOut)]).length
      = vout.length + 1 := by simp
  have hsum1 : ((vout ++ [({ nValue := P, scriptPubKey := payee } : CTxOut)]).map
      (fun out => out.nValue)).sum = (vout.map (fun out => out.nValue)).sum + P := by simp
  have hlast : (vout ++ [({ nValue := P, scriptPubKey := payee } : CTxOut)])[vout.length]?
      = some { nValue := P, scriptPubKey := payee } := by
    rw [List.getElem?_append_right (Nat.le_refl _)]
    simp
  have hfront : ∀ i, i < vout.length →
      (vout ++ [({ nValue := P, scriptPubKey := payee } : CTxOut)])[i]? = vout[i]? :=
    fun i hi => List.getElem?_append_left hi
  by_cases h2 : vout.length = 2
  · rw [if_pos h2]
    refine ⟨?_, ⟨payee, ?_⟩, ?_, ?_, ?_, ?_, ?_⟩
    · rw [subValueAt_length, hlen1]
    · rw [subValueAt_getElem?, if_neg (by omega), hlast]
    · rw [subValueAt_getElem?, if_neg (by omega), hfront 0 (by omega)]
    · rw [subValueAt_sum _ _ _ (by rw [hlen1]; omega), hsum1]
      omega
    · intro _
      rw [subValueAt_getElem?, if_pos rfl, hfront 1 (by omega)]
    · intro h3
      omega
    · intro h0
      exact Int.tdiv_eq_ediv h0 (by omega)
  · have h3 : vout.length > 2 := by omega
    rw [if_neg h2]
    refine ⟨?_, ⟨payee, ?_⟩, ?_, ?_, ?_, ?_, ?_⟩
    · rw [subValueAt_length, splitLoop_length, hlen1]
    · rw [subValueAt_getElem?, if_neg (by omega), splitLoop_getElem?, if_neg (by omega), hlast]
    · rw [subValueAt_getElem?, if_neg (by omega), splitLoop_getElem?, if_neg (by omega),
        hfront 0 (by omega)]
    · rw [subValueAt_sum _ _ _ (by rw [splitLoop_length, hlen1]; omega),
        splitLoop_sum _ _ _ _ (by rw [hlen1]; omega), hsum1]
      ring
    · intro h4
      omega
    · intro _
      constructor
      · intro j hj1 hj2
        rw [subValueAt_getElem?, if_neg (by omega), splitLoop_getElem?, if_pos (by omega),
          hfront j (by omega)]
      · rw [subValueAt_getElem?, if_pos rfl, splitLoop_getElem?, if_pos (by omega),
          hfront _ (by omega)]
        cases vout[vout.length - 1]? with
        | none => rfl
        | some out =>
            simp only [Option.map_some']
            congr 2
            ring
    · intro h0
      exact Int.tdiv_eq_ediv h0 (by omega)

/-- Witness for C30: a coinstake with the empty output 0 and three stake outputs of 50,
and a masternode payment of 10: 3 is taken from each stake output and the remainder 1
from the last. -/
theorem FillBlockPayee_pos_split_witness :
    CMasternodePayments.FillBlockPayee examplePaymentEnv [] (some ⟨99⟩)
        [{ nValue := 0, scriptPubKey := [] }, { nValue := 50, scriptPubKey := [1] },
         { nValue := 50, scriptPubKey := [2] }, { nValue := 50, scriptPubKey := [3] }] true
      = [{ nValue := 0, scriptPubKey := [] }, { nValue := 47, scriptPubKey := [1] },
         { nValue := 47, scriptPubKey := [2] }, { nValue := 46, scriptPubKey := [3] },
         { nValue := 10, scriptPubKey := [9] }] ∧
      ((CMasternodePayments.FillBlockPayee examplePaymentEnv [] (some ⟨99⟩)
          [{ nValue := 0, scriptPubKey := [] }, { nValue := 50, scriptPubKey := [1] },
           { nValue := 50, scriptPubKey := [2] }, { nValue := 50, scriptPubKey := [3] }]
          true).map (fun out => out.nValue)).sum
        = (([{ nValue := 0, scriptPubKey := [] }, { nValue := 50, scriptPubKey := [1] },
             { nValue := 50, scriptPubKey := [2] }, { nValue := 50, scriptPubKey := [3] }] :
            List CTxOut).map (fun out => out.nValue)).sum :=
  ⟨by decide,
   (FillBlockPayee_pos_split examplePaymentEnv [] ⟨99⟩
      [{ nValue := 0, scriptPubKey := [] }, { nValue := 50, scriptPubKey := [1] },
       { nValue := 50, scriptPubKey := [2] }, { nValue := 50, scriptPubKey := [3] }] 10 rfl
      (Or.inr rfl) (by decide)).2.2.2.1⟩

/-! ## Cleaning the payment votes -/

namespace CMasternodePayments

theorem CleanPaymentListLoop_votes (nHeight limit : Int) :
    ∀ (votes : StdMap CMasternodePaymentWinner) (blocks : StdIntMap CMasternodeBlockPayees),
      (CleanPaymentListLoop nHeight limit votes blocks).1
        = votes.filter (fun e => !decide (nHeight - e.2.nBlockHeight > limit))
  | [], _ => rfl
  | (k, winner) :: rest, blocks => by
      unfold CleanPaymentListLoop
      by_cases h : nHeight - winner.nBlockHeight > limit
      · rw [if_pos h]
        simp only [List.filter_cons, h, decide_True, Bool.not_true, Bool.false_eq_true, if_false]
        exact CleanPaymentListLoop_votes nHeight limit rest _
      · rw [if_neg h]
        simp only [List.filter_cons, h, decide_False, Bool.not_false, if_true]
        rw [CleanPaymentListLoop_votes nHeight limit rest blocks]

theorem CleanPaymentListLoop_none (nHeight limit : Int) (b : Int) :
    ∀ (votes : StdMap CMasternodePaymentWinner) (blocks : StdIntMap CMasternodeBlockPayees),
      List.lookup b blocks = none →
      List.lookup b (CleanPaymentListLoop nHeight limit votes blocks).2 = none
  | [], _, h => h
  | (k, winner) :: rest, blocks, hnone => by
      unfold CleanPaymentListLoop
      by_cases h : nHeight - winner.nBlockHeight > limit
      · rw [if_pos h]
        apply CleanPaymentListLoop_none nHeight limit b rest
        by_cases hb : b = winner.nBlockHeight
        · rw [hb]
          exact StdIntMap.lookup_erase_self _ _
        · rw [StdIntMap.lookup_erase_other _ _ hb]
          exact hnone
      · rw [if_neg h]
        exact CleanPaymentListLoop_none nHeight limit b rest blocks hnone

theorem CleanPaymentListLoop_purged (nHeight limit : Int) (b : Int) :
    ∀ (votes : StdMap CMasternodePaymentWinner) (blocks : StdIntMap CMasternodeBlockPayees),
      (∃ e ∈ votes, nHeight - e.2.nBlockHeight > limit ∧ e.2.nBlockHeight = b) →
      List.lookup b (CleanPaymentListLoop nHeight limit votes blocks).2 = none
  | [], _, h => by
      obtain ⟨e, he, _⟩ := h
      exact absurd he (List.not_mem_nil e)
  | (k, winner) :: rest, blocks, hex => by
      unfold CleanPaymentListLoop
      by_cases h : nHeight - winner.nBlockHeight > limit
      · rw [if_pos h]
        by_cases hb : winner.nBlockHeight = b
        · apply CleanPaymentListLoop_none nHeight limit b rest
          rw [hb]
          exact StdIntMap.lookup_erase_self _ _
        · obtain ⟨e, he, hold, heb⟩ := hex
          rcases List.mem_cons.1 he with h1 | h1
          · rw [h1] at heb
            exact absurd heb hb
          · exact CleanPaymentListLoop_purged nHeight limit b rest _ ⟨e, h1, hold, heb⟩
      · rw [if_neg h]
        obtain ⟨e, he, hold, heb⟩ := hex
        rcases List.mem_cons.1 he with h1 | h1
        · rw [h1] at hold
          exact absurd hold h
        · exact CleanPaymentListLoop_purged nHeight limit b rest blocks ⟨e, h1, hold, heb⟩

theorem CleanPaymentListLoop_kept (nHeight limit : Int) (b : Int) :
    ∀ (votes : StdMap CMasternodePaymentWinner) (blocks : StdIntMap CMasternodeBlockPayees),
      (∀ e ∈ votes, nHeight - e.2.nBlockHeight > limit → e.2.nBlockHeight ≠ b) →
      List.lookup b (CleanPaymentListLoop nHeight limit votes blocks).2 = List.lookup b blocks
  | [], _, _ => rfl
  | (k, winner) :: rest, blocks, hall => by
      have hrest : ∀ e ∈ rest, nHeight - e.2.nBlockHeight > limit → e.2.nBlockHeight ≠ b :=
        fun e he => hall e (List.mem_cons_of_mem _ he)
      unfold CleanPaymentListLoop
      by_cases h : nHeight - winner.nBlockHeight > limit
      · rw [if_pos h]
        have hb : b ≠ winner.nBlockHeight :=
          fun h2 => hall (k, winner) (List.mem_cons_self _ _) h h2.symm
        rw [CleanPaymentListLoop_kept nHeight limit b rest _ hrest,
          StdIntMap.lookup_erase_other _ _ hb]
      · rw [if_neg h]
        exact CleanPaymentListLoop_kept nHeight limit b rest blocks hrest

/-- C23, as the code has it: after `CMasternodePayments::CleanPaymentList` has got the
lock and found the tip at height `H`, with `N = mnodeman.size()` and the limit
`L = max(floor(1.25 * N), 1000)`, every stored payment vote whose target height `b`
satisfies `H - b > L` has been purged from `mapMasternodePayeeVotes` together with the
per-height tally of `b`, and every vote with `H - b <= L` is retained together with the
tally of its height; no vote is added.  When the lock is not acquired or the chain has
no tip, the call leaves both maps as they are. -/
theorem CleanPaymentList_window (pindex : CBlockIndex) (mnodemanSize : Int)
    (mapMasternodePayeeVotes : StdMap CMasternodePaymentWinner)
    (mapMasternodeBlocks : StdIntMap CMasternodeBlockPayees) :
    (0 ≤ mnodemanSize → nLimit mnodemanSize = max (mnodemanSize * 5 / 4) 1000) ∧
    (∀ e ∈ mapMasternodePayeeVotes,
      pindex.nHeight - e.2.nBlockHeight > nLimit mnodemanSize →
        e ∉ (CleanPaymentList true (some pindex) mnodemanSize mapMasternodePayeeVotes
            mapMasternodeBlocks).1 ∧
        List.lookup e.2.nBlockHeight
          (CleanPaymentList true (some pindex) mnodemanSize mapMasternodePayeeVotes
            mapMasternodeBlocks).2 = none) ∧
    (∀ e ∈ mapMasternodePayeeVotes,
      pindex.nHeight - e.2.nBlockHeight ≤ nLimit mnodemanSize →
        e ∈ (CleanPaymentList true (some pindex) mnodemanSize mapMasternodePayeeVotes
            mapMasternodeBlocks).1 ∧
        List.lookup e.2.nBlockHeight
          (CleanPaymentList true (some pindex) mnodemanSize mapMasternodePayeeVotes
            mapMasternodeBlocks).2 = List.lookup e.2.nBlockHeight mapMasternodeBlocks) ∧
    (∀ e ∈ (CleanPaymentList true (some pindex) mnodemanSize mapMasternodePayeeVotes
        mapMasternodeBlocks).1, e ∈ mapMasternodePayeeVotes) ∧
    (∀ tip : Option CBlockIndex,
      CleanPaymentList false tip mnodemanSize mapMasternodePayeeVotes mapMasternodeBlocks
        = (mapMasternodePayeeVotes, mapMasternodeBlocks)) ∧
    (∀ locked : Bool,
      CleanPaymentList locked none mnodemanSize mapMasternodePayeeVotes mapMasternodeBlocks
        = (mapMasternodePayeeVotes, mapMasternodeBlocks)) := by
  have hclean : CleanPaymentList true (some pindex) mnodemanSize mapMasternodePayeeVotes
      mapMasternodeBlocks
      = CleanPaymentListLoop pindex.nHeight (nLimit mnodemanSize) mapMasternodePayeeVotes
          mapMasternodeBlocks := rfl
  rw [hclean, CleanPaymentListLoop_votes]
  refine ⟨?_, ?_, ?_, ?_, fun _ => rfl, fun locked => by cases locked <;> rfl⟩
  · intro h0
    unfold nLimit
    rw [Int.tdiv_eq_ediv (by omega) (by decide)]
  · intro e he hold
    constructor
    · intro hmem
      have h2 := (List.mem_filter.1 hmem).2
      simp only [hold, decide_True, Bool.not_true, Bool.false_eq_true] at h2
    · exact CleanPaymentListLoop_purged _ _ _ _ _ ⟨e, he, hold, rfl⟩
  · intro e he hin
    constructor
    · apply List.mem_filter.2
      refine ⟨he, ?_⟩
      have h2 : ¬ pindex.nHeight - e.2.nBlockHeight > nLimit mnodemanSize := by omega
      simp only [h2, decide_False, Bool.not_false]
    · apply CleanPaymentListLoop_kept
      intro e2 _ hold2 heq
      rw [heq] at hold2
      omega
  · intro e he
    exact (List.mem_filter.1 he).1

set_option maxRecDepth 100000 in
/-- C23 as stated fails: with 10 masternodes, `floor(1.25 * 10) = 12`, and the tip at
height 2000, the vote for the height 1900 is 100 blocks old and stays, with the tally of
its height, because the limit is 1000. -/
theorem CleanPaymentList_keeps_within_1000 :
    (2000 : Int) - (exampleWinner 1900).nBlockHeight > (10 * 5 : Int) / 4 ∧
      CleanPaymentList true (some ⟨2000⟩) 10 [(1, exampleWinner 1900)]
          [(1900, { nBlockHeight := 1900, vecPayments := [{ scriptPubKey := [1], nVotes := 1 }] })]
        = ([(1, exampleWinner 1900)],
           [(1900, { nBlockHeight := 1900,
                     vecPayments := [{ scriptPubKey := [1], nVotes := 1 }] })]) := by
  decide

end CMasternodePayments

/-! ## The block hash of a height -/

theorem isChainFrom_length : ∀ (chain : CBlockIndexPtr) (t : Int),
    isChainFrom t chain = true → t + 1 = (chain.length : Int)
  | [], _, h => by simp [isChainFrom] at h
  | [genesis], t, h => by
      simp only [isChainFrom, Bool.and_eq_true, decide_eq_true_eq] at h
      simp only [List.length_singleton, Nat.cast_one]
      omega
  | entry :: pprev :: rest, t, h => by
      simp only [isChainFrom, Bool.and_eq_true, decide_eq_true_eq] at h
      have ih := isChainFrom_length (pprev :: rest) (t - 1) h.2
      simp only [List.length_cons, Nat.cast_add, Nat.cast_one] at ih ⊢
      omega

theorem isChainFrom_head : ∀ (entry : CBlockIndexEntry) (rest : CBlockIndexPtr) (t : Int),
    isChainFrom t (entry :: rest) = true → entry.nHeight = t
  | entry, [], t, h => by
      simp only [isChainFrom, Bool.and_eq_true, decide_eq_true_eq] at h
      exact h.1
  | entry, pprev :: rest, t, h => by
      simp only [isChainFrom, Bool.and_eq_true, decide_eq_true_eq] at h
      exact h.1

theorem GetBlockHashLoop_chain (nBlocksAgo : Int) :
    ∀ (chain : CBlockIndexPtr) (t n : Int), isChainFrom t chain = true → n ≤ nBlocksAgo →
      (nBlocksAgo - n < t →
        ∃ found, blockHashAt (t - (nBlocksAgo - n)) chain = some found ∧
          GetBlockHashLoop nBlocksAgo n chain = some found) ∧
      (t ≤ nBlocksAgo - n → GetBlockHashLoop nBlocksAgo n chain = none)
  | [], _, _, h, _ => by simp [isChainFrom] at h
  | [genesis], t, n, h, hn => by
      simp only [isChainFrom, Bool.and_eq_true, decide_eq_true_eq] at h
      have hg : ¬ genesis.nHeight > 0 := by omega
      constructor
      · intro hd
        omega
      · intro _
        unfold GetBlockHashLoop
        rw [if_neg hg]
  | entry :: pprev :: rest, t, n, h, hn => by
      have hlen := isChainFrom_length _ _ h
      simp only [isChainFrom, Bool.and_eq_true, decide_eq_true_eq] at h
      simp only [List.length_cons, Nat.cast_add, Nat.cast_one] at hlen
      have ht : entry.nHeight > 0 := by omega
      have ih := GetBlockHashLoop_chain nBlocksAgo (pprev :: rest) (t - 1) (n + 1) h.2
      unfold GetBlockHashLoop
      rw [if_pos ht]
      by_cases hge : n ≥ nBlocksAgo
      · rw [if_pos hge]
        have hd : nBlocksAgo - n = 0 := by omega
        constructor
        · intro _
          refine ⟨entry.hashBlock, ?_, rfl⟩
          unfold blockHashAt
          rw [List.find?_cons]
          have hdec : decide (entry.nHeight = t - (nBlocksAgo - n)) = true := by
            simp only [decide_eq_true_eq]
            omega
          rw [hdec]
          rfl
        · intro h2
          omega
      · rw [if_neg hge]
        have ih2 := ih (by omega)
        constructor
        · intro hd
          obtain ⟨found, hf1, hf2⟩ := ih2.1 (by omega)
          refine ⟨found, ?_, hf2⟩
          unfold blockHashAt at hf1 ⊢
          rw [List.find?_cons]
          have hdec : decide (entry.nHeight = t - (nBlocksAgo - n)) = false := by
            simp only [decide_eq_false_iff_not]
            omega
          rw [hdec]
          have harg : t - 1 - (nBlocksAgo - (n + 1)) = t - (nBlocksAgo - n) := by omega
          rw [harg] at hf1
          exact hf1
        · intro hd
          exact ih2.2 (by omega)

/-- C25, as the code has it: for every chain whose tip is at height `T >= 1`,
`GetBlockHash(hash, h, tip)`, started with an empty cache, returns true for every height
`h` with `2 <= h <= T + 1` and sets `hash` to the hash of the ancestor of the tip at
height `h - 1`, which it caches under `h`; for `h = 1` it returns false and leaves `hash`
as it was. -/
theorem GetBlockHash_previous_block (chain : CBlockIndexPtr) (T : Int) (hash : Nat) (h : Int)
    (hchain : isChainFrom T chain = true) (hT : 1 ≤ T) :
    (2 ≤ h → h ≤ T + 1 →
      ∃ found, blockHashAt (h - 1) chain = some found ∧
        GetBlockHash [] hash h chain = (true, found, [(h, found)])) ∧
    GetBlockHash [] hash 1 chain = (false, hash, []) := by
  cases chain with
  | nil => simp [isChainFrom] at hchain
  | cons tip rest =>
      have htip := isChainFrom_head tip rest T hchain
      constructor
      · intro h2 hle
        have hloop := (GetBlockHashLoop_chain (tip.nHeight + 1 - h) (tip :: rest) T 0 hchain
          (by omega)).1 (by omega)
        obtain ⟨found, hf1, hf2⟩ := hloop
        have harg : T - (tip.nHeight + 1 - h - 0) = h - 1 := by omega
        rw [harg] at hf1
        refine ⟨found, hf1, ?_⟩
        unfold GetBlockHash
        have h0 : ¬ h = 0 := by omega
        have hcond : ¬ (tip.nHeight = 0 ∨ tip.nHeight + 1 < h) := by omega
        have hpos : h > 0 := by omega
        simp only [if_neg h0, List.lookup, if_neg hcond, if_pos hpos, hf2]
        rfl
      · have hloop := (GetBlockHashLoop_chain (tip.nHeight + 1 - 1) (tip :: rest) T 0 hchain
          (by omega)).2 (by omega)
        unfold GetBlockHash
        have h0 : ¬ (1 : Int) = 0 := by omega
        have hcond : ¬ (tip.nHeight = 0 ∨ tip.nHeight + 1 < 1) := by omega
        have hpos : (1 : Int) > 0 := by omega
        simp only [if_neg h0, List.lookup, if_neg hcond, if_pos hpos, hloop]

/-- Witness for C25: the chain of four blocks and the height 3. -/
theorem GetBlockHash_previous_block_witness :
    ∃ found, blockHashAt (3 - 1) exampleChainFromGenesis = some found ∧
      GetBlockHash [] 0 3 exampleChainFromGenesis = (true, found, [(3, found)]) :=
  (GetBlockHash_previous_block exampleChainFromGenesis 3 0 3 (by decide) (by decide)).1
    (by decide) (by decide)

/-- C25 as stated fails: on the chain of four blocks, with an empty cache,
`GetBlockHash(hash, 3, tip)` gives the hash 102 of the block of height 2, not the hash
103 of the block of height 3, and `GetBlockHash(hash, 1, tip)` returns false although
the block of height 1 is an ancestor of the tip. -/
theorem GetBlockHash_off_by_one :
    isChainFrom 3 exampleChainFromGenesis = true ∧
      GetBlockHash [] 0 3 exampleChainFromGenesis = (true, 102, [(3, 102)]) ∧
      blockHashAt 3 exampleChainFromGenesis = some 103 ∧
      GetBlockHash [] 0 1 exampleChainFromGenesis = (false, 0, []) ∧
      blockHashAt 1 exampleChainFromGenesis = some 101 := by
  decide

/-! ## The collateral lookup -/

/-- C26, the code where the lookup fails: for every collateral hash for which
`node::GetTransaction` finds no transaction, `IsBudgetCollateralValid` does not return:
it builds its error message from `txCollateral->ToString()`, an access through the null
pointer. -/
theorem IsBudgetCollateralValid_missing_faults (env : CollateralEnv)
    (nTxCollateralHash nExpectedHash : Nat) (nTime nConf : Int) (fBudgetFinalization : Bool)
    (hmissing : env.GetTransaction nTxCollateralHash = none) :
    IsBudgetCollateralValid env nTxCollateralHash nExpectedHash nTime nConf fBudgetFinalization
      = Except.error Fault.nullDereference := by
  unfold IsBudgetCollateralValid
  rw [hmissing]

/-- Witness for C26: a chain state without transactions and the collateral hash 7. -/
theorem IsBudgetCollateralValid_missing_faults_witness :
    IsBudgetCollateralValid emptyCollateralEnv 7 6 0 0 false
      = Except.error Fault.nullDereference :=
  IsBudgetCollateralValid_missing_faults emptyCollateralEnv 7 6 0 0 false rfl

/-! ## Orphan votes -/

set_option maxRecDepth 100000 in
/-- C21, the code at the failing input: a peer sends the votes of the masternodes 1 and
2 on a proposal, and on a finalized budget, that the synced node does not know.  Each
orphan map is keyed by the hash of the voted object, so the second vote replaces the
first: after the calls each map holds the vote of masternode 2 alone.  Once the proposal
and the budget are known, `CheckOrphanVotes` replays that one vote and empties the maps;
the vote of masternode 1 reaches neither the proposal nor the budget. -/
theorem UpdateProposal_orphan_overwritten :
    (CBudgetManager.empty.UpdateProposal smallNodeEnv (orphanVote 1) (some 0)).2.mapOrphanMasternodeBudgetVotes
        = [(orphanProposal.GetHash smallNodeEnv.toEnv, orphanVote 1)] ∧
      exampleOrphans.mapOrphanMasternodeBudgetVotes
        = [(orphanProposal.GetHash smallNodeEnv.toEnv, orphanVote 2)] ∧
      exampleOrphans.mapOrphanFinalizedBudgetVotes
        = [(orphanBudget.GetHash smallNodeEnv.toEnv, orphanFinalizedVote 2)] ∧
      exampleOrphansKnown.mapProposals
        = [(orphanProposal.GetHash smallNodeEnv.toEnv, orphanProposal)] ∧
      (exampleOrphansKnown.CheckOrphanVotes smallNodeEnv).mapProposals
        = [(orphanProposal.GetHash smallNodeEnv.toEnv,
            { orphanProposal with mapVotes := [(2, orphanVote 2)] })] ∧
      (exampleOrphansKnown.CheckOrphanVotes smallNodeEnv).mapFinalizedBudgets
        = [(orphanBudget.GetHash smallNodeEnv.toEnv,
            { orphanBudget with mapVotes := [(2, orphanFinalizedVote 2)] })] ∧
      (exampleOrphansKnown.CheckOrphanVotes smallNodeEnv).mapOrphanMasternodeBudgetVotes = [] ∧
      (exampleOrphansKnown.CheckOrphanVotes smallNodeEnv).mapOrphanFinalizedBudgetVotes = [] := by
  decide

/-! ## The automatic check in the maintenance cycle -/

namespace StdMap

theorem mem_insert {V : Type} (m : StdMap V) (k : Nat) (v : V) (e : Nat × V)
    (he : e ∈ insert m k v) : e ∈ m ∨ e = (k, v) := by
  unfold insert at he
  cases hc : contains m k with
  | true =>
      rw [hc] at he
      exact Or.inl he
  | false =>
      rw [hc] at he
      have hfresh : ∀ e2 ∈ m, e2.1 ≠ k := by
        intro e2 he2 hk
        have : contains m k = true := (contains_eq_true_iff m k).2 ⟨e2, he2, hk⟩
        rw [hc] at this
        exact absurd this (by simp)
      have hperm := assign_perm k v m hfresh
      rcases List.mem_cons.1 (hperm.subset he) with h | h
      · exact Or.inr h
      · exact Or.inl h

end StdMap

namespace CBudgetManager

/-- Every entry that `CheckAndRemove` leaves in `mapFinalizedBudgets` is a copy made by
the copy constructor, so its flag `fAutoChecked` is false, whatever `CheckAndVote` did
to the entry it was copied from. -/
theorem CheckAndRemoveLoop_resets (env : NodeEnv) (pindex : Option CBlockIndex) :
    ∀ (budgets tmp : StdMap CFinalizedBudget) (mapProposals : List CBudgetProposal)
      (result : List Bool × StdMap CFinalizedBudget × List CBudgetProposal),
      (∀ e ∈ tmp, e.2.fAutoChecked = false) →
      CheckAndRemoveLoop env pindex budgets tmp mapProposals = Except.ok result →
      ∀ e ∈ result.2.1, e.2.fAutoChecked = false
  | [], tmp, _, result, htmp, hresult => by
      unfold CheckAndRemoveLoop at hresult
      cases hresult
      exact htmp
  | (k, B) :: rest, tmp, mapProposals, result, htmp, hresult => by
      unfold CheckAndRemoveLoop at hresult
      cases hv : B.IsValid env.toEnv pindex true with
      | error fault =>
          rw [hv] at hresult
          cases hresult
      | ok valid =>
          rw [hv] at hresult
          dsimp only at hresult
          by_cases hf : valid.1 = true
          · rw [if_pos hf] at hresult
            split at hresult
            · cases hresult
            · rename_i tail ht
              cases hresult
              refine CheckAndRemoveLoop_resets env pindex rest _ _ tail ?_ ht
              intro e he
              rcases StdMap.mem_insert _ _ _ _ he with h | h
              · exact htmp e h
              · rw [h]
                rfl
          · rw [if_neg hf] at hresult
            exact CheckAndRemoveLoop_resets env pindex rest tmp mapProposals result htmp hresult

set_option maxRecDepth 100000 in
/-- C29, the code at the failing input: a masternode in budget mode `auto` whose
probability gate passes, and a finalized budget that matches the local budget.  In the
first maintenance cycle `CheckAndVote` sets `fAutoChecked` and submits the vote, but
`CheckAndRemove` keeps a copy of the budget, and the copy constructor sets the flag
back to false.  In the next cycle `CheckAndVote` on the surviving entry runs the
comparison and submits the vote again. -/
theorem CheckAndVote_runs_again_after_copy :
    (matchingBudget.CheckAndVote smallNodeEnv [smallProposal 20 10 VOTE_YES] (some ⟨95⟩)).1
        = true ∧
      (matchingBudget.CheckAndVote smallNodeEnv [smallProposal 20 10 VOTE_YES]
        (some ⟨95⟩)).2.1.fAutoChecked = true ∧
      (CheckAndRemove_mapFinalizedBudgets smallNodeEnv
        [(matchingBudget.GetHash smallNodeEnv.toEnv, matchingBudget)]
        [smallProposal 20 10 VOTE_YES] (some ⟨95⟩)).map (fun cycle => (cycle.1, cycle.2.1))
        = Except.ok ([true], [(matchingBudget.GetHash smallNodeEnv.toEnv, matchingBudget)]) ∧
      matchingBudget.fAutoChecked = false ∧
      ((CheckAndRemove_mapFinalizedBudgets smallNodeEnv
          [(matchingBudget.GetHash smallNodeEnv.toEnv, matchingBudget)]
          [smallProposal 20 10 VOTE_YES] (some ⟨95⟩)).bind
        (fun cycle =>
          CheckAndRemove_mapFinalizedBudgets smallNodeEnv cycle.2.1 cycle.2.2 (some ⟨95⟩))).map
        (fun cycle => cycle.1)
        = Except.ok [true] := by
  decide

end CBudgetManager

end Myce
